import Mathlib

/-!
# Regex file search (exercises/main.go and exercises/http_server.go)

A shallow embedding of the search code of the repository, of the test-data generator
exercises/profiling/00-base/cmd/generate/main.go (namespace `Generate`), of the aggregator of
the log analyzer exercises/mixed/main.go (namespace `LogAnalyzer`) and of the CPU-profiling
demo exercises/profiling/01-cpu/main.go (namespace `CpuDemo`).

* Go strings are Lean strings (text in UTF-8); the helpers work on their character lists.
* The standard library is not part of the repository.  The pure helpers the code calls
  (`filepath.Ext`, `strings.Split`, `strings.TrimSpace`) are modelled in namespace `Go`; the
  regular-expression engine, the file system and the JSON codec are the fields of `Env`.
* The global variable `allResults` is passed explicitly: every function that touches it takes
  its value before the call and returns its value after the call.
* A run-time panic of a Go function is the `Except.error` case of its result.
* `search` starts one goroutine per eligible file.  Every goroutine appends its matches one at
  a time, each under the lock `resultsMu`; the order in which the appends of different
  goroutines reach `allResults` is chosen by the scheduler, which is the parameter `sched`.
* Two calls of `search` that run at the same time are two sequences of critical sections
  (`Op`) on the one `allResults`, interleaved by `mergeOps` and run by `runTwo`.
* On a file tree, `Fs.WalkWith` follows `filepath.Walk` with the error returned by the
  `WalkFunc` deciding whether the walk goes on; `Env.Walk` lists the calls of a walk in which
  every call returns nil.
* The goroutines alive at the same time during a call of `search` are counted by the steps of
  `McpServer.searchRun`, where the walk and every goroutine started take turns.
-/

set_option autoImplicit false

/-! ## Data model -/

/-- The struct `Match` (the same fields in main.go and in http_server.go). -/
structure Match where
  File : String
  Line : Int
  Content : String
deriving DecidableEq, Repr

/-- The struct `SearchInput` of main.go; an absent `max_results` decodes to 0. -/
structure SearchInput where
  Pattern : String
  Paths : List String
  MaxResults : Int
deriving DecidableEq, Repr

/-- The struct `SearchOutput` of main.go. -/
structure SearchOutput where
  Matches : List Match
  Total : Int
deriving DecidableEq, Repr

/-- The struct `SearchRequest` of http_server.go; an absent `max_results` decodes to 0. -/
structure SearchRequest where
  Pattern : String
  Paths : List String
  MaxResults : Int
deriving DecidableEq, Repr

/-- The struct `SearchResponse` of http_server.go. -/
structure SearchResponse where
  Matches : List Match
  Total : Int
deriving DecidableEq, Repr

/-- The value `mcp.CallToolResultFor[SearchOutput]` built by `SearchTool`: the structured
output and the text contents. -/
structure CallToolResult where
  StructuredContent : SearchOutput
  Content : List String
deriving DecidableEq, Repr

/-- What `searchHandler` writes to the `http.ResponseWriter`: either `http.Error(w, msg, code)`
or the JSON encoding of a `SearchResponse` with the default status 200. -/
inductive HttpResponse where
  | error (msg : String) (code : Nat)
  | json (response : SearchResponse)
deriving DecidableEq, Repr

/-- The part of `http.Request` that `searchHandler` reads. -/
structure HttpRequest where
  Method : String
  Body : String
deriving DecidableEq, Repr

/-! ## The environment: regexp engine, file system, JSON codec -/

/-- A compiled regular expression (`*regexp.Regexp`), observed through `MatchString`. -/
structure Regexp where
  MatchString : String → Bool

/-- The arguments `(filePath, info, err)` of one call of the `WalkFunc` by `filepath.Walk`:
`IsDir` is `info.IsDir()` and `err` tells whether the error argument is non-nil. -/
structure WalkEntry where
  filePath : String
  IsDir : Bool
  err : Bool
deriving DecidableEq, Repr

/-- The library calls whose result depends on the world outside the program.

* `Compile` is `regexp.Compile` (`none`: the pattern does not compile);
* `ReadFile` is `os.ReadFile` (`none`: the file cannot be read);
* `Walk root` is the sequence of calls `filepath.Walk(root, fn)` makes to a `fn` that always
  returns nil, as the one of `search` does;
* `MarshalIndent` is `json.MarshalIndent(output, "", "  ")` (`none`: an error);
* `Decode` is `json.NewDecoder(r.Body).Decode(&req)` (`none`: an error). -/
structure Env where
  Compile : String → Option Regexp
  ReadFile : String → Option String
  Walk : String → List WalkEntry
  MarshalIndent : SearchOutput → Option String
  Decode : String → Option SearchRequest

/-- The same environment with the file `f` removed from the tree: no walk meets it. -/
def Env.withoutFile (env : Env) (f : String) : Env :=
  { env with Walk := fun root => (env.Walk root).filter (fun e => e.filePath != f) }

/-! ## Pure library helpers -/

namespace Go

/-- Scan of `filepath.Ext` from the end of the path: `acc` is the part already passed. -/
def extAux : List Char → List Char → List Char
  | [], _ => []
  | c :: rest, acc =>
    if c = '/' then []
    else if c = '.' then '.' :: acc
    else extAux rest (c :: acc)

/-- The function `filepath.Ext`: the suffix beginning at the final dot in the final element
of the path, empty if there is no dot (the separator is the slash). -/
def Ext (path : String) : String :=
  String.mk (extAux path.data.reverse [])

/-- The function `unicode.IsSpace`. -/
def isSpace (c : Char) : Bool :=
  let n := c.toNat
  (9 ≤ n && n ≤ 13) || n = 32 || n = 0x85 || n = 0xA0 || n = 0x1680 ||
    (0x2000 ≤ n && n ≤ 0x200a) || n = 0x2028 || n = 0x2029 || n = 0x202f ||
    n = 0x205f || n = 0x3000

/-- The function `strings.TrimSpace`: leading and trailing white space removed. -/
def TrimSpace (s : String) : String :=
  String.mk ((s.data.dropWhile isSpace).reverse.dropWhile isSpace).reverse

/-- The pieces of a character list between the occurrences of `sep`. -/
def splitAux (sep : Char) : List Char → List (List Char)
  | [] => [[]]
  | c :: cs =>
    if c = sep then [] :: splitAux sep cs
    else
      match splitAux sep cs with
      | [] => [[c]]
      | piece :: pieces => (c :: piece) :: pieces

/-- The function `strings.Split` for a separator of one character, as in
`strings.Split(string(content), "\n")`: k occurrences of the separator give k+1 pieces. -/
def Split (s : String) (sep : Char) : List String :=
  (splitAux sep s.data).map String.mk

end Go

/-! ## The scheduler -/

/-- The appends of the running goroutines reach `allResults` one at a time.  `pending` holds,
for every goroutine started, the matches it has still to append, in its own order.  Every
number of the schedule picks the goroutine that appends next, among those that have something
left; when the schedule is used up the goroutines left run one after the other in the order
they were started.  The result is `allResults` when `wg.Wait()` returns. -/
def runGoroutines : List Nat → List (List Match) → List Match → List Match
  | [], pending, allResults => allResults ++ pending.flatten
  | k :: sched, pending, allResults =>
    let live := pending.filter (fun q => !q.isEmpty)
    match live[k % live.length]? with
    | some (m :: rest) =>
      runGoroutines sched (live.set (k % live.length) rest) (allResults ++ [m])
    | _ => allResults

/-! ## exercises/main.go -/

namespace McpServer

/-- The loop `for lineNum, line := range lines` of `searchFile`: `lineNum` is the index of the
first line left. -/
def searchFileLoop (re : Regexp) (filePath : String) :
    List String → Int → List Match → List Match
  | [], _, allResults => allResults
  | line :: rest, lineNum, allResults =>
    if re.MatchString line then
      searchFileLoop re filePath rest (lineNum + 1)
        (allResults ++ [{ File := filePath, Line := lineNum + 1, Content := Go.TrimSpace line }])
    else
      searchFileLoop re filePath rest (lineNum + 1) allResults

/-- The function `searchFile` of main.go, from `allResults` before the call to `allResults`
after it. -/
def searchFile (env : Env) (filePath : String) (pattern : String)
    (allResults : List Match) : List Match :=
  match env.Compile pattern with
  | none => allResults
  | some re =>
    match env.ReadFile filePath with
    | none => allResults
    | some content =>
      searchFileLoop re filePath (Go.Split content '\n') 0 allResults

/-- The `WalkFunc` of `search`: the file a goroutine is started for, if any. -/
def walkFn (e : WalkEntry) : Option String :=
  if e.err then none
  else if e.IsDir || Go.Ext e.filePath != ".go" then none
  else some e.filePath

/-- The files `search` starts a goroutine for, in the order the goroutines are started: the
loop over `paths` with the walk of each path. -/
def spawned (env : Env) : List String → List String
  | [] => []
  | path :: paths => (env.Walk path).filterMap walkFn ++ spawned env paths

/-- The function `search` of main.go.  The first component is the slice returned, or the
panic of the slice expression `allResults[:maxResults]` when `maxResults` is negative; the
second is `allResults` after the call.  A goroutine appends what `searchFile` appends.  The
`WalkFunc` always returns nil, so `filepath.Walk` returns nil and nothing is logged. -/
def search (env : Env) (sched : List Nat) (pattern : String) (paths : List String)
    (maxResults : Int) (_allResults : List Match) : Except String (List Match) × List Match :=
  let allResults : List Match := []
  let pending := (spawned env paths).map (fun fp => searchFile env fp pattern [])
  let allResults := runGoroutines sched pending allResults
  if (allResults.length : Int) > maxResults then
    if maxResults < 0 then
      (.error "slice bounds out of range", allResults)
    else
      (.ok (allResults.take maxResults.toNat), allResults)
  else
    (.ok allResults, allResults)

/-- The number of matching lines in the eligible files under the given paths: for every file
a goroutine is started for, the lines of its content that the compiled pattern matches.  A
file that cannot be read has no line, and a pattern that does not compile matches nothing. -/
def matchingLineCount (env : Env) (pattern : String) (paths : List String) : Nat :=
  match env.Compile pattern with
  | none => 0
  | some re =>
    ((spawned env paths).map (fun fp =>
      match env.ReadFile fp with
      | none => 0
      | some content => (Go.Split content '\n').countP re.MatchString)).sum

/-- The function `SearchTool` of main.go: the result returned (or the panic of `search`) and
`allResults` after the call. -/
def SearchTool (env : Env) (sched : List Nat) (args : SearchInput)
    (allResults : List Match) : Except String (Except String CallToolResult) × List Match :=
  let maxResults := if args.MaxResults = 0 then 100 else args.MaxResults
  match search env sched args.Pattern args.Paths maxResults allResults with
  | (.error p, allResults) => (.error p, allResults)
  | (.ok found, allResults) =>
    let output : SearchOutput := { Matches := found, Total := found.length }
    match env.MarshalIndent output with
    | none => (.ok (.error "JSON serialization error"), allResults)
    | some jsonBytes =>
      (.ok (.ok { StructuredContent := output, Content := [jsonBytes] }), allResults)

end McpServer

/-! ## exercises/http_server.go -/

namespace HttpServer

/-- The loop `for lineNum, line := range lines` of `searchFile`. -/
def searchFileLoop (re : Regexp) (filePath : String) :
    List String → Int → List Match → List Match
  | [], _, allResults => allResults
  | line :: rest, lineNum, allResults =>
    if re.MatchString line then
      searchFileLoop re filePath rest (lineNum + 1)
        (allResults ++ [{ File := filePath, Line := lineNum + 1, Content := Go.TrimSpace line }])
    else
      searchFileLoop re filePath rest (lineNum + 1) allResults

/-- The function `searchFile` of http_server.go. -/
def searchFile (env : Env) (filePath : String) (pattern : String)
    (allResults : List Match) : List Match :=
  match env.Compile pattern with
  | none => allResults
  | some re =>
    match env.ReadFile filePath with
    | none => allResults
    | some content =>
      searchFileLoop re filePath (Go.Split content '\n') 0 allResults

/-- The `WalkFunc` of `search`. -/
def walkFn (e : WalkEntry) : Option String :=
  if e.err then none
  else if e.IsDir || Go.Ext e.filePath != ".go" then none
  else some e.filePath

/-- The files `search` starts a goroutine for, in the order the goroutines are started. -/
def spawned (env : Env) : List String → List String
  | [] => []
  | path :: paths => (env.Walk path).filterMap walkFn ++ spawned env paths

/-- The function `search` of http_server.go. -/
def search (env : Env) (sched : List Nat) (pattern : String) (paths : List String)
    (maxResults : Int) (_allResults : List Match) : Except String (List Match) × List Match :=
  let allResults : List Match := []
  let pending := (spawned env paths).map (fun fp => searchFile env fp pattern [])
  let allResults := runGoroutines sched pending allResults
  if (allResults.length : Int) > maxResults then
    if maxResults < 0 then
      (.error "slice bounds out of range", allResults)
    else
      (.ok (allResults.take maxResults.toNat), allResults)
  else
    (.ok allResults, allResults)

/-- The function `searchHandler` of http_server.go: the response written (or the panic of
`search`, after which nothing is written) and `allResults` after the call. -/
def searchHandler (env : Env) (sched : List Nat) (r : HttpRequest)
    (allResults : List Match) : Except String HttpResponse × List Match :=
  if r.Method != "POST" then
    (.ok (.error "Method not allowed" 405), allResults)
  else
    match env.Decode r.Body with
    | none => (.ok (.error "Invalid request body" 400), allResults)
    | some req =>
      let maxResults := if req.MaxResults = 0 then 100 else req.MaxResults
      match search env sched req.Pattern req.Paths maxResults allResults with
      | (.error p, allResults) => (.error p, allResults)
      | (.ok found, allResults) =>
        (.ok (.json { Matches := found, Total := found.length }), allResults)

end HttpServer

/-! ## A concrete environment

The theorems below hold for every `Env`.  To run the code on concrete inputs, this section
builds an `Env` from a file tree and from a small regular-expression engine. -/

namespace Re

/-- One element of a pattern of the subset: a character or `.` (`dot`), alone or starred. -/
structure Atom where
  dot : Bool
  c : Char
  starred : Bool
deriving DecidableEq, Repr

/-- The characters with a special meaning in a Go pattern:
backslash . + * ? ( ) | [ ] { } ^ $ -/
def isMeta (c : Char) : Bool :=
  [92, 46, 43, 42, 63, 40, 41, 124, 91, 93, 123, 125, 94, 36].contains c.toNat

/-- The atoms of a pattern body and whether it ends with `$`; `none` outside the subset. -/
def parseAtoms : List Char → Option (List Atom × Bool)
  | [] => some ([], false)
  | c :: rest =>
    if c = '$' ∧ rest = [] then some ([], true)
    else if isMeta c ∧ c ≠ '.' then none
    else
      match rest with
      | d :: rest2 =>
        if d = '*' then
          (parseAtoms rest2).map (fun r => (⟨c = '.', c, true⟩ :: r.1, r.2))
        else
          (parseAtoms (d :: rest2)).map (fun r => (⟨c = '.', c, false⟩ :: r.1, r.2))
      | [] => some ([⟨c = '.', c, false⟩], false)

/-- Whether the atom accepts the character `x`; `.` accepts everything but a newline. -/
def accepts (a : Atom) (x : Char) : Bool :=
  if a.dot then x != '\n' else x = a.c

/-- A starred atom followed by the rest `k` of the pattern, at the start of the text. -/
def matchStar (a : Atom) (k : List Char → Bool) : List Char → Bool
  | [] => k []
  | x :: t => k (x :: t) || (accepts a x && matchStar a k t)

/-- Whether the atoms match at the start of the text (up to its end when `atEnd`). -/
def matchHere (atEnd : Bool) : List Atom → List Char → Bool
  | [], t => !atEnd || t.isEmpty
  | a :: r, t =>
    if a.starred then matchStar a (matchHere atEnd r) t
    else
      match t with
      | [] => false
      | x :: t2 => accepts a x && matchHere atEnd r t2

/-- Whether the atoms match somewhere in the text. -/
def matchAnywhere (atEnd : Bool) (atoms : List Atom) : List Char → Bool
  | [] => matchHere atEnd atoms []
  | x :: t => matchHere atEnd atoms (x :: t) || matchAnywhere atEnd atoms t

/-- The function `regexp.Compile` on a subset of the patterns, with `MatchString`: an optional
`^`, then characters that are not special and `.`, each optionally followed by one `*`, then
an optional `$`.  On these patterns the result is the one of Go.  Every other pattern is
rejected: some of them Go rejects too, such as the unbalanced group `(`; the others are not
used below. -/
def Compile (pattern : String) : Option Regexp :=
  match pattern.data with
  | c :: rest =>
    if c = '^' then
      (parseAtoms rest).map (fun r => ⟨fun s => matchHere r.2 r.1 s.data⟩)
    else
      (parseAtoms (c :: rest)).map (fun r => ⟨fun s => matchAnywhere r.2 r.1 s.data⟩)
  | [] => some ⟨fun _ => true⟩

end Re

namespace Fs

mutual
/-- A node of a file tree: a regular file with its content, a file that cannot be read, a
directory with its entries in the order `filepath.Walk` visits them (sorted by name), a
directory whose entries cannot be listed, or a name whose `Lstat` fails. -/
inductive Node where
  | file (content : String)
  | unreadable
  | dir (entries : Entries)
  | lockedDir
  | broken
/-- The entries of a directory. -/
inductive Entries where
  | nil
  | cons (name : String) (node : Node) (rest : Entries)
end

mutual
/-- The calls `filepath.Walk` makes to the `WalkFunc` for the node at `path`. -/
def walk (path : String) : Node → List WalkEntry
  | .file _ => [⟨path, false, false⟩]
  | .unreadable => [⟨path, false, false⟩]
  | .dir entries => ⟨path, true, false⟩ :: walkEntries path entries
  | .lockedDir => [⟨path, true, true⟩]
  | .broken => [⟨path, false, true⟩]
/-- The calls for the entries of the directory at `path`. -/
def walkEntries (path : String) : Entries → List WalkEntry
  | .nil => []
  | .cons name node rest => walk (path ++ "/" ++ name) node ++ walkEntries path rest
end

/-- The entry called `name`. -/
def Entries.find (name : String) : Entries → Option Node
  | .nil => none
  | .cons n node rest => if n = name then some node else Entries.find name rest

/-- The node a path of plain names leads to, from the working directory. -/
def resolve : List String → Entries → Option Node
  | [], _ => none
  | [name], es => es.find name
  | name :: names, es =>
    match es.find name with
    | some (.dir sub) => resolve names sub
    | _ => none

/-- The node at a slash-separated path. -/
def lookup (cwd : Entries) (path : String) : Option Node :=
  resolve (Go.Split path '/') cwd

/-- The function `os.ReadFile` on the tree. -/
def ReadFile (cwd : Entries) (path : String) : Option String :=
  match lookup cwd path with
  | some (.file content) => some content
  | _ => none

/-- The function `filepath.Walk` on the tree; a root that does not exist gives one call with
an error. -/
def Walk (cwd : Entries) (root : String) : List WalkEntry :=
  match lookup cwd root with
  | some node => walk root node
  | none => [⟨root, false, true⟩]

end Fs

namespace Demo

/-- One match in the layout of `json.MarshalIndent(output, "", "  ")`; the strings of the
examples need no escaping. -/
def renderMatch (m : Match) : String :=
  "    \x7b\n      \"file\": \"" ++ m.File ++ "\",\n      \"line\": " ++ toString m.Line ++
    ",\n      \"content\": \"" ++ m.Content ++ "\"\n    \x7d"

/-- The text of `json.MarshalIndent(output, "", "  ")`, never an error. -/
def MarshalIndent (output : SearchOutput) : Option String :=
  let body :=
    if output.Matches.isEmpty then "[]"
    else "[\n" ++ ",\n".intercalate (output.Matches.map renderMatch) ++ "\n  ]"
  some ("\x7b\n  \"matches\": " ++ body ++ ",\n  \"total\": " ++ toString output.Total ++ "\n\x7d")

/-- The environment of a file tree: the regexp engine `Re.Compile`, the files of `cwd`, and
a JSON decoder given by the table `bodies` of the request bodies it accepts. -/
def env (cwd : Fs.Entries) (bodies : List (String × SearchRequest)) : Env where
  Compile := Re.Compile
  ReadFile := Fs.ReadFile cwd
  Walk := Fs.Walk cwd
  MarshalIndent := MarshalIndent
  Decode := fun body => bodies.lookup body

/-- The scenario of the specification with Go files: a directory `dir` with `a.go`
(lines "func Foo", "bar") and `b.go` (lines "func Bar", "baz"). -/
def goDir : Fs.Entries :=
  .cons "dir" (.dir (.cons "a.go" (.file "func Foo\nbar")
    (.cons "b.go" (.file "func Bar\nbaz") .nil))) .nil

/-- The scenario of the specification as written: `dir` with `a.txt` and `b.txt`. -/
def txtDir : Fs.Entries :=
  .cons "dir" (.dir (.cons "a.txt" (.file "func Foo\nbar")
    (.cons "b.txt" (.file "func Bar\nbaz") .nil))) .nil

/-- A directory `dir` with the Go files `a.go`, `b.go` which cannot be read, and `c.go`. -/
def mixedDir : Fs.Entries :=
  .cons "dir" (.dir (.cons "a.go" (.file "func Foo\nbar")
    (.cons "b.go" .unreadable
    (.cons "c.go" (.file "x\nfunc Baz") .nil)))) .nil

/-- Three request bodies and what the JSON decoder makes of them: the first has no
`max_results`, the second has `max_results` 100, the third has `max_results` 1. -/
def bodies : List (String × SearchRequest) :=
  [("\x7b\"pattern\":\"func\",\"paths\":[\"dir\"]\x7d", ⟨"func", ["dir"], 0⟩),
   ("\x7b\"pattern\":\"func\",\"paths\":[\"dir\"],\"max_results\":100\x7d",
     ⟨"func", ["dir"], 100⟩),
   ("\x7b\"pattern\":\"func\",\"paths\":[\"dir\"],\"max_results\":1\x7d",
     ⟨"func", ["dir"], 1⟩)]

/-- The content of exercises/testdata/sample.go. -/
def sampleGo : String :=
  "package testdata\n\nimport (\n\t\"fmt\"\n\t\"time\"\n)\n\n" ++
  "// Sample functions for testing the search MCP server\n\n" ++
  "func HelloWorld() \x7b\n\tfmt.Println(\"Hello, World!\")\n\x7d\n\n" ++
  "func Add(a, b int) int \x7b\n\treturn a + b\n\x7d\n\n" ++
  "func Multiply(x, y int) int \x7b\n\treturn x * y\n\x7d\n\n" ++
  "func ProcessData(data []string) \x7b\n\tfor _, item := range data \x7b\n" ++
  "\t\tfmt.Println(item)\n\t\x7d\n\x7d\n\nfunc Calculate(n int) int \x7b\n" ++
  "\tresult := 0\n\tfor i := 0; i < n; i++ \x7b\n\t\tresult += i\n\t\x7d\n" ++
  "\treturn result\n\x7d\n\n" ++
  "func WaitAndPrint(duration time.Duration, message string) \x7b\n" ++
  "\ttime.Sleep(duration)\n\tfmt.Println(message)\n\x7d\n\ntype User struct \x7b\n" ++
  "\tName  string\n\tEmail string\n\tAge   int\n\x7d\n\n" ++
  "func NewUser(name, email string, age int) *User \x7b\n\treturn &User\x7b\n" ++
  "\t\tName:  name,\n\t\tEmail: email,\n\t\tAge:   age,\n\t\x7d\n\x7d\n\n" ++
  "func (u *User) Greet() string \x7b\n" ++
  "\treturn fmt.Sprintf(\"Hello, I\x27m %s\", u.Name)\n\x7d\n\n" ++
  "func (u *User) IsAdult() bool \x7b\n\treturn u.Age >= 18\n\x7d\n\n" ++
  "func Sum(numbers ...int) int \x7b\n\ttotal := 0\n" ++
  "\tfor _, num := range numbers \x7b\n\t\ttotal += num\n\t\x7d\n\treturn total\n" ++
  "\x7d\n\nfunc Filter(items []int, predicate func(int) bool) []int \x7b\n" ++
  "\tresult := []int\x7b\x7d\n\tfor _, item := range items \x7b\n" ++
  "\t\tif predicate(item) \x7b\n\t\t\tresult = append(result, item)\n\t\t\x7d\n" ++
  "\t\x7d\n\treturn result\n\x7d\n\n" ++
  "func Map(items []int, transform func(int) int) []int \x7b\n" ++
  "\tresult := make([]int, len(items))\n\tfor i, item := range items \x7b\n" ++
  "\t\tresult[i] = transform(item)\n\t\x7d\n\treturn result\n\x7d\n\n"

/-- The directory `testdata` of the repository, which holds `sample.go` only. -/
def testdata : Fs.Entries :=
  .cons "testdata" (.dir (.cons "sample.go" (.file sampleGo) .nil)) .nil

end Demo

namespace Demo

/-- A tree with a nested directory: `dir` holds `a.go`, `b.txt`, a directory named `d.go`
with the file `e.txt`, and the directory `sub` with `c.go`. -/
def nestedDir : Fs.Entries :=
  .cons "dir" (.dir (.cons "a.go" (.file "func Foo\nbar")
    (.cons "b.txt" (.file "func Txt")
    (.cons "d.go" (.dir (.cons "e.txt" (.file "func Inner") .nil))
    (.cons "sub" (.dir (.cons "c.go" (.file "x\nfunc Baz") .nil)) .nil))))) .nil

end Demo

/-- The same environment with the calls of the `WalkFunc` that carry an error left out: the
walks of the tree from which the entries that cannot be walked are removed. -/
def Env.withoutWalkErrors (env : Env) : Env :=
  { env with Walk := fun root => (env.Walk root).filter (fun e => !e.err) }

namespace Demo

/-- A directory `dir` with `a.go`, the entry `bad.go` whose `Lstat` fails, the broken
symbolic link `link.go` (met without error by the walk, but it cannot be read), the directory
`locked` that cannot be listed, and `z.go`. -/
def brokenDir : Fs.Entries :=
  .cons "dir" (.dir (.cons "a.go" (.file "func Foo\nbar")
    (.cons "bad.go" .broken
    (.cons "link.go" .unreadable
    (.cons "locked" .lockedDir
    (.cons "z.go" (.file "func Zed") .nil)))))) .nil

/-- The tree `brokenDir` without its entries that cannot be walked. -/
def cleanDir : Fs.Entries :=
  .cons "dir" (.dir (.cons "a.go" (.file "func Foo\nbar")
    (.cons "z.go" (.file "func Zed") .nil))) .nil

/-- A request body with the pattern `(`, which does not compile, and its decoding. -/
def badPatternBodies : List (String × SearchRequest) :=
  [("\x7b\"pattern\":\"(\",\"paths\":[\"dir\"]\x7d", ⟨"(", ["dir"], 0⟩)]

end Demo

/-! ## Two queries at the same time

Every access of `search` and of `searchFile` to `allResults` is made with the lock
`resultsMu` held.  A call of `search` is therefore a sequence of critical sections on the one
global list: the reset, one append for each match of its goroutines, and the final read.  Two
calls that run at the same time interleave their critical sections. -/

/-- A critical section of a call of `search`: the reset `allResults = []Match{}`, the append
`allResults = append(allResults, match)` of `searchFile`, or the final read that returns
`allResults[:maxResults]` or `allResults`. -/
inductive Op where
  | reset
  | append (m : Match)
  | cut (maxResults : Int)
deriving DecidableEq, Repr

/-- One critical section: `allResults` after it and, for the final read, the result of the
call (a slice, or the panic of the slice expression). -/
def Op.run : Op → List Match → List Match × Option (Except String (List Match))
  | .reset, _ => ([], none)
  | .append m, allResults => (allResults ++ [m], none)
  | .cut maxResults, allResults =>
    if (allResults.length : Int) > maxResults then
      if maxResults < 0 then
        (allResults, some (.error "slice bounds out of range"))
      else
        (allResults, some (.ok (allResults.take maxResults.toNat)))
    else
      (allResults, some (.ok allResults))

/-- The critical sections of a sequence run one after the other: `allResults` after them and
the result of the last final read among them, if any (`res` before them). -/
def runOps : List Op → List Match → Option (Except String (List Match)) →
    List Match × Option (Except String (List Match))
  | [], allResults, res => (allResults, res)
  | op :: ops, allResults, res =>
    match op.run allResults with
    | (allResults, none) => runOps ops allResults res
    | (allResults, some r) => runOps ops allResults (some r)

/-- An interleaving of the critical sections of two calls: every turn tells whether the first
call (`true`) or the second goes on; a call that has finished lets the other go on, and when
the turns are used up the first call runs to its end, then the second. -/
def mergeOps : List Bool → List Op → List Op → List (Bool × Op)
  | [], first, second => first.map (fun op => (true, op)) ++ second.map (fun op => (false, op))
  | turn :: turns, first, second =>
    if turn then
      match first with
      | op :: rest => (true, op) :: mergeOps turns rest second
      | [] => mergeOps turns [] second
    else
      match second with
      | op :: rest => (false, op) :: mergeOps turns first rest
      | [] => mergeOps turns first []

/-- The interleaved critical sections of two calls run on the one `allResults`: the list
after them, the result of the first call and the result of the second call. -/
def runTwo : List (Bool × Op) → List Match → Option (Except String (List Match)) →
    Option (Except String (List Match)) →
    List Match × Option (Except String (List Match)) × Option (Except String (List Match))
  | [], allResults, res1, res2 => (allResults, res1, res2)
  | (who, op) :: ops, allResults, res1, res2 =>
    match op.run allResults with
    | (allResults, none) => runTwo ops allResults res1 res2
    | (allResults, some r) =>
      if who then runTwo ops allResults (some r) res2
      else runTwo ops allResults res1 (some r)

namespace McpServer

/-- The critical sections of one call of `search`, in the order they are run: the reset, the
appends of its goroutines in the order the scheduler lets them reach `allResults`, and the
final read. -/
def searchOps (env : Env) (sched : List Nat) (pattern : String) (paths : List String)
    (maxResults : Int) : List Op :=
  Op.reset ::
    ((runGoroutines sched
      ((spawned env paths).map (fun fp => searchFile env fp pattern [])) []).map Op.append ++
      [Op.cut maxResults])

end McpServer

namespace Demo

/-- Two directories with one Go file each: `one/a.go` and `two/b.go`. -/
def twoDirs : Fs.Entries :=
  .cons "one" (.dir (.cons "a.go" (.file "func Foo") .nil))
    (.cons "two" (.dir (.cons "b.go" (.file "type Bar") .nil)) .nil)

end Demo

namespace Demo

/-- The entries `name.go`, `namex.go`, `namexx.go`, ...: `n` Go files with one line each. -/
def manyGoFiles : Nat → String → Fs.Entries
  | 0, _ => .nil
  | n + 1, name => .cons (name ++ ".go") (.file "func F") (manyGoFiles n (name ++ "x"))

/-- A directory `dir` with the `n` Go files `f.go`, `fx.go`, `fxx.go`, ... -/
def manyDir (n : Nat) : Fs.Entries :=
  .cons "dir" (.dir (manyGoFiles n "f")) .nil

end Demo

/-! ## exercises/profiling/00-base/cmd/generate/main.go

The random source of `math/rand` is a sequence `rnd` of raw values and the number `pos` of
values drawn so far; `rand.Intn(n)` is the next raw value modulo `n`.  The file is the list of
the strings passed to `file.WriteString`, in order; the writes are taken to succeed. -/

namespace Generate

/-- The slice `words` of `main`. -/
def words : List String :=
  ["error", "warning", "info", "debug", "trace",
   "success", "failure", "timeout", "connection", "request",
   "response", "server", "client", "database", "cache",
   "user", "admin", "guest", "system", "process"]

/-- The verb `%06d` of `fmt.Sprintf` for a number that is not negative: the decimal digits,
padded with zeros on the left to the width 6. -/
def Sprintf06d (i : Nat) : String :=
  String.mk (List.replicate (6 - (Nat.toDigits 10 i).length) '0' ++ Nat.toDigits 10 i)

/-- The verb `%d` of `fmt.Sprintf` for a number that is not negative. -/
def Sprintfd (n : Nat) : String :=
  String.mk (Nat.toDigits 10 n)

/-- The loop `for j := 0; j < numWords; j++` of `main`, with `left` iterations to go: every
iteration draws one number and adds a word and a blank to the line. -/
def addWords (rnd : Nat → Nat) : Nat → Nat → String → String × Nat
  | 0, pos, line => (line, pos)
  | left + 1, pos, line =>
    addWords rnd left (pos + 1) (line ++ words.getD (rnd pos % words.length) "" ++ " ")

/-- The body of the loop `for i := 0; i < 100000; i++` of `main`: the string written, if
any (none after `continue`), and the number of values drawn after it. -/
def iteration (rnd : Nat → Nat) (i : Nat) (pos : Nat) : Option String × Nat :=
  let line := "[" ++ Sprintf06d i ++ "] "
  if i = 314159 then
    (none, pos)
  else
    let numWords := rnd pos % 10 + 5
    let withWords := addWords rnd numWords (pos + 1) line
    let line := withWords.1 ++ ("timestamp=" ++ Sprintfd (1700000000 + rnd withWords.2 % 1000000)
      ++ " status=" ++ Sprintfd (rnd (withWords.2 + 1) % 500 + 100) ++ "\n")
    (some line, withWords.2 + 2)

/-- The loop `for i := 0; i < 100000; i++` of `main` with `left` iterations to go, from the
index `i`: the strings written to the file. -/
def mainLoop (rnd : Nat → Nat) : Nat → Nat → Nat → List String → List String
  | 0, _, _, written => written
  | left + 1, i, pos, written =>
    match iteration rnd i pos with
    | (none, pos) => mainLoop rnd left (i + 1) pos written
    | (some line, pos) => mainLoop rnd left (i + 1) pos (written ++ [line])

/-- The function `main` of the generator: `args` is `os.Args`, `createOk` tells whether
`os.Create` succeeds.  The result is the list of the strings written to the file, or `none`
when the program exits with status 1 before writing. -/
def main (args : List String) (createOk : Bool) (rnd : Nat → Nat) : Option (List String) :=
  if args.length < 2 then none
  else if !createOk then none
  else some (mainLoop rnd 100000 0 0 [])

end Generate

namespace Generate

/-- The shape of the line of index `i` in the words of the specification: the index printed
with `[%06d] `, then 5 to 14 words of the word list with a blank after each, then a timestamp
in 1700000000..1700999999 and a status in 100..599, then the newline. -/
def IsLine (i : Nat) (line : String) : Prop :=
  ∃ (ws : List String) (timestamp status : Nat),
    line = "[" ++ Sprintf06d i ++ "] " ++ String.join (ws.map (fun w => w ++ " ")) ++
      "timestamp=" ++ Sprintfd timestamp ++ " status=" ++ Sprintfd status ++ "\n" ∧
    5 ≤ ws.length ∧ ws.length ≤ 14 ∧ (∀ w ∈ ws, w ∈ words) ∧
    1700000000 ≤ timestamp ∧ timestamp ≤ 1700999999 ∧ 100 ≤ status ∧ status ≤ 599

end Generate

/-! ## exercises/mixed/main.go

A Go map is the list of its key-value pairs, with distinct keys; a key that is absent reads
as the zero value.  The counters are Go `int`s; every entry processed stores one response
time in memory, so the number of entries stays far below 2^63 and no counter overflows. -/

namespace Go

/-- The map read `m[k]`: the value stored for `k`, or the zero value. -/
def mapGet {K V : Type} [DecidableEq K] (m : List (K × V)) (k : K) (zero : V) : V :=
  match m with
  | [] => zero
  | (k2, v) :: rest => if k2 = k then v else mapGet rest k zero

/-- The map write `m[k] = v`. -/
def mapSet {K V : Type} [DecidableEq K] (m : List (K × V)) (k : K) (v : V) : List (K × V) :=
  match m with
  | [] => [(k, v)]
  | (k2, v2) :: rest => if k2 = k then (k, v) :: rest else (k2, v2) :: mapSet rest k v

end Go

namespace LogAnalyzer

/-- The struct `LogEntry`. -/
structure LogEntry where
  IP : String
  Timestamp : String
  Method : String
  Path : String
  Status : Int
  ResponseTime : Int
deriving DecidableEq, Repr

/-- The struct `Stats`, without its mutex. -/
structure Stats where
  IPCounts : List (String × Int)
  PathCounts : List (String × Int)
  StatusCounts : List (Int × Int)
  PathResponseTimes : List (String × List Int)
  TotalLines : Int
deriving DecidableEq, Repr

/-- The function `NewStats`: four empty maps. -/
def NewStats : Stats :=
  { IPCounts := [], PathCounts := [], StatusCounts := [], PathResponseTimes := [],
    TotalLines := 0 }

/-- The body of the loop of `aggregator` for one entry received: the four updates, each made
with the lock held. -/
def aggregate (stats : Stats) (entry : LogEntry) : Stats :=
  let stats := { stats with
    IPCounts := Go.mapSet stats.IPCounts entry.IP (Go.mapGet stats.IPCounts entry.IP 0 + 1) }
  let stats := { stats with
    PathCounts :=
      Go.mapSet stats.PathCounts entry.Path (Go.mapGet stats.PathCounts entry.Path 0 + 1) }
  let stats := { stats with
    StatusCounts :=
      Go.mapSet stats.StatusCounts entry.Status
        (Go.mapGet stats.StatusCounts entry.Status 0 + 1) }
  { stats with
    PathResponseTimes :=
      Go.mapSet stats.PathResponseTimes entry.Path
        (Go.mapGet stats.PathResponseTimes entry.Path [] ++ [entry.ResponseTime]) }

/-- The function `aggregator`: `results` is the sequence of the entries received from the
channel until it is closed; the result is `stats` when `done` is signalled. -/
def aggregator : List LogEntry → Stats → Stats
  | [], stats => stats
  | entry :: results, stats => aggregator results (aggregate stats entry)

/-- The sum of the counters of a map. -/
def total {K : Type} (m : List (K × Int)) : Int :=
  (m.map Prod.snd).sum

/-- The number of response times stored in a map of slices. -/
def stored {K : Type} (m : List (K × List Int)) : Int :=
  (m.map (fun kv => (kv.2.length : Int))).sum

end LogAnalyzer

namespace Generate

/-- Whether the letters `y` and `o` occur in a row, as they do at the end of the marker
"hogefugapiyo". -/
def hasYo : List Char → Bool
  | [] => false
  | c :: rest => (c == 'y' && rest.head? == some 'o') || hasYo rest

end Generate

/-! ## exercises/profiling/01-cpu/main.go

The type `int` has 64 bits: the product `n * len(words)` wraps around.  `sb.Grow` panics for
a negative count; whether the buffer of a count that is not negative can be allocated
depends on the machine and is the parameter `canAllocate`. -/

namespace CpuDemo

/-- The constant `numOfWords`. -/
def numOfWords : Int := 1000000

/-- The slice `words` of `buildText`. -/
def words : List String :=
  ["Alpha", "Bravo", "Charlie", "Delta", "Echo",
   "Foxtrot", "Golf", "Hotel", "India", "Juliett",
   "Kilo", "Lima", "Mike", "November", "Oscar",
   "Papa", "Quebec", "Romeo", "Sierra", "Tango",
   "Uniform", "Victor", "Whiskey", "X-ray", "Yankee", "Zulu"]

/-- The value of a 64-bit `int` after an operation with the exact result `x`. -/
def wrapInt (x : Int) : Int :=
  (x + 9223372036854775808) % 18446744073709551616 - 9223372036854775808

/-- The loop `for i := 0; i < n; i++` of `buildText` with `left` iterations to go: the
content of the builder `sb`. -/
def buildTextLoop : Nat → Nat → String → String
  | 0, _, sb => sb
  | left + 1, i, sb =>
    buildTextLoop left (i + 1) (sb ++ words.getD (i % words.length) "" ++ " ")

/-- The function `buildText`: the string returned, together with the content of the builder
`sb` when the function returns, or the panic of `sb.Grow`. -/
def buildText (canAllocate : Int → Bool) (n : Int) : Except String (String × String) :=
  let result := ""
  let count := wrapInt (n * words.length)
  if count < 0 then .error "strings.Builder.Grow: negative count"
  else if !canAllocate count then .error "runtime error: makeslice: len out of range"
  else
    let sb := buildTextLoop n.toNat 0 ""
    .ok (result, sb)

/-- The fields of `strings.Fields`: `cur` holds the characters of the field being read, in
reverse order. -/
def fieldsAux : List Char → List Char → List (List Char)
  | [], cur => if cur.isEmpty then [] else [cur.reverse]
  | c :: cs, cur =>
    if Go.isSpace c then
      if cur.isEmpty then fieldsAux cs [] else cur.reverse :: fieldsAux cs []
    else fieldsAux cs (c :: cur)

/-- The function `splitWords`, which is `strings.Fields`: the pieces of the text between runs
of white space, none of them empty. -/
def splitWords (text : String) : List String :=
  (fieldsAux text.data []).map String.mk

/-- The function `isValidWord`: whether the expression `^[a-zA-Z]+$` matches the word, which
is to say that the word is one or more letters of the ASCII alphabet. -/
def isValidWord (word : String) : Bool :=
  !word.data.isEmpty &&
    word.data.all (fun c => ('a' ≤ c && c ≤ 'z') || ('A' ≤ c && c ≤ 'Z'))

/-- The loop `for _, word := range words` of `countWords`. -/
def countWordsLoop : List String → List (String × Int) → List (String × Int)
  | [], wordCount => wordCount
  | word :: rest, wordCount =>
    if isValidWord word then
      countWordsLoop rest (Go.mapSet wordCount word (Go.mapGet wordCount word 0 + 1))
    else countWordsLoop rest wordCount

/-- The function `countWords`. -/
def countWords (text : String) : List (String × Int) :=
  countWordsLoop (splitWords text) []

/-- The function `main`: the lines printed, or the message of `log.Fatal` or of the panic
that ends the program; `createOk` and `startOk` tell whether `os.Create` and
`pprof.StartCPUProfile` succeed. -/
def main (createOk startOk : Bool) (canAllocate : Int → Bool) : Except String (List String) :=
  if !createOk then .error "could not create CPU profile: "
  else if !startOk then .error "could not start CPU profile: "
  else
    match buildText canAllocate numOfWords with
    | .error p => .error p
    | .ok (text, _) =>
      let wordCount := countWords text
      .ok ["Processed " ++ Nat.repr wordCount.length ++ " unique words\n",
           "Total text length: " ++ Nat.repr text.utf8ByteSize ++ " characters\n"]

end CpuDemo

namespace Demo

/-- A request body with `max_results` -1 and its decoding. -/
def negativeBodies : List (String × SearchRequest) :=
  [("\x7b\"pattern\":\"func\",\"paths\":[\"dir\"],\"max_results\":-1\x7d",
    ⟨"func", ["dir"], -1⟩)]

end Demo

/-! ## The function `filepath.Walk` with the result of the `WalkFunc`

`Env.Walk` lists the calls of a walk that is never cut short.  Whether the walk goes on after
a call is decided by what the `WalkFunc` returns: the functions below follow `Walk` and `walk`
of the package path/filepath on a file tree, with the `WalkFunc` as a parameter `fn` that
takes the state of the caller and the arguments of the call and gives the state after the call
and the error returned. -/

namespace Fs

/-- The error returned by a `WalkFunc` or by `filepath.Walk`: nil, `filepath.SkipDir`,
`filepath.SkipAll`, or any other error. -/
inductive WalkErr where
  | nil
  | SkipDir
  | SkipAll
  | other
deriving DecidableEq, Repr

/-- Whether `Lstat` of the node fails. -/
def Node.lstatFails : Node → Bool
  | .broken => true
  | _ => false

/-- Whether `info.IsDir()` holds for the node. -/
def Node.IsDir : Node → Bool
  | .dir _ => true
  | .lockedDir => true
  | _ => false

mutual
/-- The function `walk` of path/filepath for the node at `path`: a node that is no directory
gets one call; a directory gets one call, with the error of reading its names if there is
one, and the walk descends into it only if there was no error and the call returned nil. -/
def walkWith {σ : Type} (fn : σ → WalkEntry → σ × WalkErr) (path : String) :
    Node → σ → σ × WalkErr
  | .file _, s => fn s ⟨path, false, false⟩
  | .unreadable, s => fn s ⟨path, false, false⟩
  | .dir entries, s =>
    match fn s ⟨path, true, false⟩ with
    | (s, .nil) => walkEntriesWith fn path entries s
    | (s, err1) => (s, err1)
  | .lockedDir, s => fn s ⟨path, true, true⟩
  | .broken, s => fn s ⟨path, false, true⟩
/-- The loop `for _, name := range names` of `walk`: an entry whose `Lstat` fails gets one
call with the error, and the loop goes on only if that call returns nil or `SkipDir`; any
other entry is walked, and the loop goes on only if its walk returns nil, or `SkipDir` for a
directory.  Otherwise the walk ends with the error, which leaves the entries after it
unvisited. -/
def walkEntriesWith {σ : Type} (fn : σ → WalkEntry → σ × WalkErr) (path : String) :
    Entries → σ → σ × WalkErr
  | .nil, s => (s, .nil)
  | .cons name node rest, s =>
    if node.lstatFails then
      match fn s ⟨path ++ "/" ++ name, false, true⟩ with
      | (s, .nil) => walkEntriesWith fn path rest s
      | (s, .SkipDir) => walkEntriesWith fn path rest s
      | (s, err) => (s, err)
    else
      match walkWith fn (path ++ "/" ++ name) node s with
      | (s, .nil) => walkEntriesWith fn path rest s
      | (s, .SkipDir) => if node.IsDir then walkEntriesWith fn path rest s else (s, .SkipDir)
      | (s, err) => (s, err)
end

/-- The function `filepath.Walk(root, fn)` on the tree: a root whose `Lstat` fails gets one
call with the error; `SkipDir` and `SkipAll` are turned into nil at the end. -/
def WalkWith {σ : Type} (cwd : Entries) (root : String) (fn : σ → WalkEntry → σ × WalkErr)
    (s : σ) : σ × WalkErr :=
  let res :=
    match lookup cwd root with
    | some node => if node.lstatFails then fn s ⟨root, false, true⟩ else walkWith fn root node s
    | none => fn s ⟨root, false, true⟩
  match res with
  | (s, .SkipDir) => (s, .nil)
  | (s, .SkipAll) => (s, .nil)
  | res => res

/-- A `WalkFunc` that gives back the error it is called with and otherwise collects the path:
the contrast to the one of `search`. -/
def returnErr (visited : List String) (e : WalkEntry) : List String × WalkErr :=
  if e.err then (visited, .other) else (visited ++ [e.filePath], .nil)

end Fs

namespace McpServer

/-- The `WalkFunc` of `search` as `filepath.Walk` calls it: `started` are the files a
goroutine has been started for (`wg.Add(1); go func(fp)`), and the second component is the
error returned, which is nil on each of the three paths through the function. -/
def walkFunc (started : List String) (e : WalkEntry) : List String × Fs.WalkErr :=
  if e.err then
    (started, .nil)
  else if e.IsDir || Go.Ext e.filePath != ".go" then
    (started, .nil)
  else
    (started ++ [e.filePath], .nil)

/-- The loop `for _, path := range paths` of `search` on the tree `cwd`: every path is walked
with `walkFunc`; an error returned by `filepath.Walk` is logged and the loop goes on.  The
result is the list of the files a goroutine was started for. -/
def walkPaths (cwd : Fs.Entries) : List String → List String → List String
  | [], started => started
  | path :: paths, started => walkPaths cwd paths (Fs.WalkWith cwd path walkFunc started).1

end McpServer

/-! ## The goroutines alive at the same time

`search` starts its goroutines while it walks, and a goroutine that was started runs at the
same time as the walk and as the goroutines started before it, until it returns.  A moment of
a call between the reset of `allResults` and the return of `wg.Wait()` is a `Running`; the
scheduler chooses which of them takes the next step. -/

/-- A moment of a call of `search`: the eligible files the walk has still to reach, the
goroutines that were started and have not returned (each with the matches it has still to
append), `allResults`, the number of goroutines started so far, and the largest number of
goroutines that were alive at the same time so far. -/
structure Running where
  toStart : List String
  live : List (List Match)
  allResults : List Match
  started : Nat
  peak : Nat
deriving DecidableEq, Repr

namespace McpServer

/-- One step of a call of `search`.  With the choice 0 the walk goes on to the next eligible
file and starts a goroutine for it (`wg.Add(1); go func(fp)`); nothing limits the goroutines
alive at that moment.  With the choice `k + 1` the goroutine at the position `k` among those
alive goes on: it appends its next match under the lock, or, with no match left, it returns
(`wg.Done()`).  A choice that names nothing that can go on changes nothing. -/
def step (env : Env) (pattern : String) : Nat → Running → Running
  | 0, r =>
    match r.toStart with
    | [] => r
    | fp :: rest =>
      { r with
        toStart := rest
        live := r.live ++ [searchFile env fp pattern []]
        started := r.started + 1
        peak := max r.peak (r.live.length + 1) }
  | k + 1, r =>
    match r.live[k]? with
    | none => r
    | some [] => { r with live := r.live.eraseIdx k }
    | some (m :: rest) =>
      { r with live := r.live.set k rest, allResults := r.allResults ++ [m] }

/-- The steps chosen by a schedule, one after the other. -/
def steps (env : Env) (pattern : String) : List Nat → Running → Running
  | [], r => r
  | k :: sched, r => steps env pattern sched (step env pattern k r)

/-- A call of `search` from the reset of `allResults`, run by the schedule `sched`. -/
def searchRun (env : Env) (pattern : String) (paths : List String) (sched : List Nat) :
    Running :=
  steps env pattern sched
    { toStart := spawned env paths, live := [], allResults := [], started := 0, peak := 0 }

/-- Whether `wg.Wait()` returns: the walk is over and every goroutine has returned. -/
def finished (r : Running) : Bool :=
  r.toStart.isEmpty && r.live.isEmpty

/-- The schedule that lets the walk come to its end before any goroutine goes on, and then
lets the goroutines run to their end one after the other. -/
def walkFirst (env : Env) (pattern : String) (paths : List String) : List Nat :=
  List.replicate (spawned env paths).length 0 ++
    List.replicate ((spawned env paths).length +
      ((spawned env paths).map (fun fp => searchFile env fp pattern [])).flatten.length) 1

end McpServer


/-! ## Lemmas on the file scan -/

/-- The matches of the lines `lines`, the first of which has index `k`: one for each line the
expression matches, in the order of the lines. -/
theorem McpServer.searchFileLoop_eq (re : Regexp) (filePath : String) (lines : List String)
    (k : Nat) (allResults : List Match) :
    McpServer.searchFileLoop re filePath lines (k : Int) allResults =
      allResults ++ ((lines.enumFrom k).filter (fun il => re.MatchString il.2)).map
        (fun il => { File := filePath, Line := (il.1 : Int) + 1, Content := Go.TrimSpace il.2 }) := by
  induction lines generalizing k allResults with
  | nil => simp [McpServer.searchFileLoop]
  | cons line rest ih =>
    have ih2 := fun acc => ih (k + 1) acc
    simp only [Nat.cast_add, Nat.cast_one] at ih2
    by_cases hm : re.MatchString line = true
    · simp [McpServer.searchFileLoop, hm, List.enumFrom, ih2]
    · simp [McpServer.searchFileLoop, hm, List.enumFrom, ih2]

/-- What `searchFile` appends does not depend on `allResults` before the call: this is why a
goroutine can be described by the list of its appends. -/
theorem McpServer.searchFile_append (env : Env) (filePath pattern : String)
    (allResults : List Match) :
    McpServer.searchFile env filePath pattern allResults =
      allResults ++ McpServer.searchFile env filePath pattern [] := by
  unfold McpServer.searchFile
  cases env.Compile pattern with
  | none => simp
  | some re =>
    cases env.ReadFile filePath with
    | none => simp
    | some content =>
      have h := McpServer.searchFileLoop_eq re filePath (Go.Split content '\n') 0
      simp only [Nat.cast_zero] at h
      simp only [h, List.nil_append]

/-- The merge only appends to `allResults`. -/
theorem runGoroutines_append (sched : List Nat) (pending : List (List Match))
    (allResults : List Match) :
    runGoroutines sched pending allResults = allResults ++ runGoroutines sched pending [] := by
  induction sched generalizing pending allResults with
  | nil => simp [runGoroutines]
  | cons k sched ih =>
    simp only [runGoroutines]
    split
    · rename_i m rest _
      rw [ih, ih _ ([] ++ [m])]
      simp
    · simp

theorem flatten_filter_nonempty (pending : List (List Match)) :
    (pending.filter (fun q => !q.isEmpty)).flatten = pending.flatten := by
  induction pending with
  | nil => rfl
  | cons q qs ih =>
    cases q with
    | nil => simpa using ih
    | cons m ms => simp [List.filter_cons, ih]

/-- A goroutine that appends nothing takes no part in the merge. -/
theorem runGoroutines_filter (sched : List Nat) (pending : List (List Match))
    (allResults : List Match) :
    runGoroutines sched (pending.filter (fun q => !q.isEmpty)) allResults =
      runGoroutines sched pending allResults := by
  cases sched with
  | nil => simp [runGoroutines, flatten_filter_nonempty]
  | cons k sched => simp [runGoroutines, List.filter_filter]

theorem live_getElem (pending : List (List Match)) (i : Nat) (q : List Match)
    (h : (pending.filter (fun q => !q.isEmpty))[i]? = some q) : q ≠ [] := by
  have hmem := List.getElem?_mem h
  have := (List.mem_filter.mp hmem).2
  intro hq
  simp [hq] at this

theorem flatten_set_perm (live : List (List Match)) (i : Nat) (m : Match) (rest : List Match)
    (h : live[i]? = some (m :: rest)) :
    (m :: (live.set i rest).flatten).Perm live.flatten := by
  induction live generalizing i with
  | nil => simp at h
  | cons q qs ih =>
    cases i with
    | zero =>
      simp at h
      subst h
      simp
    | succ j =>
      simp at h
      have := ih j h
      simp only [List.set_cons_succ, List.flatten_cons]
      exact (List.perm_middle.symm.trans (List.Perm.append_left q this))

/-- Under every schedule the merge holds every append of every goroutine exactly once. -/
theorem runGoroutines_perm (sched : List Nat) (pending : List (List Match))
    (allResults : List Match) :
    (runGoroutines sched pending allResults).Perm (allResults ++ pending.flatten) := by
  induction sched generalizing pending allResults with
  | nil => simp [runGoroutines]
  | cons k sched ih =>
    simp only [runGoroutines]
    split
    · rename_i m rest hget
      refine (ih _ _).trans ?_
      rw [← flatten_filter_nonempty pending, List.append_assoc]
      exact List.Perm.append_left _ (flatten_set_perm _ _ m rest hget)
    · rename_i hnot
      have hnil : pending.filter (fun q => !q.isEmpty) = [] := by
        by_contra hne
        have hpos : 0 < (pending.filter (fun q => !q.isEmpty)).length :=
          List.length_pos.mpr hne
        have hlt := Nat.mod_lt k hpos
        cases hq : (pending.filter (fun q => !q.isEmpty))[k % (pending.filter (fun q => !q.isEmpty)).length]? with
        | none =>
          rw [List.getElem?_eq_none_iff] at hq
          omega
        | some q =>
          cases q with
          | nil => exact live_getElem pending _ [] hq rfl
          | cons m rest => exact hnot m rest hq
      rw [← flatten_filter_nonempty pending, hnil]
      simp

/-! ## Lemmas on `search` -/

theorem McpServer.search_snd (env : Env) (sched : List Nat) (pattern : String)
    (paths : List String) (maxResults : Int) (allResults : List Match) :
    (McpServer.search env sched pattern paths maxResults allResults).2 =
      runGoroutines sched
        ((McpServer.spawned env paths).map (fun fp => McpServer.searchFile env fp pattern [])) [] := by
  simp only [McpServer.search]
  split_ifs <;> rfl

theorem McpServer.search_fst_of_nonneg (env : Env) (sched : List Nat) (pattern : String)
    (paths : List String) (maxResults : Int) (allResults : List Match) (h : 0 ≤ maxResults) :
    (McpServer.search env sched pattern paths maxResults allResults).1 =
      .ok ((McpServer.search env sched pattern paths maxResults allResults).2.take
        maxResults.toNat) := by
  simp only [McpServer.search]
  split_ifs with h1 h2
  · omega
  · rfl
  · simp only
    rw [List.take_of_length_le]
    omega

/-- With a negative cap the slice expression `allResults[:maxResults]` panics. -/
theorem McpServer.search_fst_of_neg (env : Env) (sched : List Nat) (pattern : String)
    (paths : List String) (maxResults : Int) (allResults : List Match) (h : maxResults < 0) :
    (McpServer.search env sched pattern paths maxResults allResults).1 =
      .error "slice bounds out of range" := by
  simp only [McpServer.search]
  split_ifs with h1
  · rfl
  · omega

theorem length_filter_enumFrom (p : String → Bool) (lines : List String) (k : Nat) :
    ((lines.enumFrom k).filter (fun il => p il.2)).length = lines.countP p := by
  induction lines generalizing k with
  | nil => rfl
  | cons line rest ih =>
    by_cases hp : p line = true
    · simp [List.enumFrom, hp, ih]
    · simp [List.enumFrom, hp, ih]

theorem McpServer.length_searchFile (env : Env) (filePath pattern : String) :
    (McpServer.searchFile env filePath pattern []).length =
      match env.Compile pattern with
      | none => 0
      | some re =>
        match env.ReadFile filePath with
        | none => 0
        | some content => (Go.Split content '\n').countP re.MatchString := by
  unfold McpServer.searchFile
  cases env.Compile pattern with
  | none => rfl
  | some re =>
    cases env.ReadFile filePath with
    | none => rfl
    | some content =>
      have h := McpServer.searchFileLoop_eq re filePath (Go.Split content '\n') 0 []
      simp only [Nat.cast_zero] at h
      simp only [h, List.nil_append, List.length_map, length_filter_enumFrom]

theorem McpServer.length_search_snd (env : Env) (sched : List Nat) (pattern : String)
    (paths : List String) (maxResults : Int) (allResults : List Match) :
    (McpServer.search env sched pattern paths maxResults allResults).2.length =
      McpServer.matchingLineCount env pattern paths := by
  rw [McpServer.search_snd, (runGoroutines_perm _ _ _).length_eq]
  simp only [List.nil_append, List.length_flatten, List.map_map, McpServer.matchingLineCount]
  cases hre : env.Compile pattern with
  | none =>
    have : ∀ fp, (McpServer.searchFile env fp pattern []).length = 0 := by
      intro fp
      rw [McpServer.length_searchFile, hre]
    simp [Function.comp_def, this]
  | some re =>
    congr 1
    apply List.map_congr_left
    intro fp _
    simp only [Function.comp_apply]
    rw [McpServer.length_searchFile, hre]

/-! ## The claims -/

/-- C1: for every pattern, every list of root paths, every file tree (environment), every
schedule of the goroutines and every `maxResults >= 1`, `search` returns a list, and its
length is at most `maxResults`. -/
theorem McpServer.search_length_le_maxResults (env : Env) (sched : List Nat) (pattern : String)
    (paths : List String) (maxResults : Int) (allResults : List Match) (h : 1 ≤ maxResults) :
    ∃ ms, (McpServer.search env sched pattern paths maxResults allResults).1 = .ok ms ∧
      (ms.length : Int) ≤ maxResults := by
  refine ⟨_, McpServer.search_fst_of_nonneg env sched pattern paths maxResults allResults
    (by omega), ?_⟩
  rw [List.length_take]
  omega

/-- C1, on the two Go files of `Demo.goDir` with the cap 1. -/
theorem McpServer.search_length_le_maxResults_witness :
    (1 : Int) ≤ 1 ∧
    ∃ ms, (McpServer.search (Demo.env Demo.goDir []) [] "^func" ["dir"] 1 []).1 = .ok ms ∧
      (ms.length : Int) ≤ 1 :=
  ⟨by decide, McpServer.search_length_le_maxResults (Demo.env Demo.goDir []) [] "^func" ["dir"]
    1 [] (by decide)⟩

/-- C2 as written fails on its second example: in the two-file scenario of the
specification the files are `a.txt` and `b.txt`, which are not Go files, so that with
`max_results = 1` the search returns no match and the tool reports `total = 0`. -/
theorem McpServer.search_two_txt_files_no_match :
    McpServer.search (Demo.env Demo.txtDir []) [] "^func" ["dir"] 1 [] = (.ok [], []) ∧
    (McpServer.SearchTool (Demo.env Demo.txtDir []) [] ⟨"^func", ["dir"], 1⟩ []).1 =
      .ok (.ok { StructuredContent := { Matches := [], Total := 0 },
                 Content := ["\x7b\n  \"matches\": [],\n  \"total\": 0\n\x7d"] }) :=
  ⟨rfl, rfl⟩

/-- C2, amended: for every query with `maxResults >= 1` in which the number of matching lines
in the eligible files (the Go files that can be read) under the given paths is greater than
`maxResults`, `search` returns exactly `maxResults` matches, under every schedule. -/
theorem McpServer.search_length_eq_maxResults (env : Env) (sched : List Nat) (pattern : String)
    (paths : List String) (maxResults : Int) (allResults : List Match) (h : 1 ≤ maxResults)
    (hmore : maxResults < (McpServer.matchingLineCount env pattern paths : Int)) :
    ∃ ms, (McpServer.search env sched pattern paths maxResults allResults).1 = .ok ms ∧
      (ms.length : Int) = maxResults := by
  refine ⟨_, McpServer.search_fst_of_nonneg env sched pattern paths maxResults allResults
    (by omega), ?_⟩
  rw [List.length_take, McpServer.length_search_snd]
  omega

/-- C2, amended, on the test "limited results" of TestSearch: `sample.go` holds 13 lines
that `func.*` matches, and with the cap 3 exactly 3 matches are returned. -/
theorem McpServer.search_length_eq_maxResults_witness :
    (1 : Int) ≤ 3 ∧
    (3 : Int) <
      (McpServer.matchingLineCount (Demo.env Demo.testdata []) "func.*" ["testdata"] : Int) ∧
    ∃ ms, (McpServer.search (Demo.env Demo.testdata []) [] "func.*" ["testdata"] 3 []).1 =
        .ok ms ∧
      (ms.length : Int) = 3 :=
  ⟨by decide, by decide,
    McpServer.search_length_eq_maxResults (Demo.env Demo.testdata []) [] "func.*" ["testdata"]
      3 [] (by decide) (by decide)⟩

/-- The matches of the test "limited results" of TestSearch. -/
theorem McpServer.search_testdata_limited :
    McpServer.matchingLineCount (Demo.env Demo.testdata []) "func.*" ["testdata"] = 13 ∧
    (McpServer.search (Demo.env Demo.testdata []) [] "func.*" ["testdata"] 3 []).1 =
      .ok [⟨"testdata/sample.go", 8, "// Sample functions for testing the search MCP server"⟩,
           ⟨"testdata/sample.go", 10, "func HelloWorld() \x7b"⟩,
           ⟨"testdata/sample.go", 14, "func Add(a, b int) int \x7b"⟩] :=
  ⟨rfl, rfl⟩

/-- The two-file scenario with Go files, `a.go` and `b.go`: with the cap 1 exactly one match
is returned and the tool reports the total 1. -/
theorem McpServer.search_two_go_files_cap_one :
    McpServer.matchingLineCount (Demo.env Demo.goDir []) "^func" ["dir"] = 2 ∧
    McpServer.search (Demo.env Demo.goDir []) [] "^func" ["dir"] 1 [] =
      (.ok [⟨"dir/a.go", 1, "func Foo"⟩],
        [⟨"dir/a.go", 1, "func Foo"⟩, ⟨"dir/b.go", 1, "func Bar"⟩]) ∧
    (McpServer.SearchTool (Demo.env Demo.goDir []) [] ⟨"^func", ["dir"], 1⟩ []).1 =
      .ok (.ok { StructuredContent := { Matches := [⟨"dir/a.go", 1, "func Foo"⟩], Total := 1 },
                 Content := (Demo.MarshalIndent
                   { Matches := [⟨"dir/a.go", 1, "func Foo"⟩], Total := 1 }).toList }) :=
  ⟨rfl, rfl, rfl⟩

/-- C3: for a file that can be read and a pattern that compiles, `searchFile` appends to the
result list one `Match` for each line of the content (split on "\n") that the pattern matches
and none for the other lines, in the order of the lines; the match of the line at index `i`
has `File` the path, `Line = i + 1` and `Content` the line without leading and trailing white
space.  Hence every `Line` is at least 1 and the `Line`s appended increase strictly. -/
theorem McpServer.searchFile_appends_matching_lines (env : Env) (filePath pattern : String)
    (re : Regexp) (content : String) (allResults : List Match)
    (hre : env.Compile pattern = some re) (hread : env.ReadFile filePath = some content) :
    ∃ new : List Match,
      McpServer.searchFile env filePath pattern allResults = allResults ++ new ∧
      new = (((Go.Split content '\n').enum.filter (fun il => re.MatchString il.2)).map
        (fun il => { File := filePath, Line := (il.1 : Int) + 1,
                     Content := Go.TrimSpace il.2 })) ∧
      (∀ m ∈ new, 1 ≤ m.Line) ∧
      (new.map (fun m => m.Line)).Pairwise (fun a b => a < b) := by
  refine ⟨_, ?_, rfl, ?_, ?_⟩
  · unfold McpServer.searchFile
    rw [hre, hread]
    have h := McpServer.searchFileLoop_eq re filePath (Go.Split content '\n') 0 allResults
    simp only [Nat.cast_zero] at h
    simpa [List.enum] using h
  · intro m hm
    simp only [List.mem_map] at hm
    obtain ⟨il, _, rfl⟩ := hm
    simp only
    omega
  · rw [List.map_map]
    have hcomp : ((fun m : Match => m.Line) ∘ fun il : Nat × String =>
        ({ File := filePath, Line := (il.1 : Int) + 1, Content := Go.TrimSpace il.2 } : Match)) =
        (fun n : Nat => (n : Int) + 1) ∘ Prod.fst := by
      funext il
      rfl
    rw [hcomp, ← List.map_map, List.pairwise_map]
    have hsub : (List.map Prod.fst ((Go.Split content '\n').enum.filter
        (fun il => re.MatchString il.2))).Sublist (List.range (Go.Split content '\n').length) := by
      have := (List.filter_sublist (p := fun il : Nat × String => re.MatchString il.2)
        (Go.Split content '\n').enum).map Prod.fst
      simpa [List.enum, List.enumFrom_map_fst, List.range_eq_range'] using this
    refine List.Pairwise.sublist hsub ?_
    refine (List.pairwise_lt_range _).imp ?_
    intro a b hab
    omega

/-- C3, on a file with the lines "func Foo", "  bar", "  func Baz " and an empty last piece. -/
theorem McpServer.searchFile_appends_matching_lines_witness :
    McpServer.searchFile
      (Demo.env (.cons "x.go" (.file "func Foo\n  bar\n  func Baz \n") .nil) [])
      "x.go" "func" [] =
      [⟨"x.go", 1, "func Foo"⟩, ⟨"x.go", 3, "func Baz"⟩] ∧
    ∃ new : List Match,
      McpServer.searchFile
        (Demo.env (.cons "x.go" (.file "func Foo\n  bar\n  func Baz \n") .nil) [])
        "x.go" "func" [] = [] ++ new ∧
      new = (((Go.Split "func Foo\n  bar\n  func Baz \n" '\n').enum.filter
        (fun il => (⟨fun s => Re.matchAnywhere false
          [⟨false, 'f', false⟩, ⟨false, 'u', false⟩, ⟨false, 'n', false⟩, ⟨false, 'c', false⟩]
          s.data⟩ : Regexp).MatchString il.2)).map
        (fun il => { File := "x.go", Line := (il.1 : Int) + 1,
                     Content := Go.TrimSpace il.2 })) ∧
      (∀ m ∈ new, 1 ≤ m.Line) ∧
      (new.map (fun m => m.Line)).Pairwise (fun a b => a < b) :=
  ⟨rfl, McpServer.searchFile_appends_matching_lines
    (Demo.env (.cons "x.go" (.file "func Foo\n  bar\n  func Baz \n") .nil) [])
    "x.go" "func" _ "func Foo\n  bar\n  func Baz \n" [] rfl rfl⟩

/-- C4 as written fails: for the unbalanced group `(`, which does not compile, `search`
reports no error: it returns the empty list as its ordinary result. -/
theorem McpServer.search_invalid_pattern_no_error :
    (Demo.env Demo.goDir []).Compile "(" = none ∧
    McpServer.search (Demo.env Demo.goDir []) [] "(" ["dir"] 10 [] = (.ok [], []) :=
  ⟨rfl, rfl⟩

theorem McpServer.searchFile_of_compile_none (env : Env) (filePath pattern : String)
    (allResults : List Match) (hbad : env.Compile pattern = none) :
    McpServer.searchFile env filePath pattern allResults = allResults := by
  unfold McpServer.searchFile
  rw [hbad]

/-- C4, amended: for every pattern that does not compile, every list of paths and every
`maxResults >= 0`, `search` yields zero matches and reports no error: it returns the empty
list as its ordinary result, and nothing is accumulated.  The compile error is absorbed in
every file scan: `searchFile` returns without appending anything. -/
theorem McpServer.search_invalid_pattern_empty (env : Env) (sched : List Nat) (pattern : String)
    (paths : List String) (maxResults : Int) (allResults : List Match)
    (hbad : env.Compile pattern = none) (h : 0 ≤ maxResults) :
    McpServer.search env sched pattern paths maxResults allResults = (.ok [], []) ∧
    ∀ (filePath : String) (acc : List Match),
      McpServer.searchFile env filePath pattern acc = acc := by
  have hfile : ∀ (filePath : String) (acc : List Match),
      McpServer.searchFile env filePath pattern acc = acc :=
    fun filePath acc => McpServer.searchFile_of_compile_none env filePath pattern acc hbad
  refine ⟨?_, hfile⟩
  have hlen := McpServer.length_search_snd env sched pattern paths maxResults allResults
  simp only [McpServer.matchingLineCount, hbad] at hlen
  have hsnd : (McpServer.search env sched pattern paths maxResults allResults).2 = [] :=
    List.length_eq_zero.mp hlen
  have hfst := McpServer.search_fst_of_nonneg env sched pattern paths maxResults allResults h
  rw [hsnd, List.take_nil] at hfst
  exact Prod.ext hfst hsnd

/-- C4, amended, on the pattern `(` over the two Go files. -/
theorem McpServer.search_invalid_pattern_empty_witness :
    (Demo.env Demo.goDir []).Compile "(" = none ∧ (0 : Int) ≤ 10 ∧
    McpServer.search (Demo.env Demo.goDir []) [1, 0] "(" ["dir"] 10 [] = (.ok [], []) ∧
    ∀ (filePath : String) (acc : List Match),
      McpServer.searchFile (Demo.env Demo.goDir []) filePath "(" acc = acc :=
  ⟨rfl, by decide,
    McpServer.search_invalid_pattern_empty (Demo.env Demo.goDir []) [1, 0] "(" ["dir"] 10 []
      rfl (by decide)⟩

/-! ## Lemmas on unreadable files -/

theorem McpServer.walkFn_eq_some (e : WalkEntry) (g : String)
    (h : McpServer.walkFn e = some g) : g = e.filePath := by
  unfold McpServer.walkFn at h
  split_ifs at h
  exact (Option.some.inj h).symm

theorem McpServer.filterMap_walkFn_filter (f : String) (entries : List WalkEntry) :
    (entries.filter (fun e => e.filePath != f)).filterMap McpServer.walkFn =
      (entries.filterMap McpServer.walkFn).filter (fun g => g != f) := by
  induction entries with
  | nil => rfl
  | cons e rest ih =>
    cases hw : McpServer.walkFn e with
    | none =>
      by_cases hf : (e.filePath != f) = true
      · simp [List.filter_cons, hf, List.filterMap_cons, hw, ih]
      · simp [List.filter_cons, hf, List.filterMap_cons, hw, ih]
    | some g =>
      have hg := McpServer.walkFn_eq_some e g hw
      subst hg
      by_cases hf : (e.filePath != f) = true
      · simp [List.filter_cons, hf, List.filterMap_cons, hw, ih]
      · simp [List.filter_cons, hf, List.filterMap_cons, hw, ih]

theorem McpServer.spawned_withoutFile (env : Env) (f : String) (paths : List String) :
    McpServer.spawned (env.withoutFile f) paths =
      (McpServer.spawned env paths).filter (fun g => g != f) := by
  induction paths with
  | nil => rfl
  | cons path rest ih =>
    simp only [McpServer.spawned, List.filter_append, ih]
    congr 1
    exact McpServer.filterMap_walkFn_filter f (env.Walk path)

theorem McpServer.searchFile_withoutFile (env : Env) (f filePath pattern : String)
    (allResults : List Match) :
    McpServer.searchFile (env.withoutFile f) filePath pattern allResults =
      McpServer.searchFile env filePath pattern allResults := rfl

theorem McpServer.searchFile_of_read_none (env : Env) (filePath pattern : String)
    (allResults : List Match) (hread : env.ReadFile filePath = none) :
    McpServer.searchFile env filePath pattern allResults = allResults := by
  unfold McpServer.searchFile
  rw [hread]
  cases env.Compile pattern <;> rfl

theorem McpServer.file_of_mem_searchFile (env : Env) (filePath pattern : String) (m : Match)
    (hm : m ∈ McpServer.searchFile env filePath pattern []) : m.File = filePath := by
  unfold McpServer.searchFile at hm
  cases hre : env.Compile pattern with
  | none => simp [hre] at hm
  | some re =>
    cases hread : env.ReadFile filePath with
    | none => simp [hre, hread] at hm
    | some content =>
      have h := McpServer.searchFileLoop_eq re filePath (Go.Split content '\n') 0 []
      simp only [Nat.cast_zero] at h
      simp only [hre, hread, h, List.nil_append, List.mem_map] at hm
      obtain ⟨il, _, rfl⟩ := hm
      rfl

theorem filter_nonempty_map_filter (F : String → List Match) (f : String) (hF : F f = [])
    (files : List String) :
    ((files.filter (fun g => g != f)).map F).filter (fun q => !q.isEmpty) =
      (files.map F).filter (fun q => !q.isEmpty) := by
  induction files with
  | nil => rfl
  | cons g rest ih =>
    by_cases hg : g = f
    · subst hg
      simp [List.filter_cons, hF, ih]
    · have hne : (g != f) = true := by simpa using hg
      simp [List.filter_cons, hne, ih]

theorem McpServer.search_withoutFile (env : Env) (sched : List Nat) (pattern : String)
    (paths : List String) (maxResults : Int) (allResults : List Match) (f : String)
    (hread : env.ReadFile f = none) :
    McpServer.search (env.withoutFile f) sched pattern paths maxResults allResults =
      McpServer.search env sched pattern paths maxResults allResults := by
  have hpending :
      runGoroutines sched ((McpServer.spawned (env.withoutFile f) paths).map
        (fun fp => McpServer.searchFile (env.withoutFile f) fp pattern [])) [] =
      runGoroutines sched ((McpServer.spawned env paths).map
        (fun fp => McpServer.searchFile env fp pattern [])) [] := by
    rw [McpServer.spawned_withoutFile, ← runGoroutines_filter]
    have hfun : (fun fp => McpServer.searchFile (env.withoutFile f) fp pattern []) =
        (fun fp => McpServer.searchFile env fp pattern []) := rfl
    rw [hfun, filter_nonempty_map_filter _ f
      (McpServer.searchFile_of_read_none env f pattern [] hread), runGoroutines_filter]
  simp only [McpServer.search, hpending]

/-- C6: if a file `f` cannot be read and `maxResults` is large enough not to cap (at least the
number of matching lines in the eligible files), then under every schedule `search` does not
fail and returns exactly the list it returns for the same tree without `f`; no match of the
list is in `f`, and every match of every other eligible file is in the list. -/
theorem McpServer.search_skips_unreadable_file (env : Env) (sched : List Nat) (pattern : String)
    (paths : List String) (maxResults : Int) (allResults : List Match) (f : String)
    (hread : env.ReadFile f = none)
    (hcap : (McpServer.matchingLineCount env pattern paths : Int) ≤ maxResults) :
    ∃ ms, (McpServer.search env sched pattern paths maxResults allResults).1 = .ok ms ∧
      (McpServer.search (env.withoutFile f) sched pattern paths maxResults allResults).1 =
        .ok ms ∧
      (∀ m ∈ ms, m.File ≠ f) ∧
      ∀ g ∈ McpServer.spawned env paths, g ≠ f →
        ∀ m ∈ McpServer.searchFile env g pattern [], m ∈ ms := by
  have h0 : 0 ≤ maxResults := by omega
  have hfst := McpServer.search_fst_of_nonneg env sched pattern paths maxResults allResults h0
  have hlen := McpServer.length_search_snd env sched pattern paths maxResults allResults
  have hall : (McpServer.search env sched pattern paths maxResults allResults).2.take
      maxResults.toNat = (McpServer.search env sched pattern paths maxResults allResults).2 := by
    apply List.take_of_length_le
    omega
  rw [hall] at hfst
  have hperm := runGoroutines_perm sched
    ((McpServer.spawned env paths).map (fun fp => McpServer.searchFile env fp pattern [])) []
  rw [← McpServer.search_snd env sched pattern paths maxResults allResults,
    List.nil_append] at hperm
  refine ⟨_, hfst, ?_, ?_, ?_⟩
  · rw [McpServer.search_withoutFile env sched pattern paths maxResults allResults f hread]
    exact hfst
  · intro m hm hf
    have hm2 := hperm.mem_iff.mp hm
    simp only [List.mem_flatten, List.mem_map] at hm2
    obtain ⟨q, ⟨g, _, rfl⟩, hmq⟩ := hm2
    have hg := McpServer.file_of_mem_searchFile env g pattern m hmq
    rw [hf] at hg
    subst hg
    rw [McpServer.searchFile_of_read_none env f pattern [] hread] at hmq
    cases hmq
  · intro g hg _ m hm
    apply hperm.mem_iff.mpr
    simp only [List.mem_flatten, List.mem_map]
    exact ⟨_, ⟨g, hg, rfl⟩, hm⟩

/-- C6, on `Demo.mixedDir`, where `dir/b.go` cannot be read: the matches of `dir/a.go` and
of `dir/c.go` are returned, as in the tree without `dir/b.go`. -/
theorem McpServer.search_skips_unreadable_file_witness :
    "dir/b.go" ∈ McpServer.spawned (Demo.env Demo.mixedDir []) ["dir"] ∧
    (Demo.env Demo.mixedDir []).ReadFile "dir/b.go" = none ∧
    McpServer.search (Demo.env Demo.mixedDir []) [1] "func" ["dir"] 10 [] =
      (.ok [⟨"dir/c.go", 2, "func Baz"⟩, ⟨"dir/a.go", 1, "func Foo"⟩],
        [⟨"dir/c.go", 2, "func Baz"⟩, ⟨"dir/a.go", 1, "func Foo"⟩]) ∧
    ∃ ms, (McpServer.search (Demo.env Demo.mixedDir []) [1] "func" ["dir"] 10 []).1 = .ok ms ∧
      (McpServer.search ((Demo.env Demo.mixedDir []).withoutFile "dir/b.go") [1] "func" ["dir"]
        10 []).1 = .ok ms ∧
      (∀ m ∈ ms, m.File ≠ "dir/b.go") ∧
      ∀ g ∈ McpServer.spawned (Demo.env Demo.mixedDir []) ["dir"], g ≠ "dir/b.go" →
        ∀ m ∈ McpServer.searchFile (Demo.env Demo.mixedDir []) g "func" [], m ∈ ms :=
  ⟨by decide, rfl, rfl,
    McpServer.search_skips_unreadable_file (Demo.env Demo.mixedDir []) [1] "func" ["dir"] 10 []
      "dir/b.go" rfl (by decide)⟩

/-! ## The two copies of the search code -/

theorem HttpServer.searchFileLoop_eq_mcp (re : Regexp) (filePath : String)
    (lines : List String) (lineNum : Int) (allResults : List Match) :
    HttpServer.searchFileLoop re filePath lines lineNum allResults =
      McpServer.searchFileLoop re filePath lines lineNum allResults := by
  induction lines generalizing lineNum allResults with
  | nil => rfl
  | cons line rest ih =>
    simp only [HttpServer.searchFileLoop, McpServer.searchFileLoop, ih]

theorem HttpServer.searchFile_eq_mcp (env : Env) (filePath pattern : String)
    (allResults : List Match) :
    HttpServer.searchFile env filePath pattern allResults =
      McpServer.searchFile env filePath pattern allResults := by
  unfold HttpServer.searchFile McpServer.searchFile
  cases env.Compile pattern with
  | none => rfl
  | some re =>
    cases env.ReadFile filePath with
    | none => rfl
    | some content => exact HttpServer.searchFileLoop_eq_mcp re filePath _ 0 allResults

theorem HttpServer.spawned_eq_mcp (env : Env) (paths : List String) :
    HttpServer.spawned env paths = McpServer.spawned env paths := by
  induction paths with
  | nil => rfl
  | cons path rest ih =>
    simp only [HttpServer.spawned, McpServer.spawned, ih]
    rfl

theorem HttpServer.search_eq_mcp (env : Env) (sched : List Nat) (pattern : String)
    (paths : List String) (maxResults : Int) (allResults : List Match) :
    HttpServer.search env sched pattern paths maxResults allResults =
      McpServer.search env sched pattern paths maxResults allResults := by
  have hfun : (fun fp => HttpServer.searchFile env fp pattern []) =
      (fun fp => McpServer.searchFile env fp pattern []) := by
    funext fp
    exact HttpServer.searchFile_eq_mcp env fp pattern []
  simp only [HttpServer.search, McpServer.search, HttpServer.spawned_eq_mcp, hfun]

/-! ## The handlers -/

/-- What `SearchTool` does with the result of its call of `search`. -/
theorem McpServer.SearchTool_eq (env : Env) (sched : List Nat) (args : SearchInput)
    (allResults : List Match) :
    McpServer.SearchTool env sched args allResults =
      match McpServer.search env sched args.Pattern args.Paths
        (if args.MaxResults = 0 then 100 else args.MaxResults) allResults with
      | (.error p, acc) => (.error p, acc)
      | (.ok found, acc) =>
        match env.MarshalIndent { Matches := found, Total := found.length } with
        | none => (.ok (.error "JSON serialization error"), acc)
        | some jsonBytes =>
          (.ok (.ok { StructuredContent := { Matches := found, Total := found.length },
                      Content := [jsonBytes] }), acc) := rfl

theorem McpServer.SearchTool_ok (env : Env) (sched : List Nat) (args : SearchInput)
    (allResults : List Match) (r : CallToolResult)
    (h : (McpServer.SearchTool env sched args allResults).1 = .ok (.ok r)) :
    (McpServer.search env sched args.Pattern args.Paths
      (if args.MaxResults = 0 then 100 else args.MaxResults) allResults).1 =
        .ok r.StructuredContent.Matches ∧
    r.StructuredContent.Total = r.StructuredContent.Matches.length := by
  rw [McpServer.SearchTool_eq] at h
  generalize McpServer.search env sched args.Pattern args.Paths
    (if args.MaxResults = 0 then 100 else args.MaxResults) allResults = res at h ⊢
  obtain ⟨res1, acc⟩ := res
  cases res1 with
  | error p => simp at h
  | ok found =>
    simp only at h
    cases hj : env.MarshalIndent { Matches := found, Total := found.length } with
    | none => simp [hj] at h
    | some jsonBytes =>
      simp only [hj, Except.ok.injEq] at h
      subst h
      exact ⟨rfl, rfl⟩

theorem HttpServer.searchHandler_json (env : Env) (sched : List Nat) (r : HttpRequest)
    (allResults : List Match) (resp : SearchResponse)
    (h : (HttpServer.searchHandler env sched r allResults).1 = .ok (.json resp)) :
    ∃ req, env.Decode r.Body = some req ∧
      (HttpServer.search env sched req.Pattern req.Paths
        (if req.MaxResults = 0 then 100 else req.MaxResults) allResults).1 = .ok resp.Matches ∧
      resp.Total = resp.Matches.length := by
  unfold HttpServer.searchHandler at h
  split_ifs at h with hmethod
  · simp at h
  · cases hd : env.Decode r.Body with
    | none => simp [hd] at h
    | some req =>
      refine ⟨req, rfl, ?_⟩
      simp only [hd] at h
      generalize HttpServer.search env sched req.Pattern req.Paths
        (if req.MaxResults = 0 then 100 else req.MaxResults) allResults = res at h ⊢
      obtain ⟨res1, acc⟩ := res
      cases res1 with
      | error p => simp at h
      | ok found =>
        simp only [Except.ok.injEq, HttpResponse.json.injEq] at h
        subst h
        exact ⟨rfl, rfl⟩

/-- C5 fails on the code: for every query with a negative `maxResults` the call of `search`
ends in the run-time panic of the slice expression `allResults[:maxResults]`, also when no
path is given.  No such query is rejected before the work starts: every path is walked and
every eligible file is scanned first, so that `allResults` holds the matches of the same query
with `maxResults = 0`.  `SearchTool` and `searchHandler` pass a negative cap on unchecked and
end in the same panic. -/
theorem McpServer.search_negative_panics (env : Env) (sched : List Nat) (pattern : String)
    (paths : List String) (maxResults : Int) (allResults : List Match) (h : maxResults < 0) :
    (McpServer.search env sched pattern paths maxResults allResults).1 =
      .error "slice bounds out of range" ∧
    (McpServer.search env sched pattern paths maxResults allResults).2 =
      (McpServer.search env sched pattern paths 0 allResults).2 ∧
    (McpServer.SearchTool env sched ⟨pattern, paths, maxResults⟩ allResults).1 =
      .error "slice bounds out of range" ∧
    (∀ body : String, env.Decode body = some ⟨pattern, paths, maxResults⟩ →
      (HttpServer.searchHandler env sched ⟨"POST", body⟩ allResults).1 =
        .error "slice bounds out of range") := by
  have hsearch := McpServer.search_fst_of_neg env sched pattern paths maxResults allResults h
  have hne : ¬ maxResults = 0 := by omega
  refine ⟨hsearch, ?_, ?_, ?_⟩
  · rw [McpServer.search_snd, McpServer.search_snd]
  · rw [McpServer.SearchTool_eq]
    simp only [if_neg hne]
    generalize McpServer.search env sched pattern paths maxResults allResults = res at hsearch
    obtain ⟨res1, acc⟩ := res
    simp only at hsearch
    subst hsearch
    rfl
  · intro body hbody
    have hpost : ¬ (("POST" : String) != "POST") = true := by decide
    unfold HttpServer.searchHandler
    simp only [if_neg hpost, hbody, if_neg hne, HttpServer.search_eq_mcp]
    generalize McpServer.search env sched pattern paths maxResults allResults = res at hsearch
    obtain ⟨res1, acc⟩ := res
    simp only at hsearch
    subst hsearch
    rfl

/-- C5, at the query for `func` over `dir` (two Go files) with `max_results` -1, as a call of
`search`, as a tool call and as a POST request: both files are scanned, their two matches are
accumulated, and the call panics.  With no path at all the call panics as well. -/
theorem McpServer.search_negative_panics_witness :
    (-1 : Int) < 0 ∧
    McpServer.search (Demo.env Demo.goDir Demo.negativeBodies) [] "func" ["dir"] (-1) [] =
      (.error "slice bounds out of range",
        [⟨"dir/a.go", 1, "func Foo"⟩, ⟨"dir/b.go", 1, "func Bar"⟩]) ∧
    McpServer.search (Demo.env Demo.goDir Demo.negativeBodies) [] "func" [] (-1) [] =
      (.error "slice bounds out of range", []) ∧
    McpServer.SearchTool (Demo.env Demo.goDir Demo.negativeBodies) [] ⟨"func", ["dir"], -1⟩ [] =
      (.error "slice bounds out of range",
        [⟨"dir/a.go", 1, "func Foo"⟩, ⟨"dir/b.go", 1, "func Bar"⟩]) ∧
    HttpServer.searchHandler (Demo.env Demo.goDir Demo.negativeBodies) []
        ⟨"POST", "\x7b\"pattern\":\"func\",\"paths\":[\"dir\"],\"max_results\":-1\x7d"⟩ [] =
      (.error "slice bounds out of range",
        [⟨"dir/a.go", 1, "func Foo"⟩, ⟨"dir/b.go", 1, "func Bar"⟩]) ∧
    (McpServer.search (Demo.env Demo.goDir Demo.negativeBodies) [] "func" ["dir"] (-1) []).2 =
      (McpServer.search (Demo.env Demo.goDir Demo.negativeBodies) [] "func" ["dir"] 0 []).2 ∧
    (HttpServer.searchHandler (Demo.env Demo.goDir Demo.negativeBodies) []
        ⟨"POST", "\x7b\"pattern\":\"func\",\"paths\":[\"dir\"],\"max_results\":-1\x7d"⟩ []).1 =
      .error "slice bounds out of range" :=
  ⟨by decide, rfl, rfl, rfl, rfl,
    (McpServer.search_negative_panics (Demo.env Demo.goDir Demo.negativeBodies) [] "func"
      ["dir"] (-1) [] (by decide)).2.1,
    (McpServer.search_negative_panics (Demo.env Demo.goDir Demo.negativeBodies) [] "func"
      ["dir"] (-1) [] (by decide)).2.2.2
      "\x7b\"pattern\":\"func\",\"paths\":[\"dir\"],\"max_results\":-1\x7d" rfl⟩

/-- C7: in every successful response of `SearchTool` (a result with structured content) and
in every successful response of `searchHandler` (a JSON body with status 200), the field
`Total` is the number of entries of the field `Matches`. -/
theorem total_eq_length_matches (env : Env) (sched : List Nat) (allResults : List Match) :
    (∀ (args : SearchInput) (r : CallToolResult),
      (McpServer.SearchTool env sched args allResults).1 = .ok (.ok r) →
        r.StructuredContent.Total = r.StructuredContent.Matches.length) ∧
    (∀ (r : HttpRequest) (resp : SearchResponse),
      (HttpServer.searchHandler env sched r allResults).1 = .ok (.json resp) →
        resp.Total = resp.Matches.length) := by
  refine ⟨fun args r h => (McpServer.SearchTool_ok env sched args allResults r h).2, ?_⟩
  intro r resp h
  obtain ⟨_, _, _, htotal⟩ := HttpServer.searchHandler_json env sched r allResults resp h
  exact htotal

/-- C7, on the two Go files: a tool call and a POST request with two matches and total 2. -/
theorem total_eq_length_matches_witness :
    (McpServer.SearchTool (Demo.env Demo.goDir Demo.bodies) [] ⟨"func", ["dir"], 0⟩ []).1 =
      .ok (.ok { StructuredContent :=
                   { Matches := [⟨"dir/a.go", 1, "func Foo"⟩, ⟨"dir/b.go", 1, "func Bar"⟩],
                     Total := 2 },
                 Content := (Demo.MarshalIndent
                   { Matches := [⟨"dir/a.go", 1, "func Foo"⟩, ⟨"dir/b.go", 1, "func Bar"⟩],
                     Total := 2 }).toList }) ∧
    (2 : Int) = ([⟨"dir/a.go", 1, "func Foo"⟩, ⟨"dir/b.go", 1, "func Bar"⟩] : List Match).length ∧
    (HttpServer.searchHandler (Demo.env Demo.goDir Demo.bodies) []
      ⟨"POST", "\x7b\"pattern\":\"func\",\"paths\":[\"dir\"]\x7d"⟩ []).1 =
      .ok (.json { Matches := [⟨"dir/a.go", 1, "func Foo"⟩, ⟨"dir/b.go", 1, "func Bar"⟩],
                   Total := 2 }) ∧
    (2 : Int) = ([⟨"dir/a.go", 1, "func Foo"⟩, ⟨"dir/b.go", 1, "func Bar"⟩] : List Match).length :=
  ⟨rfl,
    (total_eq_length_matches (Demo.env Demo.goDir Demo.bodies) [] []).1
      ⟨"func", ["dir"], 0⟩ _ rfl,
    rfl,
    (total_eq_length_matches (Demo.env Demo.goDir Demo.bodies) [] []).2
      ⟨"POST", "\x7b\"pattern\":\"func\",\"paths\":[\"dir\"]\x7d"⟩ _ rfl⟩

/-- C8: a request whose `max_results` is 0 (or absent, which decodes to 0) is answered by
`SearchTool` and by `searchHandler` exactly as the same request with `max_results = 100`, and
a successful answer holds at most 100 matches; for a request with `max_results != 0` the
handlers answer with the result of `search` called with the given value. -/
theorem default_maxResults (env : Env) (sched : List Nat) (allResults : List Match)
    (pattern : String) (paths : List String) :
    (McpServer.SearchTool env sched ⟨pattern, paths, 0⟩ allResults =
      McpServer.SearchTool env sched ⟨pattern, paths, 100⟩ allResults) ∧
    (∀ r : CallToolResult,
      (McpServer.SearchTool env sched ⟨pattern, paths, 0⟩ allResults).1 = .ok (.ok r) →
        r.StructuredContent.Matches.length ≤ 100) ∧
    (∀ maxResults : Int, maxResults ≠ 0 →
      McpServer.SearchTool env sched ⟨pattern, paths, maxResults⟩ allResults =
        match McpServer.search env sched pattern paths maxResults allResults with
        | (.error p, acc) => (.error p, acc)
        | (.ok found, acc) =>
          match env.MarshalIndent { Matches := found, Total := found.length } with
          | none => (.ok (.error "JSON serialization error"), acc)
          | some jsonBytes =>
            (.ok (.ok { StructuredContent := { Matches := found, Total := found.length },
                        Content := [jsonBytes] }), acc)) ∧
    (∀ r r100 : HttpRequest, r.Method = r100.Method →
      env.Decode r.Body = some ⟨pattern, paths, 0⟩ →
      env.Decode r100.Body = some ⟨pattern, paths, 100⟩ →
        HttpServer.searchHandler env sched r allResults =
          HttpServer.searchHandler env sched r100 allResults ∧
        ∀ resp : SearchResponse,
          (HttpServer.searchHandler env sched r allResults).1 = .ok (.json resp) →
            resp.Matches.length ≤ 100) ∧
    (∀ (r : HttpRequest) (maxResults : Int), r.Method = "POST" →
      env.Decode r.Body = some ⟨pattern, paths, maxResults⟩ → maxResults ≠ 0 →
        HttpServer.searchHandler env sched r allResults =
          match HttpServer.search env sched pattern paths maxResults allResults with
          | (.error p, acc) => (.error p, acc)
          | (.ok found, acc) =>
            (.ok (.json { Matches := found, Total := found.length }), acc)) := by
  refine ⟨rfl, ?_, ?_, ?_, ?_⟩
  · intro r h
    obtain ⟨hs, _⟩ := McpServer.SearchTool_ok env sched ⟨pattern, paths, 0⟩ allResults r h
    simp only [if_true] at hs
    rw [McpServer.search_fst_of_nonneg env sched pattern paths 100 allResults (by decide)] at hs
    have hm := Except.ok.inj hs
    rw [← hm, List.length_take]
    exact Nat.min_le_left _ _
  · intro maxResults hne
    rw [McpServer.SearchTool_eq]
    simp only [if_neg hne]
  · intro r r100 hmethod hd hd100
    have heq : HttpServer.searchHandler env sched r allResults =
        HttpServer.searchHandler env sched r100 allResults := by
      unfold HttpServer.searchHandler
      rw [hmethod, hd, hd100]
      rfl
    refine ⟨heq, ?_⟩
    intro resp h
    obtain ⟨req, hreq, hs, _⟩ := HttpServer.searchHandler_json env sched r allResults resp h
    rw [hd] at hreq
    have hreq2 := Option.some.inj hreq
    subst hreq2
    simp only [if_true] at hs
    rw [HttpServer.search_eq_mcp,
      McpServer.search_fst_of_nonneg env sched pattern paths 100 allResults (by decide)] at hs
    have hm := Except.ok.inj hs
    rw [← hm, List.length_take]
    exact Nat.min_le_left _ _
  · intro r maxResults hmethod hd hne
    unfold HttpServer.searchHandler
    have hnot : ¬ ((r.Method != "POST") = true) := by simp [hmethod]
    rw [if_neg hnot, hd]
    simp only [if_neg hne]

/-- C8, on the two Go files: the tool call and the POST request without `max_results` are
answered as those with `max_results` 100, with two matches; with `max_results` 1 both
handlers answer with the one match that `search` returns for the cap 1. -/
theorem default_maxResults_witness :
    (McpServer.SearchTool (Demo.env Demo.goDir Demo.bodies) [] ⟨"func", ["dir"], 0⟩ []).1 =
      .ok (.ok { StructuredContent :=
                   { Matches := [⟨"dir/a.go", 1, "func Foo"⟩, ⟨"dir/b.go", 1, "func Bar"⟩],
                     Total := 2 },
                 Content := (Demo.MarshalIndent
                   { Matches := [⟨"dir/a.go", 1, "func Foo"⟩, ⟨"dir/b.go", 1, "func Bar"⟩],
                     Total := 2 }).toList }) ∧
    ([⟨"dir/a.go", 1, "func Foo"⟩, ⟨"dir/b.go", 1, "func Bar"⟩] : List Match).length ≤ 100 ∧
    (McpServer.SearchTool (Demo.env Demo.goDir Demo.bodies) [] ⟨"func", ["dir"], 1⟩ []).1 =
      .ok (.ok { StructuredContent :=
                   { Matches := [⟨"dir/a.go", 1, "func Foo"⟩], Total := 1 },
                 Content := (Demo.MarshalIndent
                   { Matches := [⟨"dir/a.go", 1, "func Foo"⟩], Total := 1 }).toList }) ∧
    McpServer.SearchTool (Demo.env Demo.goDir Demo.bodies) [] ⟨"func", ["dir"], 1⟩ [] =
      (match McpServer.search (Demo.env Demo.goDir Demo.bodies) [] "func" ["dir"] 1 [] with
        | (.error p, acc) => (.error p, acc)
        | (.ok found, acc) =>
          match (Demo.env Demo.goDir Demo.bodies).MarshalIndent
            { Matches := found, Total := found.length } with
          | none => (.ok (.error "JSON serialization error"), acc)
          | some jsonBytes =>
            (.ok (.ok { StructuredContent := { Matches := found, Total := found.length },
                        Content := [jsonBytes] }), acc)) ∧
    HttpServer.searchHandler (Demo.env Demo.goDir Demo.bodies) []
        ⟨"POST", "\x7b\"pattern\":\"func\",\"paths\":[\"dir\"]\x7d"⟩ [] =
      HttpServer.searchHandler (Demo.env Demo.goDir Demo.bodies) []
        ⟨"POST", "\x7b\"pattern\":\"func\",\"paths\":[\"dir\"],\"max_results\":100\x7d"⟩ [] ∧
    (HttpServer.searchHandler (Demo.env Demo.goDir Demo.bodies) []
        ⟨"POST", "\x7b\"pattern\":\"func\",\"paths\":[\"dir\"]\x7d"⟩ []).1 =
      .ok (.json { Matches := [⟨"dir/a.go", 1, "func Foo"⟩, ⟨"dir/b.go", 1, "func Bar"⟩],
                   Total := 2 }) ∧
    (HttpServer.searchHandler (Demo.env Demo.goDir Demo.bodies) []
        ⟨"POST", "\x7b\"pattern\":\"func\",\"paths\":[\"dir\"],\"max_results\":1\x7d"⟩ []).1 =
      .ok (.json { Matches := [⟨"dir/a.go", 1, "func Foo"⟩], Total := 1 }) ∧
    HttpServer.searchHandler (Demo.env Demo.goDir Demo.bodies) []
        ⟨"POST", "\x7b\"pattern\":\"func\",\"paths\":[\"dir\"],\"max_results\":1\x7d"⟩ [] =
      (match HttpServer.search (Demo.env Demo.goDir Demo.bodies) [] "func" ["dir"] 1 [] with
        | (.error p, acc) => (.error p, acc)
        | (.ok found, acc) =>
          (.ok (.json { Matches := found, Total := found.length }), acc)) :=
  ⟨rfl,
    (default_maxResults (Demo.env Demo.goDir Demo.bodies) [] [] "func" ["dir"]).2.1 _ rfl,
    rfl,
    (default_maxResults (Demo.env Demo.goDir Demo.bodies) [] [] "func" ["dir"]).2.2.1 1
      (by decide),
    ((default_maxResults (Demo.env Demo.goDir Demo.bodies) [] [] "func" ["dir"]).2.2.2.1
      ⟨"POST", "\x7b\"pattern\":\"func\",\"paths\":[\"dir\"]\x7d"⟩
      ⟨"POST", "\x7b\"pattern\":\"func\",\"paths\":[\"dir\"],\"max_results\":100\x7d"⟩
      rfl rfl rfl).1,
    rfl,
    rfl,
    (default_maxResults (Demo.env Demo.goDir Demo.bodies) [] [] "func" ["dir"]).2.2.2.2
      ⟨"POST", "\x7b\"pattern\":\"func\",\"paths\":[\"dir\"],\"max_results\":1\x7d"⟩ 1
      rfl rfl (by decide)⟩

/-- C9: for every pattern and every `maxResults >= 0`, `search` with an empty list of paths
returns the empty list, not an error, whatever the environment holds; nothing is
accumulated. -/
theorem McpServer.search_no_paths (env : Env) (sched : List Nat) (pattern : String)
    (maxResults : Int) (allResults : List Match) (h : 0 ≤ maxResults) :
    McpServer.search env sched pattern [] maxResults allResults = (.ok [], []) := by
  have hsnd : (McpServer.search env sched pattern [] maxResults allResults).2 = [] := by
    rw [McpServer.search_snd]
    cases sched <;> simp [McpServer.spawned, runGoroutines]
  have hfst := McpServer.search_fst_of_nonneg env sched pattern [] maxResults allResults h
  rw [hsnd, List.take_nil] at hfst
  exact Prod.ext hfst hsnd

/-- C9, in the environment of the two Go files, with the cap 0 and matches left in
`allResults` by an earlier query. -/
theorem McpServer.search_no_paths_witness :
    (0 : Int) ≤ 0 ∧
    McpServer.search (Demo.env Demo.goDir []) [3, 1] "func" [] 0 [⟨"dir/a.go", 1, "func Foo"⟩] =
      (.ok [], []) :=
  ⟨by decide,
    McpServer.search_no_paths (Demo.env Demo.goDir []) [3, 1] "func" 0
      [⟨"dir/a.go", 1, "func Foo"⟩] (by decide)⟩

/-- C10: for every query with `maxResults >= 0`, the matches accumulated for the query are
the merge, in the order the scheduler produced them, of what the goroutines of the eligible
files append; `search` returns the first `min n maxResults` of these `n` matches, a prefix of
the accumulated list, and the whole list unchanged when `n <= maxResults`. -/
theorem McpServer.search_returns_first_maxResults (env : Env) (sched : List Nat)
    (pattern : String) (paths : List String) (maxResults : Int) (allResults : List Match)
    (h : 0 ≤ maxResults) :
    ∃ acc : List Match,
      acc = runGoroutines sched
        ((McpServer.spawned env paths).map (fun fp => McpServer.searchFile env fp pattern []))
        [] ∧
      (McpServer.search env sched pattern paths maxResults allResults).2 = acc ∧
      (McpServer.search env sched pattern paths maxResults allResults).1 =
        .ok (acc.take (min acc.length maxResults.toNat)) ∧
      (∃ rest, acc.take (min acc.length maxResults.toNat) ++ rest = acc) ∧
      ((acc.length : Int) ≤ maxResults →
        (McpServer.search env sched pattern paths maxResults allResults).1 = .ok acc) := by
  have hsnd := McpServer.search_snd env sched pattern paths maxResults allResults
  have hfst := McpServer.search_fst_of_nonneg env sched pattern paths maxResults allResults h
  rw [hsnd] at hfst
  refine ⟨_, rfl, hsnd, ?_, ⟨_, List.take_append_drop _ _⟩, ?_⟩
  · rw [hfst]
    congr 1
    rw [List.take_eq_take]
    omega
  · intro hle
    rw [hfst, List.take_of_length_le]
    omega

/-- C10, on the two Go files with the cap 1 and a schedule that lets `b.go` append first. -/
theorem McpServer.search_returns_first_maxResults_witness :
    (0 : Int) ≤ 1 ∧
    McpServer.search (Demo.env Demo.goDir []) [1] "func" ["dir"] 1 [] =
      (.ok [⟨"dir/b.go", 1, "func Bar"⟩],
        [⟨"dir/b.go", 1, "func Bar"⟩, ⟨"dir/a.go", 1, "func Foo"⟩]) ∧
    ∃ acc : List Match,
      acc = runGoroutines [1]
        ((McpServer.spawned (Demo.env Demo.goDir []) ["dir"]).map
          (fun fp => McpServer.searchFile (Demo.env Demo.goDir []) fp "func" [])) [] ∧
      (McpServer.search (Demo.env Demo.goDir []) [1] "func" ["dir"] 1 []).2 = acc ∧
      (McpServer.search (Demo.env Demo.goDir []) [1] "func" ["dir"] 1 []).1 =
        .ok (acc.take (min acc.length (1 : Int).toNat)) ∧
      (∃ rest, acc.take (min acc.length (1 : Int).toNat) ++ rest = acc) ∧
      ((acc.length : Int) ≤ 1 →
        (McpServer.search (Demo.env Demo.goDir []) [1] "func" ["dir"] 1 []).1 = .ok acc) :=
  ⟨by decide, rfl,
    McpServer.search_returns_first_maxResults (Demo.env Demo.goDir []) [1] "func" ["dir"] 1 []
      (by decide)⟩

/-! ## Lemmas on the files that are scanned -/

theorem McpServer.walkFn_eq_some_iff (e : WalkEntry) (g : String) :
    McpServer.walkFn e = some g ↔
      e.err = false ∧ e.IsDir = false ∧ Go.Ext e.filePath = ".go" ∧ g = e.filePath := by
  unfold McpServer.walkFn
  constructor
  · intro h
    split_ifs at h with h1 h2
    simp only [Bool.or_eq_true, bne_iff_ne, ne_eq, not_or, Bool.not_eq_true, not_not] at h2
    exact ⟨by simpa using h1, h2.1, h2.2, (Option.some.inj h).symm⟩
  · rintro ⟨h1, h2, h3, rfl⟩
    simp [h1, h2, h3]

theorem McpServer.mem_spawned (env : Env) (paths : List String) (g : String) :
    g ∈ McpServer.spawned env paths ↔
      ∃ path ∈ paths, ∃ e ∈ env.Walk path, McpServer.walkFn e = some g := by
  induction paths with
  | nil => simp [McpServer.spawned]
  | cons path rest ih =>
    simp only [McpServer.spawned, List.mem_append, List.mem_filterMap, ih, List.mem_cons,
      exists_eq_or_imp]

theorem McpServer.mem_search_snd (env : Env) (sched : List Nat) (pattern : String)
    (paths : List String) (maxResults : Int) (allResults : List Match) (m : Match) :
    m ∈ (McpServer.search env sched pattern paths maxResults allResults).2 ↔
      ∃ g ∈ McpServer.spawned env paths, m ∈ McpServer.searchFile env g pattern [] := by
  rw [McpServer.search_snd, (runGoroutines_perm _ _ _).mem_iff]
  simp only [List.nil_append, List.mem_flatten, List.mem_map]
  constructor
  · rintro ⟨q, ⟨g, hg, rfl⟩, hm⟩
    exact ⟨g, hg, hm⟩
  · rintro ⟨g, hg, hm⟩
    exact ⟨_, ⟨g, hg, rfl⟩, hm⟩

theorem McpServer.mem_snd_of_search_ok (env : Env) (sched : List Nat) (pattern : String)
    (paths : List String) (maxResults : Int) (allResults ms : List Match) (m : Match)
    (hok : (McpServer.search env sched pattern paths maxResults allResults).1 = .ok ms)
    (hm : m ∈ ms) :
    m ∈ (McpServer.search env sched pattern paths maxResults allResults).2 := by
  by_cases h : 0 ≤ maxResults
  · rw [McpServer.search_fst_of_nonneg env sched pattern paths maxResults allResults h] at hok
    have := Except.ok.inj hok
    subst this
    exact List.mem_of_mem_take hm
  · rw [McpServer.search_fst_of_neg env sched pattern paths maxResults allResults
      (by omega)] at hok
    cases hok

/-- C11: every match returned by `search` has as `File` the path of an entry met by the walk
of one of the given roots that is not a directory and has the extension `.go`; an entry that
is a directory or has another extension starts no scan; and for every entry that is met
without error, is not a directory and has the extension `.go`, a scan is started and all its
matches are accumulated in `allResults`. -/
theorem McpServer.search_scans_go_files (env : Env) (sched : List Nat) (pattern : String)
    (paths : List String) (maxResults : Int) (allResults : List Match) :
    (∀ ms, (McpServer.search env sched pattern paths maxResults allResults).1 = .ok ms →
      ∀ m ∈ ms, ∃ path ∈ paths, ∃ e ∈ env.Walk path,
        e.filePath = m.File ∧ e.err = false ∧ e.IsDir = false ∧ Go.Ext m.File = ".go") ∧
    (∀ e : WalkEntry, e.IsDir = true ∨ Go.Ext e.filePath ≠ ".go" →
      McpServer.walkFn e = none) ∧
    (∀ path ∈ paths, ∀ e ∈ env.Walk path,
      e.err = false → e.IsDir = false → Go.Ext e.filePath = ".go" →
        e.filePath ∈ McpServer.spawned env paths ∧
        ∀ m ∈ McpServer.searchFile env e.filePath pattern [],
          m ∈ (McpServer.search env sched pattern paths maxResults allResults).2) := by
  refine ⟨?_, ?_, ?_⟩
  · intro ms hok m hm
    have h2 := McpServer.mem_snd_of_search_ok env sched pattern paths maxResults allResults
      ms m hok hm
    obtain ⟨g, hg, hmg⟩ := (McpServer.mem_search_snd env sched pattern paths maxResults
      allResults m).mp h2
    obtain ⟨path, hpath, e, he, hw⟩ := (McpServer.mem_spawned env paths g).mp hg
    obtain ⟨h1, h2, h3, rfl⟩ := (McpServer.walkFn_eq_some_iff e g).mp hw
    have hfile := McpServer.file_of_mem_searchFile env e.filePath pattern m hmg
    exact ⟨path, hpath, e, he, hfile.symm, h1, h2, by rw [hfile]; exact h3⟩
  · intro e he
    cases hw : McpServer.walkFn e with
    | none => rfl
    | some g =>
      obtain ⟨_, h2, h3, _⟩ := (McpServer.walkFn_eq_some_iff e g).mp hw
      rcases he with he | he
      · rw [h2] at he
        cases he
      · exact absurd h3 he
  · intro path hpath e he h1 h2 h3
    have hsp : e.filePath ∈ McpServer.spawned env paths :=
      (McpServer.mem_spawned env paths e.filePath).mpr
        ⟨path, hpath, e, he, (McpServer.walkFn_eq_some_iff e e.filePath).mpr ⟨h1, h2, h3, rfl⟩⟩
    refine ⟨hsp, ?_⟩
    intro m hm
    exact (McpServer.mem_search_snd env sched pattern paths maxResults allResults m).mpr
      ⟨e.filePath, hsp, hm⟩

/-- C11, on `Demo.nestedDir`: the scans are started for `dir/a.go` and for the nested
`dir/sub/c.go`, not for `dir/b.txt`, the directory `dir/d.go` or `dir/d.go/e.txt`, and
the matches returned are those of the two Go files. -/
theorem McpServer.search_scans_go_files_witness :
    (Demo.env Demo.nestedDir []).Walk "dir" =
      [⟨"dir", true, false⟩, ⟨"dir/a.go", false, false⟩, ⟨"dir/b.txt", false, false⟩,
       ⟨"dir/d.go", true, false⟩, ⟨"dir/d.go/e.txt", false, false⟩,
       ⟨"dir/sub", true, false⟩, ⟨"dir/sub/c.go", false, false⟩] ∧
    McpServer.spawned (Demo.env Demo.nestedDir []) ["dir"] = ["dir/a.go", "dir/sub/c.go"] ∧
    McpServer.search (Demo.env Demo.nestedDir []) [] "func" ["dir"] 10 [] =
      (.ok [⟨"dir/a.go", 1, "func Foo"⟩, ⟨"dir/sub/c.go", 2, "func Baz"⟩],
        [⟨"dir/a.go", 1, "func Foo"⟩, ⟨"dir/sub/c.go", 2, "func Baz"⟩]) ∧
    (∀ m ∈ [(⟨"dir/a.go", 1, "func Foo"⟩ : Match), ⟨"dir/sub/c.go", 2, "func Baz"⟩],
      ∃ path ∈ ["dir"], ∃ e ∈ (Demo.env Demo.nestedDir []).Walk path,
        e.filePath = m.File ∧ e.err = false ∧ e.IsDir = false ∧ Go.Ext m.File = ".go") ∧
    McpServer.walkFn ⟨"dir/d.go", true, false⟩ = none ∧
    ("dir/sub/c.go" ∈ McpServer.spawned (Demo.env Demo.nestedDir []) ["dir"] ∧
      ∀ m ∈ McpServer.searchFile (Demo.env Demo.nestedDir []) "dir/sub/c.go" "func" [],
        m ∈ (McpServer.search (Demo.env Demo.nestedDir []) [] "func" ["dir"] 10 []).2) :=
  ⟨rfl, rfl, rfl,
    (McpServer.search_scans_go_files (Demo.env Demo.nestedDir []) [] "func" ["dir"] 10 []).1
      _ rfl,
    (McpServer.search_scans_go_files (Demo.env Demo.nestedDir []) [] "func" ["dir"] 10 []).2.1
      ⟨"dir/d.go", true, false⟩ (Or.inl rfl),
    (McpServer.search_scans_go_files (Demo.env Demo.nestedDir []) [] "func" ["dir"] 10 []).2.2
      "dir" (List.mem_singleton.mpr rfl) ⟨"dir/sub/c.go", false, false⟩ (by decide) rfl rfl rfl⟩

/-- C12 as written fails: with the files `a.txt` and `b.txt` of the scenario no scan is
started, `search("^func", [dir], 10)` returns no match and the tool reports the total 0. -/
theorem McpServer.search_two_txt_files_cap_ten :
    McpServer.spawned (Demo.env Demo.txtDir []) ["dir"] = [] ∧
    McpServer.search (Demo.env Demo.txtDir []) [] "^func" ["dir"] 10 [] = (.ok [], []) ∧
    (McpServer.SearchTool (Demo.env Demo.txtDir []) [] ⟨"^func", ["dir"], 10⟩ []).1 =
      .ok (.ok { StructuredContent := { Matches := [], Total := 0 },
                 Content := ["\x7b\n  \"matches\": [],\n  \"total\": 0\n\x7d"] }) :=
  ⟨rfl, rfl, rfl⟩

/-- C12, amended: when the two files of the scenario are Go files, `a.go` with the lines
"func Foo", "bar" and `b.go` with the lines "func Bar", "baz", then under every schedule
`search("^func", [dir], 10)` returns exactly the two matches `dir/a.go`, line 1, "func Foo"
and `dir/b.go`, line 1, "func Bar", in the order the scheduler produced them, and the tool
reports the total 2. -/
theorem McpServer.search_two_go_files_cap_ten (sched : List Nat) :
    ∃ ms : List Match,
      ms.Perm [⟨"dir/a.go", 1, "func Foo"⟩, ⟨"dir/b.go", 1, "func Bar"⟩] ∧
      McpServer.search (Demo.env Demo.goDir []) sched "^func" ["dir"] 10 [] = (.ok ms, ms) ∧
      ∃ r : CallToolResult,
        (McpServer.SearchTool (Demo.env Demo.goDir []) sched ⟨"^func", ["dir"], 10⟩ []).1 =
          .ok (.ok r) ∧
        r.StructuredContent = { Matches := ms, Total := 2 } := by
  have hsnd := McpServer.search_snd (Demo.env Demo.goDir []) sched "^func" ["dir"] 10 []
  have hpending : (McpServer.spawned (Demo.env Demo.goDir []) ["dir"]).map
      (fun fp => McpServer.searchFile (Demo.env Demo.goDir []) fp "^func" []) =
      [[⟨"dir/a.go", 1, "func Foo"⟩], [⟨"dir/b.go", 1, "func Bar"⟩]] := rfl
  have hperm := runGoroutines_perm sched
    [[(⟨"dir/a.go", 1, "func Foo"⟩ : Match)], [⟨"dir/b.go", 1, "func Bar"⟩]] []
  rw [hpending] at hsnd
  rw [← hsnd] at hperm
  have hperm2 : (McpServer.search (Demo.env Demo.goDir []) sched "^func" ["dir"] 10 []).2.Perm
      [⟨"dir/a.go", 1, "func Foo"⟩, ⟨"dir/b.go", 1, "func Bar"⟩] := hperm
  have hlen := hperm2.length_eq
  have hfst := McpServer.search_fst_of_nonneg (Demo.env Demo.goDir []) sched "^func" ["dir"]
    10 [] (by decide)
  rw [List.take_of_length_le (by rw [hlen]; decide)] at hfst
  have hsearch : McpServer.search (Demo.env Demo.goDir []) sched "^func" ["dir"] 10 [] =
      (.ok (McpServer.search (Demo.env Demo.goDir []) sched "^func" ["dir"] 10 []).2,
        (McpServer.search (Demo.env Demo.goDir []) sched "^func" ["dir"] 10 []).2) :=
    Prod.ext hfst rfl
  refine ⟨_, hperm2, hsearch, ?_⟩
  rw [McpServer.SearchTool_eq]
  have hmax : (if (10 : Int) = 0 then (100 : Int) else 10) = 10 := by decide
  simp only [hmax]
  rw [hsearch]
  refine ⟨_, rfl, ?_⟩
  have htotal : (((McpServer.search (Demo.env Demo.goDir []) sched "^func" ["dir"] 10 []).2.length
      : Nat) : Int) = 2 := by
    rw [hlen]
    rfl
  exact congrArg (SearchOutput.mk _) htotal

/-! ## Lemmas on the fields of a match -/

theorem McpServer.mem_searchFile (env : Env) (filePath pattern : String) (m : Match) :
    m ∈ McpServer.searchFile env filePath pattern [] ↔
      ∃ re content, env.Compile pattern = some re ∧ env.ReadFile filePath = some content ∧
        ∃ il ∈ (Go.Split content '\n').enum, re.MatchString il.2 = true ∧
          m = { File := filePath, Line := (il.1 : Int) + 1, Content := Go.TrimSpace il.2 } := by
  unfold McpServer.searchFile
  cases hre : env.Compile pattern with
  | none => simp
  | some re =>
    cases hread : env.ReadFile filePath with
    | none => simp
    | some content =>
      have h := McpServer.searchFileLoop_eq re filePath (Go.Split content '\n') 0 []
      simp only [Nat.cast_zero] at h
      simp only [h, List.nil_append, List.mem_map, List.mem_filter, List.enum]
      constructor
      · rintro ⟨il, ⟨hil, hmatch⟩, rfl⟩
        exact ⟨re, content, rfl, rfl, il, hil, hmatch, rfl⟩
      · rintro ⟨re2, content2, hre2, hc2, il, hil, hmatch, rfl⟩
        cases hre2
        cases hc2
        exact ⟨il, ⟨hil, hmatch⟩, rfl⟩

theorem Go.TrimSpace_eq_empty_iff (s : String) :
    Go.TrimSpace s = "" ↔ ∀ c ∈ s.data, Go.isSpace c = true := by
  have hmk : ∀ l : List Char, String.mk l = "" ↔ l = [] := by
    intro l
    constructor
    · intro h
      exact congrArg String.data h
    · intro h
      rw [h]
  unfold Go.TrimSpace
  rw [hmk, List.reverse_eq_nil_iff, List.dropWhile_eq_nil_iff]
  constructor
  · intro h
    have hnil : s.data.dropWhile Go.isSpace = [] := by
      by_contra hne
      have hhead := List.head_dropWhile_not Go.isSpace s.data hne
      have hmem : (s.data.dropWhile Go.isSpace).head hne ∈
          (s.data.dropWhile Go.isSpace).reverse :=
        List.mem_reverse.mpr (List.head_mem hne)
      rw [h _ hmem] at hhead
      cases hhead
    exact (List.dropWhile_eq_nil_iff).mp hnil
  · intro h x hx
    have hnil : s.data.dropWhile Go.isSpace = [] := (List.dropWhile_eq_nil_iff).mpr h
    rw [hnil] at hx
    cases hx

/-- C13 as written fails: the pattern `^$` is valid and matches the empty second line of
testdata/sample.go; the match returned for it has an empty `Content`. -/
theorem McpServer.search_empty_content :
    ((Demo.env Demo.testdata []).Compile "^$").isSome = true ∧
    (McpServer.search (Demo.env Demo.testdata []) [] "^$" ["testdata"] 1 []).1 =
      .ok [⟨"testdata/sample.go", 2, ""⟩] :=
  ⟨rfl, rfl⟩

/-- C13, amended: every match returned by `search` has a non-empty `File`, and its `Content`
is a line of that file that the pattern matches, without its leading and trailing white
space; the `Content` is non-empty exactly when that line holds a character that is not white
space. -/
theorem McpServer.search_match_fields (env : Env) (sched : List Nat) (pattern : String)
    (paths : List String) (maxResults : Int) (allResults ms : List Match)
    (hok : (McpServer.search env sched pattern paths maxResults allResults).1 = .ok ms) :
    ∀ m ∈ ms, m.File ≠ "" ∧
      ∃ re content line, env.Compile pattern = some re ∧
        env.ReadFile m.File = some content ∧ line ∈ Go.Split content '\n' ∧
        re.MatchString line = true ∧ m.Content = Go.TrimSpace line ∧
        (m.Content ≠ "" ↔ ∃ c ∈ line.data, Go.isSpace c = false) := by
  intro m hm
  have h2 := McpServer.mem_snd_of_search_ok env sched pattern paths maxResults allResults
    ms m hok hm
  obtain ⟨g, hg, hmg⟩ := (McpServer.mem_search_snd env sched pattern paths maxResults
    allResults m).mp h2
  obtain ⟨path, _, e, _, hw⟩ := (McpServer.mem_spawned env paths g).mp hg
  obtain ⟨_, _, hext, rfl⟩ := (McpServer.walkFn_eq_some_iff e g).mp hw
  obtain ⟨re, content, hre, hread, il, hil, hmatch, rfl⟩ :=
    (McpServer.mem_searchFile env e.filePath pattern m).mp hmg
  refine ⟨?_, re, content, il.2, hre, hread, List.snd_mem_of_mem_enumFrom hil, hmatch, rfl, ?_⟩
  · intro hempty
    simp only at hempty
    rw [hempty] at hext
    exact absurd hext (by decide)
  · simp only [ne_eq, Go.TrimSpace_eq_empty_iff]
    constructor
    · intro h
      by_contra hall
      apply h
      intro c hc
      by_contra hcs
      exact hall ⟨c, hc, by simpa using hcs⟩
    · rintro ⟨c, hc, hcs⟩ hall
      rw [hall c hc] at hcs
      cases hcs

/-- C13, amended, on testdata/sample.go with the pattern `type.*struct`. -/
theorem McpServer.search_match_fields_witness :
    (McpServer.search (Demo.env Demo.testdata []) [] "type.*struct" ["testdata"] 100 []).1 =
      .ok [⟨"testdata/sample.go", 41, "type User struct \x7b"⟩] ∧
    ∀ m ∈ [(⟨"testdata/sample.go", 41, "type User struct \x7b"⟩ : Match)], m.File ≠ "" ∧
      ∃ re content line, (Demo.env Demo.testdata []).Compile "type.*struct" = some re ∧
        (Demo.env Demo.testdata []).ReadFile m.File = some content ∧
        line ∈ Go.Split content '\n' ∧
        re.MatchString line = true ∧ m.Content = Go.TrimSpace line ∧
        (m.Content ≠ "" ↔ ∃ c ∈ line.data, Go.isSpace c = false) :=
  ⟨rfl, McpServer.search_match_fields (Demo.env Demo.testdata []) [] "type.*struct"
    ["testdata"] 100 [] _ rfl⟩

/-! ## Lemmas on walk errors -/

theorem McpServer.walkFn_of_err (e : WalkEntry) (h : e.err = true) :
    McpServer.walkFn e = none := by
  unfold McpServer.walkFn
  rw [if_pos h]

theorem McpServer.filterMap_walkFn_filter_err (entries : List WalkEntry) :
    (entries.filter (fun e => !e.err)).filterMap McpServer.walkFn =
      entries.filterMap McpServer.walkFn := by
  induction entries with
  | nil => rfl
  | cons e rest ih =>
    cases herr : e.err with
    | true =>
      simp [List.filter_cons, herr, List.filterMap_cons, McpServer.walkFn_of_err e herr, ih]
    | false =>
      simp only [List.filter_cons, herr, Bool.not_false, if_true, List.filterMap_cons, ih]

theorem McpServer.spawned_withoutWalkErrors (env : Env) (paths : List String) :
    McpServer.spawned env.withoutWalkErrors paths = McpServer.spawned env paths := by
  induction paths with
  | nil => rfl
  | cons path rest ih =>
    simp only [McpServer.spawned, ih]
    congr 1
    exact McpServer.filterMap_walkFn_filter_err (env.Walk path)

theorem McpServer.spawned_append (env : Env) (before after : List String) :
    McpServer.spawned env (before ++ after) =
      McpServer.spawned env before ++ McpServer.spawned env after := by
  induction before with
  | nil => rfl
  | cons path rest ih =>
    show (env.Walk path).filterMap McpServer.walkFn ++ McpServer.spawned env (rest ++ after) =
      ((env.Walk path).filterMap McpServer.walkFn ++ McpServer.spawned env rest) ++
        McpServer.spawned env after
    rw [ih, List.append_assoc]

theorem McpServer.search_congr_spawned (env : Env) (sched : List Nat) (pattern : String)
    (paths paths2 : List String) (maxResults : Int) (allResults : List Match)
    (h : McpServer.spawned env paths = McpServer.spawned env paths2) :
    McpServer.search env sched pattern paths maxResults allResults =
      McpServer.search env sched pattern paths2 maxResults allResults := by
  simp only [McpServer.search, h]

/-! ## Lemmas on the walk and the result of the `WalkFunc` -/

mutual
/-- A `WalkFunc` that always returns nil is called for every entry of the node. -/
theorem Fs.walkWith_of_nil {σ : Type} (fn : σ → WalkEntry → σ × Fs.WalkErr)
    (hfn : ∀ s e, (fn s e).2 = Fs.WalkErr.nil) (path : String) :
    ∀ (node : Fs.Node) (s : σ), Fs.walkWith fn path node s =
      ((Fs.walk path node).foldl (fun s e => (fn s e).1) s, Fs.WalkErr.nil)
  | .file _, s => Prod.ext rfl (hfn _ _)
  | .unreadable, s => Prod.ext rfl (hfn _ _)
  | .lockedDir, s => Prod.ext rfl (hfn _ _)
  | .broken, s => Prod.ext rfl (hfn _ _)
  | .dir entries, s => by
    have hcall : fn s ⟨path, true, false⟩ = ((fn s ⟨path, true, false⟩).1, Fs.WalkErr.nil) :=
      Prod.ext rfl (hfn _ _)
    rw [Fs.walkWith, hcall]
    simp only
    rw [Fs.walkEntriesWith_of_nil fn hfn path entries]
    rfl
/-- A `WalkFunc` that always returns nil is called for every entry of the directory. -/
theorem Fs.walkEntriesWith_of_nil {σ : Type} (fn : σ → WalkEntry → σ × Fs.WalkErr)
    (hfn : ∀ s e, (fn s e).2 = Fs.WalkErr.nil) (path : String) :
    ∀ (entries : Fs.Entries) (s : σ), Fs.walkEntriesWith fn path entries s =
      ((Fs.walkEntries path entries).foldl (fun s e => (fn s e).1) s, Fs.WalkErr.nil)
  | .nil, s => rfl
  | .cons name node rest, s => by
    rw [Fs.walkEntriesWith, Fs.walkEntries, List.foldl_append]
    cases hfail : node.lstatFails with
    | true =>
      have hnode : node = Fs.Node.broken := by
        cases node <;> first | rfl | cases hfail
      subst hnode
      have hcall : fn s ⟨path ++ "/" ++ name, false, true⟩ =
          ((fn s ⟨path ++ "/" ++ name, false, true⟩).1, Fs.WalkErr.nil) :=
        Prod.ext rfl (hfn _ _)
      simp only [if_true]
      rw [hcall]
      simp only
      rw [Fs.walkEntriesWith_of_nil fn hfn path rest]
      rfl
    | false =>
      simp only [Bool.false_eq_true, if_false]
      rw [Fs.walkWith_of_nil fn hfn (path ++ "/" ++ name) node s]
      simp only
      rw [Fs.walkEntriesWith_of_nil fn hfn path rest]
end

theorem Fs.WalkWith_eq_foldl {σ : Type} (cwd : Fs.Entries) (root : String)
    (fn : σ → WalkEntry → σ × Fs.WalkErr) (hfn : ∀ s e, (fn s e).2 = Fs.WalkErr.nil) (s : σ) :
    Fs.WalkWith cwd root fn s =
      ((Fs.Walk cwd root).foldl (fun s e => (fn s e).1) s, Fs.WalkErr.nil) := by
  unfold Fs.WalkWith Fs.Walk
  cases hl : Fs.lookup cwd root with
  | none =>
    have hcall : fn s ⟨root, false, true⟩ = ((fn s ⟨root, false, true⟩).1, Fs.WalkErr.nil) :=
      Prod.ext rfl (hfn _ _)
    simp only
    rw [hcall]
    rfl
  | some node =>
    simp only
    cases hfail : node.lstatFails with
    | true =>
      have hnode : node = Fs.Node.broken := by
        cases node <;> first | rfl | cases hfail
      subst hnode
      have hcall : fn s ⟨root, false, true⟩ = ((fn s ⟨root, false, true⟩).1, Fs.WalkErr.nil) :=
        Prod.ext rfl (hfn _ _)
      simp only [if_true]
      rw [hcall]
      rfl
    | false =>
      simp only [Bool.false_eq_true, if_false]
      rw [Fs.walkWith_of_nil fn hfn root node s]

/-- The `WalkFunc` of `search` returns nil at every call, and starts a goroutine exactly for
the file `walkFn` gives. -/
theorem McpServer.walkFunc_eq (started : List String) (e : WalkEntry) :
    McpServer.walkFunc started e = (started ++ (McpServer.walkFn e).toList, Fs.WalkErr.nil) := by
  unfold McpServer.walkFunc McpServer.walkFn
  split_ifs <;> simp

theorem McpServer.foldl_walkFunc (entries : List WalkEntry) (started : List String) :
    entries.foldl (fun s e => (McpServer.walkFunc s e).1) started =
      started ++ entries.filterMap McpServer.walkFn := by
  induction entries generalizing started with
  | nil => simp
  | cons e rest ih =>
    rw [List.foldl_cons, ih, McpServer.walkFunc_eq, List.filterMap_cons]
    cases McpServer.walkFn e <;> simp

theorem McpServer.WalkWith_walkFunc (cwd : Fs.Entries) (root : String)
    (started : List String) :
    Fs.WalkWith cwd root McpServer.walkFunc started =
      (started ++ (Fs.Walk cwd root).filterMap McpServer.walkFn, Fs.WalkErr.nil) := by
  rw [Fs.WalkWith_eq_foldl cwd root McpServer.walkFunc
    (fun s e => by rw [McpServer.walkFunc_eq]), McpServer.foldl_walkFunc]

theorem McpServer.walkPaths_eq (env : Env) (cwd : Fs.Entries) (hwalk : env.Walk = Fs.Walk cwd)
    (paths : List String) (started : List String) :
    McpServer.walkPaths cwd paths started = started ++ McpServer.spawned env paths := by
  induction paths generalizing started with
  | nil => simp [McpServer.walkPaths, McpServer.spawned]
  | cons path rest ih =>
    rw [McpServer.walkPaths, McpServer.WalkWith_walkFunc, ih]
    simp only [McpServer.spawned, hwalk, List.append_assoc]

theorem McpServer.filterMap_walkFn_eq (entries : List WalkEntry) :
    entries.filterMap McpServer.walkFn =
      (entries.filter (fun e => !e.err && !e.IsDir && Go.Ext e.filePath == ".go")).map
        (fun e => e.filePath) := by
  induction entries with
  | nil => rfl
  | cons e rest ih =>
    cases hw : McpServer.walkFn e with
    | none =>
      have hcond : (!e.err && !e.IsDir && Go.Ext e.filePath == ".go") = false := by
        cases htrue : (!e.err && !e.IsDir && Go.Ext e.filePath == ".go") with
        | false => rfl
        | true =>
          simp only [Bool.and_eq_true, Bool.not_eq_true', beq_iff_eq] at htrue
          have := (McpServer.walkFn_eq_some_iff e e.filePath).mpr
            ⟨htrue.1.1, htrue.1.2, htrue.2, rfl⟩
          rw [hw] at this
          cases this
      simp only [List.filterMap_cons, hw, List.filter_cons, hcond]
      exact ih
    | some g =>
      obtain ⟨h1, h2, h3, h4⟩ := (McpServer.walkFn_eq_some_iff e g).mp hw
      have hcond : (!e.err && !e.IsDir && Go.Ext e.filePath == ".go") = true := by
        simp [h1, h2, h3]
      simp only [List.filterMap_cons, hw, List.filter_cons, hcond, if_true, List.map_cons, ih,
        h4]

/-- C14: an entry that the walk reports with an error (a root that does not exist, an entry
whose `Lstat` fails, a directory that cannot be listed) is skipped and the query goes on.  On
every file tree the `WalkFunc` of `search` returns nil at every call, so that `filepath.Walk`,
which would end the walk of a root at the first call that returns an error, visits every entry
of every root and returns nil: it starts a goroutine for every entry reported without error
that is no directory and has the extension `.go`, also for those that come after an entry
reported with an error.  The matches accumulated are those of the goroutines started by the
loop over the paths; under every schedule `search` returns what it returns when the entries
reported with an error are removed from the walks, and what it returns when a root of which
nothing can be walked is removed from the paths; for `maxResults >= 0` the query does not
fail, and every match of every file that is scanned is accumulated. -/
theorem McpServer.search_skips_walk_errors (env : Env) (cwd : Fs.Entries)
    (hwalk : env.Walk = Fs.Walk cwd) (sched : List Nat) (pattern : String)
    (maxResults : Int) (allResults : List Match) :
    (∀ (root : String) (started : List String),
      Fs.WalkWith cwd root McpServer.walkFunc started =
        (started ++ ((Fs.Walk cwd root).filter
          (fun e => !e.err && !e.IsDir && Go.Ext e.filePath == ".go")).map
            (fun e => e.filePath), Fs.WalkErr.nil)) ∧
    (∀ paths : List String,
      (McpServer.search env sched pattern paths maxResults allResults).2 =
        runGoroutines sched ((McpServer.walkPaths cwd paths []).map
          (fun fp => McpServer.searchFile env fp pattern [])) []) ∧
    (∀ paths : List String,
      McpServer.search env.withoutWalkErrors sched pattern paths maxResults allResults =
        McpServer.search env sched pattern paths maxResults allResults) ∧
    (∀ (before after : List String) (root : String),
      (∀ e ∈ Fs.Walk cwd root, e.err = true) →
        McpServer.search env sched pattern (before ++ root :: after) maxResults allResults =
          McpServer.search env sched pattern (before ++ after) maxResults allResults) ∧
    (∀ paths : List String, 0 ≤ maxResults →
      ∃ ms, (McpServer.search env sched pattern paths maxResults allResults).1 = .ok ms) ∧
    (∀ (paths : List String) (g : String), g ∈ McpServer.walkPaths cwd paths [] →
      ∀ m ∈ McpServer.searchFile env g pattern [],
        m ∈ (McpServer.search env sched pattern paths maxResults allResults).2) := by
  have hpaths : ∀ paths : List String,
      McpServer.walkPaths cwd paths [] = McpServer.spawned env paths := by
    intro paths
    rw [McpServer.walkPaths_eq env cwd hwalk, List.nil_append]
  refine ⟨?_, ?_, ?_, ?_, ?_, ?_⟩
  · intro root started
    rw [McpServer.WalkWith_walkFunc, McpServer.filterMap_walkFn_eq]
  · intro paths
    rw [hpaths, McpServer.search_snd]
  · intro paths
    have hfun : (fun fp => McpServer.searchFile env.withoutWalkErrors fp pattern []) =
        (fun fp => McpServer.searchFile env fp pattern []) := rfl
    simp only [McpServer.search, McpServer.spawned_withoutWalkErrors, hfun]
  · intro before after root herr
    apply McpServer.search_congr_spawned
    have hnil : (env.Walk root).filterMap McpServer.walkFn = [] := by
      rw [List.filterMap_eq_nil_iff, hwalk]
      intro e he
      exact McpServer.walkFn_of_err e (herr e he)
    rw [McpServer.spawned_append, McpServer.spawned_append]
    simp only [McpServer.spawned, hnil, List.nil_append]
  · intro paths h0
    exact ⟨_, McpServer.search_fst_of_nonneg env sched pattern paths maxResults allResults h0⟩
  · intro paths g hg m hm
    rw [hpaths] at hg
    exact (McpServer.mem_search_snd env sched pattern paths maxResults allResults m).mpr
      ⟨g, hg, hm⟩

/-- C14, on `Demo.brokenDir` with the roots `missing`, which does not exist, and `dir`: the
walk of `dir` reports `dir/bad.go` and `dir/locked` with an error, gets nil from the
`WalkFunc` of `search` and goes on to `dir/z.go`, where a `WalkFunc` that returned the error
would have ended the walk at `dir/bad.go`.  The matches of `dir/a.go` and `dir/z.go` are
returned (with the schedule `[1]`, those of `dir/z.go` first), as for the tree `Demo.cleanDir`
without these entries and the root `dir` alone. -/
theorem McpServer.search_skips_walk_errors_witness :
    (Demo.env Demo.brokenDir []).Walk = Fs.Walk Demo.brokenDir ∧
    Fs.Walk Demo.brokenDir "missing" = [⟨"missing", false, true⟩] ∧
    Fs.Walk Demo.brokenDir "dir" =
      [⟨"dir", true, false⟩, ⟨"dir/a.go", false, false⟩, ⟨"dir/bad.go", false, true⟩,
       ⟨"dir/link.go", false, false⟩, ⟨"dir/locked", true, true⟩,
       ⟨"dir/z.go", false, false⟩] ∧
    Fs.WalkWith Demo.brokenDir "missing" McpServer.walkFunc [] = ([], Fs.WalkErr.nil) ∧
    Fs.WalkWith Demo.brokenDir "dir" McpServer.walkFunc [] =
      (["dir/a.go", "dir/link.go", "dir/z.go"], Fs.WalkErr.nil) ∧
    Fs.WalkWith Demo.brokenDir "dir" Fs.returnErr [] =
      (["dir", "dir/a.go"], Fs.WalkErr.other) ∧
    McpServer.walkPaths Demo.brokenDir ["missing", "dir"] [] =
      ["dir/a.go", "dir/link.go", "dir/z.go"] ∧
    McpServer.search (Demo.env Demo.brokenDir []) [1] "func" ["missing", "dir"] 10 [] =
      (.ok [⟨"dir/z.go", 1, "func Zed"⟩, ⟨"dir/a.go", 1, "func Foo"⟩],
        [⟨"dir/z.go", 1, "func Zed"⟩, ⟨"dir/a.go", 1, "func Foo"⟩]) ∧
    McpServer.search (Demo.env Demo.cleanDir []) [1] "func" ["dir"] 10 [] =
      McpServer.search (Demo.env Demo.brokenDir []) [1] "func" ["missing", "dir"] 10 [] ∧
    (McpServer.search (Demo.env Demo.brokenDir []) [1] "func" ["missing", "dir"] 10 []).2 =
      runGoroutines [1] ((McpServer.walkPaths Demo.brokenDir ["missing", "dir"] []).map
        (fun fp => McpServer.searchFile (Demo.env Demo.brokenDir []) fp "func" [])) [] ∧
    McpServer.search (Demo.env Demo.brokenDir []).withoutWalkErrors [1] "func"
        ["missing", "dir"] 10 [] =
      McpServer.search (Demo.env Demo.brokenDir []) [1] "func" ["missing", "dir"] 10 [] ∧
    McpServer.search (Demo.env Demo.brokenDir []) [1] "func" ([] ++ "missing" :: ["dir"]) 10 [] =
      McpServer.search (Demo.env Demo.brokenDir []) [1] "func" ([] ++ ["dir"]) 10 [] ∧
    (∃ ms, (McpServer.search (Demo.env Demo.brokenDir []) [1] "func" ["missing", "dir"]
      10 []).1 = .ok ms) :=
  ⟨rfl, rfl, rfl, by decide, by decide, by decide, by decide, rfl, rfl,
    (McpServer.search_skips_walk_errors (Demo.env Demo.brokenDir []) Demo.brokenDir rfl [1]
      "func" 10 []).2.1 ["missing", "dir"],
    (McpServer.search_skips_walk_errors (Demo.env Demo.brokenDir []) Demo.brokenDir rfl [1]
      "func" 10 []).2.2.1 ["missing", "dir"],
    (McpServer.search_skips_walk_errors (Demo.env Demo.brokenDir []) Demo.brokenDir rfl [1]
      "func" 10 []).2.2.2.1 [] ["dir"] "missing" (by decide),
    (McpServer.search_skips_walk_errors (Demo.env Demo.brokenDir []) Demo.brokenDir rfl [1]
      "func" 10 []).2.2.2.2.1 ["missing", "dir"] (by decide)⟩

/-- C15 as written fails when the cap is reached: two runs of the same query over the same
two Go files with the cap 1, the second starting from the `allResults` the first left, return
different matches when the scheduler lets a different goroutine append first. -/
theorem McpServer.search_rerun_differs :
    McpServer.search (Demo.env Demo.goDir []) [] "func" ["dir"] 1 [] =
      (.ok [⟨"dir/a.go", 1, "func Foo"⟩],
        [⟨"dir/a.go", 1, "func Foo"⟩, ⟨"dir/b.go", 1, "func Bar"⟩]) ∧
    McpServer.search (Demo.env Demo.goDir []) [1] "func" ["dir"] 1
        [⟨"dir/a.go", 1, "func Foo"⟩, ⟨"dir/b.go", 1, "func Bar"⟩] =
      (.ok [⟨"dir/b.go", 1, "func Bar"⟩],
        [⟨"dir/b.go", 1, "func Bar"⟩, ⟨"dir/a.go", 1, "func Foo"⟩]) ∧
    ¬ ([⟨"dir/a.go", 1, "func Foo"⟩] : List Match).Perm [⟨"dir/b.go", 1, "func Bar"⟩] :=
  ⟨rfl, rfl, by decide⟩

/-- C15, amended: when `search` is run twice with the same pattern, paths and `maxResults` in
the same environment, the second run starting from the `allResults` the first left, under
any two schedules: both runs return the same number of matches (the same total); when the
cap is not reached (`maxResults` is at least the number of matching lines) they return the
same matches up to their order; a run that panics is followed by a run that panics; and under
the same schedule the two runs return the same list. -/
theorem McpServer.search_twice (env : Env) (sched1 sched2 : List Nat) (pattern : String)
    (paths : List String) (maxResults : Int) (allResults : List Match) :
    (∀ ms1 ms2 : List Match,
      (McpServer.search env sched1 pattern paths maxResults allResults).1 = .ok ms1 →
      (McpServer.search env sched2 pattern paths maxResults
        (McpServer.search env sched1 pattern paths maxResults allResults).2).1 = .ok ms2 →
        ms1.length = ms2.length ∧
        ((McpServer.matchingLineCount env pattern paths : Int) ≤ maxResults →
          ms1.Perm ms2)) ∧
    (∀ e : String,
      (McpServer.search env sched1 pattern paths maxResults allResults).1 = .error e →
      (McpServer.search env sched2 pattern paths maxResults
        (McpServer.search env sched1 pattern paths maxResults allResults).2).1 = .error e) ∧
    (sched1 = sched2 →
      McpServer.search env sched2 pattern paths maxResults
        (McpServer.search env sched1 pattern paths maxResults allResults).2 =
      McpServer.search env sched1 pattern paths maxResults allResults) := by
  refine ⟨?_, ?_, ?_⟩
  · intro ms1 ms2 h1 h2
    have hlen1 := McpServer.length_search_snd env sched1 pattern paths maxResults allResults
    have hlen2 := McpServer.length_search_snd env sched2 pattern paths maxResults
      (McpServer.search env sched1 pattern paths maxResults allResults).2
    have hp1 := runGoroutines_perm sched1
      ((McpServer.spawned env paths).map (fun fp => McpServer.searchFile env fp pattern [])) []
    have hp2 := runGoroutines_perm sched2
      ((McpServer.spawned env paths).map (fun fp => McpServer.searchFile env fp pattern [])) []
    rw [← McpServer.search_snd env sched1 pattern paths maxResults allResults] at hp1
    rw [← McpServer.search_snd env sched2 pattern paths maxResults
      (McpServer.search env sched1 pattern paths maxResults allResults).2] at hp2
    by_cases h0 : 0 ≤ maxResults
    · rw [McpServer.search_fst_of_nonneg env sched1 pattern paths maxResults allResults h0]
        at h1
      rw [McpServer.search_fst_of_nonneg env sched2 pattern paths maxResults _ h0] at h2
      have e1 := Except.ok.inj h1
      have e2 := Except.ok.inj h2
      subst e1
      subst e2
      refine ⟨?_, ?_⟩
      · rw [List.length_take, List.length_take, hlen1, hlen2]
      · intro hcap
        rw [List.take_of_length_le (by omega), List.take_of_length_le (by omega)]
        exact hp1.trans hp2.symm
    · rw [McpServer.search_fst_of_neg env sched1 pattern paths maxResults allResults
        (by omega)] at h1
      cases h1
  · intro e h1
    by_cases h0 : 0 ≤ maxResults
    · rw [McpServer.search_fst_of_nonneg env sched1 pattern paths maxResults allResults h0]
        at h1
      cases h1
    · rw [McpServer.search_fst_of_neg env sched1 pattern paths maxResults allResults
        (by omega)] at h1
      rw [McpServer.search_fst_of_neg env sched2 pattern paths maxResults _ (by omega)]
      exact h1
  · intro hs
    subst hs
    rfl

/-- C15, amended, on the two Go files with the cap 10: the two runs return the two matches,
in different orders under different schedules. -/
theorem McpServer.search_twice_witness :
    McpServer.search (Demo.env Demo.goDir []) [] "func" ["dir"] 10 [] =
      (.ok [⟨"dir/a.go", 1, "func Foo"⟩, ⟨"dir/b.go", 1, "func Bar"⟩],
        [⟨"dir/a.go", 1, "func Foo"⟩, ⟨"dir/b.go", 1, "func Bar"⟩]) ∧
    McpServer.search (Demo.env Demo.goDir []) [1] "func" ["dir"] 10
        (McpServer.search (Demo.env Demo.goDir []) [] "func" ["dir"] 10 []).2 =
      (.ok [⟨"dir/b.go", 1, "func Bar"⟩, ⟨"dir/a.go", 1, "func Foo"⟩],
        [⟨"dir/b.go", 1, "func Bar"⟩, ⟨"dir/a.go", 1, "func Foo"⟩]) ∧
    (([⟨"dir/a.go", 1, "func Foo"⟩, ⟨"dir/b.go", 1, "func Bar"⟩] : List Match).length =
        ([⟨"dir/b.go", 1, "func Bar"⟩, ⟨"dir/a.go", 1, "func Foo"⟩] : List Match).length ∧
      ((McpServer.matchingLineCount (Demo.env Demo.goDir []) "func" ["dir"] : Int) ≤ 10 →
        ([⟨"dir/a.go", 1, "func Foo"⟩, ⟨"dir/b.go", 1, "func Bar"⟩] : List Match).Perm
          [⟨"dir/b.go", 1, "func Bar"⟩, ⟨"dir/a.go", 1, "func Foo"⟩])) ∧
    (McpServer.matchingLineCount (Demo.env Demo.goDir []) "func" ["dir"] : Int) ≤ 10 :=
  ⟨rfl, rfl,
    (McpServer.search_twice (Demo.env Demo.goDir []) [] [1] "func" ["dir"] 10 []).1 _ _ rfl rfl,
    by decide⟩

/-- C16 as written fails: a POST request whose body holds the pattern `(`, which does not
compile, is answered with status 200 and the result body with no match and total 0. -/
theorem HttpServer.searchHandler_accepts_invalid_pattern :
    (Demo.env Demo.goDir Demo.badPatternBodies).Compile "(" = none ∧
    (Demo.env Demo.goDir Demo.badPatternBodies).Decode
      "\x7b\"pattern\":\"(\",\"paths\":[\"dir\"]\x7d" = some ⟨"(", ["dir"], 0⟩ ∧
    HttpServer.searchHandler (Demo.env Demo.goDir Demo.badPatternBodies) []
      ⟨"POST", "\x7b\"pattern\":\"(\",\"paths\":[\"dir\"]\x7d"⟩ [] =
      (.ok (.json { Matches := [], Total := 0 }), []) :=
  ⟨rfl, rfl, rfl⟩

/-- C16, amended: a POST request whose body decodes to a request with a pattern that does
not compile and with `max_results >= 0` is answered with status 200 and the result body with
no match and total 0: the compile error is absorbed in the file scans and does not reach the
handler. -/
theorem HttpServer.searchHandler_invalid_pattern (env : Env) (sched : List Nat)
    (r : HttpRequest) (req : SearchRequest) (allResults : List Match)
    (hmethod : r.Method = "POST") (hdecode : env.Decode r.Body = some req)
    (hbad : env.Compile req.Pattern = none) (h0 : 0 ≤ req.MaxResults) :
    HttpServer.searchHandler env sched r allResults =
      (.ok (.json { Matches := [], Total := 0 }), []) := by
  have hmax : 0 ≤ (if req.MaxResults = 0 then (100 : Int) else req.MaxResults) := by
    split_ifs
    · decide
    · exact h0
  have hlen := McpServer.length_search_snd env sched req.Pattern req.Paths
    (if req.MaxResults = 0 then (100 : Int) else req.MaxResults) allResults
  simp only [McpServer.matchingLineCount, hbad] at hlen
  have hsnd := List.length_eq_zero.mp hlen
  have hfst := McpServer.search_fst_of_nonneg env sched req.Pattern req.Paths
    (if req.MaxResults = 0 then (100 : Int) else req.MaxResults) allResults hmax
  rw [hsnd, List.take_nil] at hfst
  have hsearch : HttpServer.search env sched req.Pattern req.Paths
      (if req.MaxResults = 0 then (100 : Int) else req.MaxResults) allResults = (.ok [], []) := by
    rw [HttpServer.search_eq_mcp]
    exact Prod.ext hfst hsnd
  unfold HttpServer.searchHandler
  have hnot : ¬ ((r.Method != "POST") = true) := by simp [hmethod]
  rw [if_neg hnot, hdecode]
  simp only [hsearch]
  rfl

/-- C16, amended, on the request with the pattern `(` over the two Go files. -/
theorem HttpServer.searchHandler_invalid_pattern_witness :
    (0 : Int) ≤ 0 ∧
    HttpServer.searchHandler (Demo.env Demo.goDir Demo.badPatternBodies) [1]
      ⟨"POST", "\x7b\"pattern\":\"(\",\"paths\":[\"dir\"]\x7d"⟩ [] =
      (.ok (.json { Matches := [], Total := 0 }), []) :=
  ⟨by decide,
    HttpServer.searchHandler_invalid_pattern (Demo.env Demo.goDir Demo.badPatternBodies) [1]
      ⟨"POST", "\x7b\"pattern\":\"(\",\"paths\":[\"dir\"]\x7d"⟩ ⟨"(", ["dir"], 0⟩ []
      rfl rfl rfl (by decide)⟩

/-- C17: in every environment and under the same schedule, `search` of http_server.go and
`search` of main.go return the same result and leave the same `allResults`; hence, when the
tool call succeeds with a structured output, the POST request with the same pattern, paths
and `max_results` is answered with status 200 and the same matches and total, and when the
request is answered with a result body and the output can be serialized, the tool call
succeeds with the same matches and total. -/
theorem search_same_in_both_transports (env : Env) (sched : List Nat) (pattern : String)
    (paths : List String) (maxResults : Int) (allResults : List Match) :
    HttpServer.search env sched pattern paths maxResults allResults =
      McpServer.search env sched pattern paths maxResults allResults ∧
    (∀ (r : HttpRequest) (out : CallToolResult), r.Method = "POST" →
      env.Decode r.Body = some ⟨pattern, paths, maxResults⟩ →
      (McpServer.SearchTool env sched ⟨pattern, paths, maxResults⟩ allResults).1 =
        .ok (.ok out) →
      (HttpServer.searchHandler env sched r allResults).1 =
        .ok (.json { Matches := out.StructuredContent.Matches,
                     Total := out.StructuredContent.Total })) ∧
    (∀ (r : HttpRequest) (resp : SearchResponse) (jsonBytes : String),
      env.Decode r.Body = some ⟨pattern, paths, maxResults⟩ →
      (HttpServer.searchHandler env sched r allResults).1 = .ok (.json resp) →
      env.MarshalIndent { Matches := resp.Matches, Total := resp.Total } = some jsonBytes →
      (McpServer.SearchTool env sched ⟨pattern, paths, maxResults⟩ allResults).1 =
        .ok (.ok { StructuredContent := { Matches := resp.Matches, Total := resp.Total },
                   Content := [jsonBytes] })) := by
  refine ⟨HttpServer.search_eq_mcp env sched pattern paths maxResults allResults, ?_, ?_⟩
  · intro r out hmethod hdecode htool
    obtain ⟨hs, htotal⟩ := McpServer.SearchTool_ok env sched ⟨pattern, paths, maxResults⟩
      allResults out htool
    simp only at hs
    unfold HttpServer.searchHandler
    have hnot : ¬ ((r.Method != "POST") = true) := by simp [hmethod]
    rw [if_neg hnot, hdecode]
    simp only [HttpServer.search_eq_mcp]
    generalize McpServer.search env sched pattern paths
      (if maxResults = 0 then 100 else maxResults) allResults = res at hs ⊢
    obtain ⟨res1, acc⟩ := res
    simp only at hs
    subst hs
    simp only [htotal]
  · intro r resp jsonBytes hdecode hresp hjson
    obtain ⟨req, hreq, hs, htotal⟩ :=
      HttpServer.searchHandler_json env sched r allResults resp hresp
    rw [hdecode] at hreq
    have hreq2 := Option.some.inj hreq
    subst hreq2
    simp only [HttpServer.search_eq_mcp] at hs
    rw [McpServer.SearchTool_eq]
    simp only
    generalize McpServer.search env sched pattern paths
      (if maxResults = 0 then 100 else maxResults) allResults = res at hs ⊢
    obtain ⟨res1, acc⟩ := res
    simp only at hs
    subst hs
    rw [htotal] at hjson
    simp only [hjson, htotal]

/-- C17, on the two Go files: the tool call and the POST request with `max_results` 1 return
the same match and the same total. -/
theorem search_same_in_both_transports_witness :
    (McpServer.SearchTool (Demo.env Demo.goDir Demo.bodies) [] ⟨"func", ["dir"], 1⟩ []).1 =
      .ok (.ok { StructuredContent :=
                   { Matches := [⟨"dir/a.go", 1, "func Foo"⟩], Total := 1 },
                 Content := (Demo.MarshalIndent
                   { Matches := [⟨"dir/a.go", 1, "func Foo"⟩], Total := 1 }).toList }) ∧
    (HttpServer.searchHandler (Demo.env Demo.goDir Demo.bodies) []
        ⟨"POST", "\x7b\"pattern\":\"func\",\"paths\":[\"dir\"],\"max_results\":1\x7d"⟩ []).1 =
      .ok (.json { Matches := [⟨"dir/a.go", 1, "func Foo"⟩], Total := 1 }) :=
  ⟨rfl,
    (search_same_in_both_transports (Demo.env Demo.goDir Demo.bodies) [] "func" ["dir"] 1
      []).2.1
      ⟨"POST", "\x7b\"pattern\":\"func\",\"paths\":[\"dir\"],\"max_results\":1\x7d"⟩
      { StructuredContent := { Matches := [⟨"dir/a.go", 1, "func Foo"⟩], Total := 1 },
        Content := (Demo.MarshalIndent
          { Matches := [⟨"dir/a.go", 1, "func Foo"⟩], Total := 1 }).toList }
      rfl rfl rfl⟩

/-! ## Lemmas on the critical sections of `search` -/

theorem runOps_append_ops (ms : List Match) (rest : List Op) (allResults : List Match)
    (res : Option (Except String (List Match))) :
    runOps (ms.map Op.append ++ rest) allResults res = runOps rest (allResults ++ ms) res := by
  induction ms generalizing allResults with
  | nil => simp
  | cons m ms ih =>
    show runOps (ms.map Op.append ++ rest) (allResults ++ [m]) res = _
    rw [ih]
    simp

/-- The critical sections of a call, run alone, give the result of `search`. -/
theorem McpServer.runOps_searchOps (env : Env) (sched : List Nat) (pattern : String)
    (paths : List String) (maxResults : Int) (allResults : List Match)
    (res : Option (Except String (List Match))) :
    runOps (McpServer.searchOps env sched pattern paths maxResults) allResults res =
      ((McpServer.search env sched pattern paths maxResults allResults).2,
        some (McpServer.search env sched pattern paths maxResults allResults).1) := by
  simp only [McpServer.searchOps, runOps, Op.run]
  rw [runOps_append_ops]
  simp only [List.nil_append, runOps, Op.run, McpServer.search]
  split_ifs <;> rfl

theorem runTwo_first (ops : List Op) (rest : List (Bool × Op)) (allResults : List Match)
    (res1 res2 : Option (Except String (List Match))) :
    runTwo (ops.map (fun op => (true, op)) ++ rest) allResults res1 res2 =
      runTwo rest (runOps ops allResults res1).1 (runOps ops allResults res1).2 res2 := by
  induction ops generalizing allResults res1 with
  | nil => rfl
  | cons op ops ih =>
    simp only [List.map_cons, List.cons_append, runTwo, runOps]
    cases hrun : op.run allResults with
    | mk acc r =>
      cases r with
      | none => exact ih acc res1
      | some r => exact ih acc (some r)

theorem runTwo_second (ops : List Op) (allResults : List Match)
    (res1 res2 : Option (Except String (List Match))) :
    runTwo (ops.map (fun op => (false, op))) allResults res1 res2 =
      ((runOps ops allResults res2).1, res1, (runOps ops allResults res2).2) := by
  induction ops generalizing allResults res2 with
  | nil => rfl
  | cons op ops ih =>
    simp only [List.map_cons, runTwo, runOps]
    cases hrun : op.run allResults with
    | mk acc r =>
      cases r with
      | none => simp only [ih]
      | some r => simp [ih]

/-- C18 as written fails: the query for `func` over `one` and the query for `type` over
`two` run at the same time.  When the second query resets `allResults` and appends its match
after the append of the first query and before its final read, the first query returns the
match of the second query, in a file of `two`, and has lost its own match. -/
theorem McpServer.search_concurrent_queries_leak :
    McpServer.search (Demo.env Demo.twoDirs []) [] "func" ["one"] 10 [] =
      (.ok [⟨"one/a.go", 1, "func Foo"⟩], [⟨"one/a.go", 1, "func Foo"⟩]) ∧
    McpServer.search (Demo.env Demo.twoDirs []) [] "type" ["two"] 10 [] =
      (.ok [⟨"two/b.go", 1, "type Bar"⟩], [⟨"two/b.go", 1, "type Bar"⟩]) ∧
    runTwo (mergeOps [true, true, false, false, true, false]
        (McpServer.searchOps (Demo.env Demo.twoDirs []) [] "func" ["one"] 10)
        (McpServer.searchOps (Demo.env Demo.twoDirs []) [] "type" ["two"] 10)) [] none none =
      ([⟨"two/b.go", 1, "type Bar"⟩],
        some (.ok [⟨"two/b.go", 1, "type Bar"⟩]),
        some (.ok [⟨"two/b.go", 1, "type Bar"⟩])) :=
  ⟨rfl, rfl, rfl⟩

/-- C18, amended: two queries work on the one global list `allResults`; their aggregation
state is not isolated.  When the queries do not overlap, all the critical sections of the
first coming before those of the second, each query returns exactly what it returns when run
alone: no match of the other query, and none of its own lost. -/
theorem McpServer.search_queries_in_sequence (env : Env) (sched1 sched2 : List Nat)
    (pattern1 pattern2 : String) (paths1 paths2 : List String) (maxResults1 maxResults2 : Int)
    (allResults : List Match) :
    runTwo (mergeOps [] (McpServer.searchOps env sched1 pattern1 paths1 maxResults1)
        (McpServer.searchOps env sched2 pattern2 paths2 maxResults2)) allResults none none =
      ((McpServer.search env sched2 pattern2 paths2 maxResults2 []).2,
        some (McpServer.search env sched1 pattern1 paths1 maxResults1 []).1,
        some (McpServer.search env sched2 pattern2 paths2 maxResults2 []).1) := by
  simp only [mergeOps]
  rw [runTwo_first, runTwo_second, McpServer.runOps_searchOps, McpServer.runOps_searchOps]
  rfl

/-! ## Lemmas on the goroutines started -/

theorem Go.Ext_append_go (s : String) : Go.Ext (s ++ ".go") = ".go" := by
  unfold Go.Ext
  have h : (s ++ ".go").data.reverse = 'o' :: 'g' :: '.' :: s.data.reverse := by
    rw [String.data_append]
    show (s.data ++ ['.', 'g', 'o']).reverse = _
    simp
  rw [h]
  rfl

theorem McpServer.length_spawned (env : Env) (paths : List String) :
    (McpServer.spawned env paths).length =
      ((paths.map env.Walk).flatten.filter
        (fun e => !e.err && !e.IsDir && Go.Ext e.filePath == ".go")).length := by
  induction paths with
  | nil => rfl
  | cons path rest ih =>
    simp only [McpServer.spawned, List.length_append, ih, List.map_cons, List.flatten_cons,
      List.filter_append]
    congr 1
    generalize env.Walk path = entries
    induction entries with
    | nil => rfl
    | cons e es ihe =>
      cases hw : McpServer.walkFn e with
      | none =>
        have hcond : (!e.err && !e.IsDir && Go.Ext e.filePath == ".go") = false := by
          cases htrue : (!e.err && !e.IsDir && Go.Ext e.filePath == ".go") with
          | false => rfl
          | true =>
            simp only [Bool.and_eq_true, Bool.not_eq_true', beq_iff_eq] at htrue
            have := (McpServer.walkFn_eq_some_iff e e.filePath).mpr
              ⟨htrue.1.1, htrue.1.2, htrue.2, rfl⟩
            rw [hw] at this
            cases this
        simp only [List.filterMap_cons, hw, List.filter_cons, hcond]
        exact ihe
      | some g =>
        obtain ⟨h1, h2, h3, _⟩ := (McpServer.walkFn_eq_some_iff e g).mp hw
        have hcond : (!e.err && !e.IsDir && Go.Ext e.filePath == ".go") = true := by
          simp [h1, h2, h3]
        simp only [List.filterMap_cons, hw, List.filter_cons, hcond, if_true, List.length_cons,
          ihe]

theorem Fs.filterMap_walkEntries_manyGoFiles (path : String) (n : Nat) (name : String) :
    ((Fs.walkEntries path (Demo.manyGoFiles n name)).filterMap McpServer.walkFn).length = n ∧
    ∀ g ∈ (Fs.walkEntries path (Demo.manyGoFiles n name)).filterMap McpServer.walkFn,
      ∃ k, g = path ++ "/" ++ (name ++ String.mk (List.replicate k 'x') ++ ".go") := by
  induction n generalizing name with
  | zero =>
    refine ⟨rfl, ?_⟩
    intro g hg
    cases hg
  | succ n ih =>
    have hext : Go.Ext (path ++ "/" ++ (name ++ ".go")) = ".go" := by
      rw [← String.append_assoc]
      exact Go.Ext_append_go _
    have hw : McpServer.walkFn ⟨path ++ "/" ++ (name ++ ".go"), false, false⟩ =
        some (path ++ "/" ++ (name ++ ".go")) :=
      (McpServer.walkFn_eq_some_iff _ _).mpr ⟨rfl, rfl, hext, rfl⟩
    have hcons : (Fs.walkEntries path (Demo.manyGoFiles (n + 1) name)).filterMap
        McpServer.walkFn = (path ++ "/" ++ (name ++ ".go")) ::
          (Fs.walkEntries path (Demo.manyGoFiles n (name ++ "x"))).filterMap
            McpServer.walkFn := by
      simp only [Demo.manyGoFiles, Fs.walkEntries, Fs.walk, List.singleton_append,
        List.filterMap_cons, hw]
    rw [hcons]
    obtain ⟨hlen, hmem⟩ := ih (name ++ "x")
    refine ⟨by rw [List.length_cons, hlen], ?_⟩
    intro g hg
    rcases List.mem_cons.mp hg with rfl | hg
    · refine ⟨0, ?_⟩
      simp
    · obtain ⟨k, rfl⟩ := hmem g hg
      refine ⟨k + 1, ?_⟩
      congr 2
      apply String.ext
      simp [List.replicate_succ]

theorem McpServer.spawned_manyDir (n : Nat) :
    (McpServer.spawned (Demo.env (Demo.manyDir n) []) ["dir"]).length = n := by
  have hwalk : (Demo.env (Demo.manyDir n) []).Walk "dir" =
      ⟨"dir", true, false⟩ :: Fs.walkEntries "dir" (Demo.manyGoFiles n "f") := rfl
  simp only [McpServer.spawned, hwalk, List.append_nil, List.filterMap_cons]
  have hdir : McpServer.walkFn ⟨"dir", true, false⟩ = none := rfl
  rw [hdir]
  exact (Fs.filterMap_walkEntries_manyGoFiles "dir" n "f").1

/-! ## Lemmas on the goroutines alive at the same time -/

theorem McpServer.steps_append (env : Env) (pattern : String) (sched1 sched2 : List Nat)
    (r : Running) :
    McpServer.steps env pattern (sched1 ++ sched2) r =
      McpServer.steps env pattern sched2 (McpServer.steps env pattern sched1 r) := by
  induction sched1 generalizing r with
  | nil => rfl
  | cons k sched1 ih => exact ih _

/-- The walk runs to its end while no goroutine goes on: every goroutine started is alive. -/
theorem McpServer.steps_walk (env : Env) (pattern : String) (files : List String)
    (live : List (List Match)) (acc : List Match) (started peak : Nat)
    (hlive : live.length ≤ peak) :
    McpServer.steps env pattern (List.replicate files.length 0)
        ⟨files, live, acc, started, peak⟩ =
      ⟨[], live ++ files.map (fun fp => McpServer.searchFile env fp pattern []), acc,
        started + files.length, max peak (live.length + files.length)⟩ := by
  induction files generalizing live started peak with
  | nil =>
    simp only [List.length_nil, List.replicate_zero, McpServer.steps, List.map_nil,
      List.append_nil, Nat.add_zero]
    rw [Nat.max_eq_left hlive]
  | cons fp rest ih =>
    have hstep : McpServer.steps env pattern (List.replicate (fp :: rest).length 0)
        ⟨fp :: rest, live, acc, started, peak⟩ =
        McpServer.steps env pattern (List.replicate rest.length 0)
          ⟨rest, live ++ [McpServer.searchFile env fp pattern []], acc, started + 1,
            max peak (live.length + 1)⟩ := rfl
    have hle : (live ++ [McpServer.searchFile env fp pattern []]).length ≤
        max peak (live.length + 1) := by
      rw [List.length_append, List.length_singleton]
      exact Nat.le_max_right _ _
    rw [hstep, ih _ _ _ hle]
    have hpeak : max (max peak (live.length + 1))
        ((live ++ [McpServer.searchFile env fp pattern []]).length + rest.length) =
        max peak (live.length + (fp :: rest).length) := by
      rw [List.length_append, List.length_singleton, List.length_cons]
      omega
    have hstarted : started + 1 + rest.length = started + (fp :: rest).length := by
      rw [List.length_cons]
      omega
    rw [hpeak, hstarted, List.map_cons, List.append_assoc, List.singleton_append]

/-- The first goroutine alive appends its matches and returns. -/
theorem McpServer.steps_goroutine (env : Env) (pattern : String) (q : List Match)
    (rest : List (List Match)) (acc : List Match) (started peak : Nat) :
    McpServer.steps env pattern (List.replicate (q.length + 1) 1)
        ⟨[], q :: rest, acc, started, peak⟩ =
      ⟨[], rest, acc ++ q, started, peak⟩ := by
  induction q generalizing acc with
  | nil =>
    have hstep : McpServer.steps env pattern (List.replicate (([] : List Match).length + 1) 1)
        ⟨[], [] :: rest, acc, started, peak⟩ =
        ⟨[], rest, acc, started, peak⟩ := by
      simp [List.replicate, McpServer.steps, McpServer.step]
    rw [hstep, List.append_nil]
  | cons m ms ih =>
    have hstep : McpServer.steps env pattern (List.replicate ((m :: ms).length + 1) 1)
        ⟨[], (m :: ms) :: rest, acc, started, peak⟩ =
        McpServer.steps env pattern (List.replicate (ms.length + 1) 1)
          ⟨[], ms :: rest, acc ++ [m], started, peak⟩ := by
      rw [List.length_cons, List.replicate_succ]
      simp [McpServer.steps, McpServer.step]
    rw [hstep, ih, List.append_assoc, List.singleton_append]

/-- The goroutines alive run to their end one after the other. -/
theorem McpServer.steps_goroutines (env : Env) (pattern : String) (live : List (List Match))
    (acc : List Match) (started peak : Nat) :
    McpServer.steps env pattern (List.replicate (live.length + live.flatten.length) 1)
        ⟨[], live, acc, started, peak⟩ =
      ⟨[], [], acc ++ live.flatten, started, peak⟩ := by
  induction live generalizing acc with
  | nil => simp [McpServer.steps]
  | cons q rest ih =>
    have hlen : (q :: rest).length + (q :: rest).flatten.length =
        (q.length + 1) + (rest.length + rest.flatten.length) := by
      simp only [List.length_cons, List.flatten_cons, List.length_append]
      omega
    rw [hlen, List.replicate_add, McpServer.steps_append, McpServer.steps_goroutine, ih]
    simp

theorem McpServer.searchRun_walkFirst (env : Env) (pattern : String) (paths : List String) :
    McpServer.searchRun env pattern paths (McpServer.walkFirst env pattern paths) =
      ⟨[], [], ((McpServer.spawned env paths).map
          (fun fp => McpServer.searchFile env fp pattern [])).flatten,
        (McpServer.spawned env paths).length, (McpServer.spawned env paths).length⟩ := by
  unfold McpServer.searchRun McpServer.walkFirst
  rw [McpServer.steps_append, McpServer.steps_walk env pattern _ [] [] 0 0 (Nat.le_refl _)]
  have hstep := McpServer.steps_goroutines env pattern
    ((McpServer.spawned env paths).map (fun fp => McpServer.searchFile env fp pattern []))
    [] (0 + (McpServer.spawned env paths).length)
    (max 0 (([] : List (List Match)).length + (McpServer.spawned env paths).length))
  rw [List.length_map] at hstep
  rw [List.nil_append, hstep]
  simp

theorem McpServer.step_invariant (env : Env) (pattern : String) (k n : Nat) (r : Running)
    (h : r.live.length ≤ r.peak ∧ r.peak ≤ r.started ∧ r.started + r.toStart.length = n) :
    (McpServer.step env pattern k r).live.length ≤ (McpServer.step env pattern k r).peak ∧
    (McpServer.step env pattern k r).peak ≤ (McpServer.step env pattern k r).started ∧
    (McpServer.step env pattern k r).started +
      (McpServer.step env pattern k r).toStart.length = n := by
  obtain ⟨toStart, live, acc, started, peak⟩ := r
  obtain ⟨h1, h2, h3⟩ := h
  simp only at h1 h2 h3
  cases k with
  | zero =>
    cases toStart with
    | nil => exact ⟨h1, h2, h3⟩
    | cons fp rest =>
      rw [List.length_cons] at h3
      show (live ++ [McpServer.searchFile env fp pattern []]).length ≤
          max peak (live.length + 1) ∧
        max peak (live.length + 1) ≤ started + 1 ∧ started + 1 + rest.length = n
      rw [List.length_append, List.length_singleton]
      refine ⟨Nat.le_max_right _ _, Nat.max_le.mpr ⟨by omega, by omega⟩, by omega⟩
  | succ k =>
    unfold McpServer.step
    simp only
    cases hget : live[k]? with
    | none => exact ⟨h1, h2, h3⟩
    | some q =>
      cases q with
      | nil =>
        simp only
        refine ⟨?_, h2, h3⟩
        have := List.length_eraseIdx_le live k
        omega
      | cons m rest =>
        simp only [List.length_set]
        exact ⟨h1, h2, h3⟩

theorem McpServer.steps_invariant (env : Env) (pattern : String) (sched : List Nat) (n : Nat)
    (r : Running)
    (h : r.live.length ≤ r.peak ∧ r.peak ≤ r.started ∧ r.started + r.toStart.length = n) :
    (McpServer.steps env pattern sched r).live.length ≤
      (McpServer.steps env pattern sched r).peak ∧
    (McpServer.steps env pattern sched r).peak ≤ (McpServer.steps env pattern sched r).started ∧
    (McpServer.steps env pattern sched r).started +
      (McpServer.steps env pattern sched r).toStart.length = n := by
  induction sched generalizing r with
  | nil => exact h
  | cons k sched ih => exact ih _ (McpServer.step_invariant env pattern k n r h)

theorem flatten_eraseIdx_nil (live : List (List Match)) (k : Nat) (h : live[k]? = some []) :
    (live.eraseIdx k).flatten = live.flatten := by
  induction live generalizing k with
  | nil => rfl
  | cons q qs ih =>
    cases k with
    | zero =>
      simp at h
      subst h
      simp
    | succ j =>
      simp at h
      simp only [List.eraseIdx_cons_succ, List.flatten_cons, ih j h]

/-- A step moves matches between the three places they can be in and loses none. -/
theorem McpServer.step_perm (env : Env) (pattern : String) (k : Nat) (r : Running) :
    ((McpServer.step env pattern k r).allResults ++
      ((McpServer.step env pattern k r).live.flatten ++
        ((McpServer.step env pattern k r).toStart.map
          (fun fp => McpServer.searchFile env fp pattern [])).flatten)).Perm
      (r.allResults ++ (r.live.flatten ++
        (r.toStart.map (fun fp => McpServer.searchFile env fp pattern [])).flatten)) := by
  obtain ⟨toStart, live, acc, started, peak⟩ := r
  cases k with
  | zero =>
    cases toStart with
    | nil => exact List.Perm.refl _
    | cons fp rest =>
      show (acc ++ ((live ++ [McpServer.searchFile env fp pattern []]).flatten ++
          (rest.map (fun fp => McpServer.searchFile env fp pattern [])).flatten)).Perm
        (acc ++ (live.flatten ++
          ((fp :: rest).map (fun fp => McpServer.searchFile env fp pattern [])).flatten))
      simp only [List.flatten_append, List.flatten_cons, List.flatten_nil, List.append_nil,
        List.map_cons, List.append_assoc]
      exact List.Perm.refl _
  | succ k =>
    unfold McpServer.step
    simp only
    cases hget : live[k]? with
    | none => exact List.Perm.refl _
    | some q =>
      cases q with
      | nil =>
        simp only [flatten_eraseIdx_nil live k hget]
        exact List.Perm.refl _
      | cons m rest =>
        simp only [List.append_assoc, List.singleton_append]
        refine List.Perm.append_left _ ?_
        exact List.Perm.append_right _ (flatten_set_perm live k m rest hget)

theorem McpServer.steps_perm (env : Env) (pattern : String) (sched : List Nat) (r : Running) :
    ((McpServer.steps env pattern sched r).allResults ++
      ((McpServer.steps env pattern sched r).live.flatten ++
        ((McpServer.steps env pattern sched r).toStart.map
          (fun fp => McpServer.searchFile env fp pattern [])).flatten)).Perm
      (r.allResults ++ (r.live.flatten ++
        (r.toStart.map (fun fp => McpServer.searchFile env fp pattern [])).flatten)) := by
  induction sched generalizing r with
  | nil => exact List.Perm.refl _
  | cons k sched ih => exact (ih _).trans (McpServer.step_perm env pattern k r)

theorem McpServer.finished_iff (r : Running) :
    McpServer.finished r = true ↔ r.toStart = [] ∧ r.live = [] := by
  unfold McpServer.finished
  simp [List.isEmpty_iff]

/-- C19 as written fails: `search` has no pool.  Over the three Go files of `Demo.mixedDir`,
when the walk comes to its end before a goroutine returns, three file-scanning goroutines are
alive at the same time; and no pool size bounds the goroutines alive at the same time over
the directories `Demo.manyDir n` with `n` Go files. -/
theorem McpServer.search_goroutines_unbounded :
    McpServer.searchRun (Demo.env Demo.mixedDir []) "func" ["dir"] [0, 0, 0] =
      ⟨[], [[⟨"dir/a.go", 1, "func Foo"⟩], [], [⟨"dir/c.go", 2, "func Baz"⟩]], [], 3, 3⟩ ∧
    McpServer.searchRun (Demo.env Demo.mixedDir []) "func" ["dir"] [0, 0, 0, 1, 1, 1, 1, 1] =
      ⟨[], [], [⟨"dir/a.go", 1, "func Foo"⟩, ⟨"dir/c.go", 2, "func Baz"⟩], 3, 3⟩ ∧
    ¬ ∃ poolSize : Nat, ∀ (n : Nat) (sched : List Nat),
      (McpServer.searchRun (Demo.env (Demo.manyDir n) []) "func" ["dir"] sched).peak ≤
        poolSize := by
  refine ⟨by decide, by decide, ?_⟩
  rintro ⟨poolSize, h⟩
  have hpeak := h (poolSize + 1)
    (McpServer.walkFirst (Demo.env (Demo.manyDir (poolSize + 1)) []) "func" ["dir"])
  rw [McpServer.searchRun_walkFirst, McpServer.spawned_manyDir] at hpeak
  simp only at hpeak
  omega

/-- C19, amended: during every query `search` starts one file-scanning goroutine for every
eligible file discovered (every entry met without error that is not a directory and has the
extension `.go`), without a pool and without a bound.  Under every schedule the goroutines
alive at the same time are at most the goroutines started, and those are at most the eligible
files; when `wg.Wait()` returns, as many goroutines were started as there are eligible files,
and `allResults` holds the matches `search` accumulates.  When the walk comes to its end
before a goroutine returns, the goroutines of all the eligible files are alive at the same
time; for the directory `Demo.manyDir n` with `n` Go files these are `n`. -/
theorem McpServer.search_starts_goroutine_per_file (env : Env) (pattern : String)
    (paths : List String) (n : Nat) :
    (∀ sched : List Nat,
      (McpServer.searchRun env pattern paths sched).live.length ≤
        (McpServer.searchRun env pattern paths sched).peak ∧
      (McpServer.searchRun env pattern paths sched).peak ≤
        (McpServer.searchRun env pattern paths sched).started ∧
      (McpServer.searchRun env pattern paths sched).started +
        (McpServer.searchRun env pattern paths sched).toStart.length =
          (McpServer.spawned env paths).length) ∧
    (∀ sched : List Nat, McpServer.finished (McpServer.searchRun env pattern paths sched) = true →
      (McpServer.searchRun env pattern paths sched).started =
        (McpServer.spawned env paths).length ∧
      ∀ (sched2 : List Nat) (maxResults : Int) (allResults : List Match),
        (McpServer.searchRun env pattern paths sched).allResults.Perm
          (McpServer.search env sched2 pattern paths maxResults allResults).2) ∧
    (McpServer.finished
        (McpServer.searchRun env pattern paths (McpServer.walkFirst env pattern paths)) = true ∧
      (McpServer.searchRun env pattern paths (McpServer.walkFirst env pattern paths)).peak =
        (McpServer.spawned env paths).length ∧
      ∀ (maxResults : Int) (allResults : List Match),
        (McpServer.searchRun env pattern paths (McpServer.walkFirst env pattern paths)).allResults =
          (McpServer.search env [] pattern paths maxResults allResults).2) ∧
    (McpServer.spawned env paths).length =
      ((paths.map env.Walk).flatten.filter
        (fun e => !e.err && !e.IsDir && Go.Ext e.filePath == ".go")).length ∧
    (McpServer.searchRun (Demo.env (Demo.manyDir n) []) "func" ["dir"]
      (McpServer.walkFirst (Demo.env (Demo.manyDir n) []) "func" ["dir"])).peak = n := by
  have hinv : ∀ sched : List Nat,
      (McpServer.searchRun env pattern paths sched).live.length ≤
        (McpServer.searchRun env pattern paths sched).peak ∧
      (McpServer.searchRun env pattern paths sched).peak ≤
        (McpServer.searchRun env pattern paths sched).started ∧
      (McpServer.searchRun env pattern paths sched).started +
        (McpServer.searchRun env pattern paths sched).toStart.length =
          (McpServer.spawned env paths).length := by
    intro sched
    exact McpServer.steps_invariant env pattern sched (McpServer.spawned env paths).length
      ⟨McpServer.spawned env paths, [], [], 0, 0⟩
      ⟨Nat.le_refl _, Nat.le_refl _, by simp⟩
  refine ⟨hinv, ?_, ?_, McpServer.length_spawned env paths, ?_⟩
  · intro sched hfin
    obtain ⟨hts, hlive⟩ := (McpServer.finished_iff _).mp hfin
    refine ⟨?_, ?_⟩
    · have h3 := (hinv sched).2.2
      rw [hts, List.length_nil, Nat.add_zero] at h3
      exact h3
    · intro sched2 maxResults allResults
      have hperm := McpServer.steps_perm env pattern sched
        ⟨McpServer.spawned env paths, [], [], 0, 0⟩
      have hrun : McpServer.steps env pattern sched
          ⟨McpServer.spawned env paths, [], [], 0, 0⟩ =
            McpServer.searchRun env pattern paths sched := rfl
      rw [hrun, hts, hlive] at hperm
      simp only [List.flatten_nil, List.map_nil, List.append_nil, List.nil_append] at hperm
      rw [McpServer.search_snd]
      have hsearch := runGoroutines_perm sched2
        ((McpServer.spawned env paths).map (fun fp => McpServer.searchFile env fp pattern []))
        []
      rw [List.nil_append] at hsearch
      exact hperm.trans hsearch.symm
  · rw [McpServer.searchRun_walkFirst]
    refine ⟨rfl, rfl, ?_⟩
    intro maxResults allResults
    rw [McpServer.search_snd]
    simp [runGoroutines]
  · rw [McpServer.searchRun_walkFirst, McpServer.spawned_manyDir]

/-- C19, amended, over the three Go files of `Demo.mixedDir`: with the schedule that lets the
walk end first, three goroutines are started and the three are alive at the same time; with a
schedule that lets every goroutine return before the next is started, three are started and
one is alive at a time. -/
theorem McpServer.search_starts_goroutine_per_file_witness :
    McpServer.spawned (Demo.env Demo.mixedDir []) ["dir"] =
      ["dir/a.go", "dir/b.go", "dir/c.go"] ∧
    McpServer.walkFirst (Demo.env Demo.mixedDir []) "func" ["dir"] =
      [0, 0, 0, 1, 1, 1, 1, 1] ∧
    McpServer.searchRun (Demo.env Demo.mixedDir []) "func" ["dir"] [0, 1, 1, 0, 1, 0, 1, 1] =
      ⟨[], [], [⟨"dir/a.go", 1, "func Foo"⟩, ⟨"dir/c.go", 2, "func Baz"⟩], 3, 1⟩ ∧
    McpServer.finished (McpServer.searchRun (Demo.env Demo.mixedDir []) "func" ["dir"]
      (McpServer.walkFirst (Demo.env Demo.mixedDir []) "func" ["dir"])) = true ∧
    (McpServer.searchRun (Demo.env Demo.mixedDir []) "func" ["dir"]
      (McpServer.walkFirst (Demo.env Demo.mixedDir []) "func" ["dir"])).peak =
        (McpServer.spawned (Demo.env Demo.mixedDir []) ["dir"]).length ∧
    (McpServer.searchRun (Demo.env Demo.mixedDir []) "func" ["dir"]
      [0, 1, 1, 0, 1, 0, 1, 1]).started =
        (McpServer.spawned (Demo.env Demo.mixedDir []) ["dir"]).length :=
  ⟨rfl, by decide, by decide,
    (McpServer.search_starts_goroutine_per_file (Demo.env Demo.mixedDir []) "func" ["dir"]
      3).2.2.1.1,
    (McpServer.search_starts_goroutine_per_file (Demo.env Demo.mixedDir []) "func" ["dir"]
      3).2.2.1.2.1,
    ((McpServer.search_starts_goroutine_per_file (Demo.env Demo.mixedDir []) "func" ["dir"]
      3).2.1 [0, 1, 1, 0, 1, 0, 1, 1] (by decide)).1⟩

/-! ## Lemmas on the generator -/

theorem Generate.digitChar_ne_newline : ∀ d < 10, Nat.digitChar d ≠ '\n' := by
  decide

theorem Generate.toDigitsCore_no_newline (fuel n : Nat) (ds : List Char)
    (h : '\n' ∉ ds) : '\n' ∉ Nat.toDigitsCore 10 fuel n ds := by
  induction fuel generalizing n ds with
  | zero => exact h
  | succ fuel ih =>
    have hcons : '\n' ∉ Nat.digitChar (n % 10) :: ds := by
      intro hmem
      rcases List.mem_cons.mp hmem with heq | hmem
      · exact Generate.digitChar_ne_newline _ (Nat.mod_lt n (by decide)) heq.symm
      · exact h hmem
    simp only [Nat.toDigitsCore]
    split_ifs
    · exact hcons
    · exact ih _ _ hcons

theorem Generate.toDigits_no_newline (n : Nat) : '\n' ∉ Nat.toDigits 10 n :=
  Generate.toDigitsCore_no_newline _ _ [] (List.not_mem_nil _)

theorem Generate.Sprintfd_no_newline (n : Nat) : '\n' ∉ (Generate.Sprintfd n).data :=
  Generate.toDigits_no_newline n

theorem Generate.Sprintf06d_no_newline (i : Nat) : '\n' ∉ (Generate.Sprintf06d i).data := by
  unfold Generate.Sprintf06d
  intro hmem
  rcases List.mem_append.mp hmem with h | h
  · have := List.eq_of_mem_replicate h
    exact absurd this (by decide)
  · exact Generate.toDigits_no_newline i h

theorem Generate.Sprintf06d_length (i : Nat) (h : i < 1000000) :
    (Generate.Sprintf06d i).length = 6 := by
  have hlen := Nat.repr_length i 6 (by decide) (by simpa using h)
  simp only [Nat.repr, List.asString, String.length] at hlen
  simp only [Generate.Sprintf06d, String.length, List.length_append, List.length_replicate]
  omega

theorem Generate.join_cons (s : String) (ss : List String) :
    String.join (s :: ss) = s ++ String.join ss := by
  apply String.ext
  simp [String.data_join, String.data_append]

theorem Generate.word_mem (k : Nat) :
    Generate.words.getD (k % Generate.words.length) "" ∈ Generate.words := by
  have hlt : k % Generate.words.length < Generate.words.length :=
    Nat.mod_lt _ (by decide)
  rw [List.getD_eq_getElem _ _ hlt]
  exact List.getElem_mem _

theorem Generate.addWords_eq (rnd : Nat → Nat) (left pos : Nat) (line : String) :
    ∃ ws : List String, ws.length = left ∧ (∀ w ∈ ws, w ∈ Generate.words) ∧
      Generate.addWords rnd left pos line =
        (line ++ String.join (ws.map (fun w => w ++ " ")), pos + left) := by
  induction left generalizing pos line with
  | zero =>
    refine ⟨[], rfl, by simp, ?_⟩
    simp only [Generate.addWords, List.map_nil, Nat.add_zero]
    congr 1
    apply String.ext
    simp [String.data_join, String.data_append]
  | succ left ih =>
    obtain ⟨ws, hlen, hmem, heq⟩ := ih (pos + 1)
      (line ++ Generate.words.getD (rnd pos % Generate.words.length) "" ++ " ")
    refine ⟨Generate.words.getD (rnd pos % Generate.words.length) "" :: ws, ?_, ?_, ?_⟩
    · rw [List.length_cons, hlen]
    · intro w hw
      rcases List.mem_cons.mp hw with rfl | hw
      · exact Generate.word_mem _
      · exact hmem w hw
    · rw [Generate.addWords, heq]
      refine Prod.ext ?_ ?_
      · simp only [List.map_cons, Generate.join_cons, String.append_assoc]
      · show pos + 1 + left = pos + (left + 1)
        omega

theorem Generate.iteration_isLine (rnd : Nat → Nat) (i pos : Nat) (hi : i ≠ 314159) :
    ∃ line pos2, Generate.iteration rnd i pos = (some line, pos2) ∧
      Generate.IsLine i line := by
  obtain ⟨ws, hlen, hmem, heq⟩ := Generate.addWords_eq rnd (rnd pos % 10 + 5) (pos + 1)
    ("[" ++ Generate.Sprintf06d i ++ "] ")
  have hit : Generate.iteration rnd i pos =
      (some ("[" ++ Generate.Sprintf06d i ++ "] " ++
          String.join (ws.map (fun w => w ++ " ")) ++
          ("timestamp=" ++
            Generate.Sprintfd (1700000000 + rnd (pos + 1 + (rnd pos % 10 + 5)) % 1000000) ++
            " status=" ++
            Generate.Sprintfd (rnd (pos + 1 + (rnd pos % 10 + 5) + 1) % 500 + 100) ++ "\n")),
        pos + 1 + (rnd pos % 10 + 5) + 2) := by
    simp only [Generate.iteration, if_neg hi, heq]
  refine ⟨_, _, hit, ?_⟩
  unfold Generate.IsLine
  refine ⟨ws, 1700000000 + rnd (pos + 1 + (rnd pos % 10 + 5)) % 1000000,
    rnd (pos + 1 + (rnd pos % 10 + 5) + 1) % 500 + 100, ?_, ?_, ?_, hmem, ?_, ?_, ?_, ?_⟩
  · simp only [String.append_assoc]
  · omega
  · have := Nat.mod_lt (rnd pos) (show 0 < 10 by decide)
    omega
  · omega
  · have := Nat.mod_lt (rnd (pos + 1 + (rnd pos % 10 + 5))) (show 0 < 1000000 by decide)
    omega
  · omega
  · have := Nat.mod_lt (rnd (pos + 1 + (rnd pos % 10 + 5) + 1)) (show 0 < 500 by decide)
    omega

theorem Generate.mainLoop_eq (rnd : Nat → Nat) (left i pos : Nat) (written : List String)
    (h : i + left ≤ 314159) :
    ∃ new : List String, Generate.mainLoop rnd left i pos written = written ++ new ∧
      new.length = left ∧
      ∀ k < left, ∃ line, new[k]? = some line ∧ Generate.IsLine (i + k) line := by
  induction left generalizing i pos written with
  | zero =>
    refine ⟨[], by simp [Generate.mainLoop], rfl, ?_⟩
    intro k hk
    omega
  | succ left ih =>
    obtain ⟨line, pos2, hit, hline⟩ := Generate.iteration_isLine rnd i pos (by omega)
    obtain ⟨new, heq, hlen, hall⟩ := ih (i + 1) pos2 (written ++ [line]) (by omega)
    refine ⟨line :: new, ?_, by rw [List.length_cons, hlen], ?_⟩
    · simp only [Generate.mainLoop, hit, heq, List.append_assoc, List.singleton_append]
    · intro k hk
      cases k with
      | zero => exact ⟨line, List.getElem?_cons_zero, hline⟩
      | succ k =>
        obtain ⟨l2, hl2, hl2line⟩ := hall k (by omega)
        refine ⟨l2, by simpa using hl2, ?_⟩
        have hidx : i + (k + 1) = i + 1 + k := by omega
        rw [hidx]
        exact hl2line

theorem Generate.body_no_newline (i : Nat) (ws : List String) (timestamp status : Nat)
    (hmem : ∀ w ∈ ws, w ∈ Generate.words) :
    '\n' ∉ ("[" ++ Generate.Sprintf06d i ++ "] " ++
      String.join (ws.map (fun w => w ++ " ")) ++ "timestamp=" ++
      Generate.Sprintfd timestamp ++ " status=" ++ Generate.Sprintfd status).data := by
  have hwords : ∀ w ∈ Generate.words, '\n' ∉ w.data := by decide
  have hjoin : '\n' ∉ (String.join (ws.map (fun w => w ++ " "))).data := by
    rw [String.data_join]
    intro hin
    simp only [List.map_map, List.mem_flatten, List.mem_map, Function.comp_apply] at hin
    obtain ⟨l, ⟨w, hw, rfl⟩, hl⟩ := hin
    rw [String.data_append] at hl
    rcases List.mem_append.mp hl with h1 | h1
    · exact hwords w (hmem w hw) h1
    · exact absurd h1 (by decide)
  intro hin
  simp only [String.data_append, List.mem_append] at hin
  rcases hin with ((((((h | h) | h) | h) | h) | h) | h) | h
  · exact absurd h (by decide)
  · exact Generate.Sprintf06d_no_newline i h
  · exact absurd h (by decide)
  · exact hjoin h
  · exact absurd h (by decide)
  · exact Generate.Sprintfd_no_newline timestamp h
  · exact absurd h (by decide)
  · exact Generate.Sprintfd_no_newline status h

theorem Generate.isLine_newline (i : Nat) (line : String) (h : Generate.IsLine i line) :
    line.data.count '\n' = 1 := by
  obtain ⟨ws, timestamp, status, rfl, _, _, hmem, _⟩ := h
  rw [String.data_append, List.count_append,
    List.count_eq_zero_of_not_mem (Generate.body_no_newline i ws timestamp status hmem)]
  rfl

theorem Generate.count_newline_join (l : List String)
    (h : ∀ s ∈ l, s.data.count '\n' = 1) : (String.join l).data.count '\n' = l.length := by
  induction l with
  | nil => rfl
  | cons s ss ih =>
    rw [Generate.join_cons, String.data_append, List.count_append,
      h s (List.mem_cons_self _ _), ih (fun t ht => h t (List.mem_cons_of_mem _ ht)),
      List.length_cons]
    omega

/-! ## The generator -/

theorem Generate.toDigitsCore_step (fuel n : Nat) (ds : List Char) :
    Nat.toDigitsCore 10 (fuel + 1) n ds =
      if n / 10 = 0 then Nat.digitChar (n % 10) :: ds
      else Nat.toDigitsCore 10 fuel (n / 10) (Nat.digitChar (n % 10) :: ds) := rfl

/-- The digits do not depend on the fuel, once there is enough of it. -/
theorem Generate.toDigitsCore_fuel (fuel1 fuel2 n : Nat) (ds : List Char) (h1 : n < fuel1)
    (h2 : n < fuel2) : Nat.toDigitsCore 10 fuel1 n ds = Nat.toDigitsCore 10 fuel2 n ds := by
  induction fuel1 generalizing fuel2 n ds with
  | zero => omega
  | succ fuel1 ih =>
    cases fuel2 with
    | zero => omega
    | succ fuel2 =>
      rw [Generate.toDigitsCore_step, Generate.toDigitsCore_step]
      split_ifs with h0
      · rfl
      · exact ih fuel2 (n / 10) _ (by omega) (by omega)

theorem Generate.toDigitsCore_append (fuel n : Nat) (ds : List Char) :
    Nat.toDigitsCore 10 fuel n ds = Nat.toDigitsCore 10 fuel n [] ++ ds := by
  induction fuel generalizing n ds with
  | zero => rfl
  | succ fuel ih =>
    rw [Generate.toDigitsCore_step, Generate.toDigitsCore_step]
    split_ifs
    · rfl
    · rw [ih _ (_ :: ds), ih _ [_]]
      simp

theorem Generate.toDigits_lt_ten (n : Nat) (h : n < 10) :
    Nat.toDigits 10 n = [Nat.digitChar n] := by
  unfold Nat.toDigits
  rw [Generate.toDigitsCore_step, if_pos (by omega)]
  have hmod : n % 10 = n := by omega
  rw [hmod]

theorem Generate.toDigits_ge_ten (n : Nat) (h : 10 ≤ n) :
    Nat.toDigits 10 n = Nat.toDigits 10 (n / 10) ++ [Nat.digitChar (n % 10)] := by
  unfold Nat.toDigits
  rw [Generate.toDigitsCore_step, if_neg (by omega), Generate.toDigitsCore_append,
    Generate.toDigitsCore_fuel n (n / 10 + 1) (n / 10) [] (by omega) (by omega)]

/-- The verb `%06d` prints the six decimal digits of an index below 1000000, the most
significant first. -/
theorem Generate.Sprintf06d_digits (i : Nat) (h : i < 1000000) :
    Generate.Sprintf06d i =
      String.mk [Nat.digitChar (i / 100000 % 10), Nat.digitChar (i / 10000 % 10),
        Nat.digitChar (i / 1000 % 10), Nat.digitChar (i / 100 % 10),
        Nat.digitChar (i / 10 % 10), Nat.digitChar (i % 10)] := by
  unfold Generate.Sprintf06d
  congr 1
  have hz : Nat.digitChar 0 = '0' := rfl
  by_cases h1 : i < 10
  · rw [Generate.toDigits_lt_ten i h1]
    have e5 : i / 100000 % 10 = 0 := by omega
    have e4 : i / 10000 % 10 = 0 := by omega
    have e3 : i / 1000 % 10 = 0 := by omega
    have e2 : i / 100 % 10 = 0 := by omega
    have e1 : i / 10 % 10 = 0 := by omega
    have e0 : i % 10 = i := by omega
    rw [e5, e4, e3, e2, e1, e0]
    rfl
  rw [Generate.toDigits_ge_ten i (by omega)]
  by_cases h2 : i < 100
  · rw [Generate.toDigits_lt_ten (i / 10) (by omega)]
    have e5 : i / 100000 % 10 = 0 := by omega
    have e4 : i / 10000 % 10 = 0 := by omega
    have e3 : i / 1000 % 10 = 0 := by omega
    have e2 : i / 100 % 10 = 0 := by omega
    have e1 : i / 10 % 10 = i / 10 := by omega
    rw [e5, e4, e3, e2, e1]
    rfl
  rw [Generate.toDigits_ge_ten (i / 10) (by omega)]
  have d2 : i / 10 / 10 = i / 100 := by omega
  have m2 : i / 10 % 10 = i / 10 % 10 := rfl
  rw [d2]
  by_cases h3 : i < 1000
  · rw [Generate.toDigits_lt_ten (i / 100) (by omega)]
    have e5 : i / 100000 % 10 = 0 := by omega
    have e4 : i / 10000 % 10 = 0 := by omega
    have e3 : i / 1000 % 10 = 0 := by omega
    have e2 : i / 100 % 10 = i / 100 := by omega
    rw [e5, e4, e3, e2]
    rfl
  rw [Generate.toDigits_ge_ten (i / 100) (by omega)]
  have d3 : i / 100 / 10 = i / 1000 := by omega
  rw [d3]
  by_cases h4 : i < 10000
  · rw [Generate.toDigits_lt_ten (i / 1000) (by omega)]
    have e5 : i / 100000 % 10 = 0 := by omega
    have e4 : i / 10000 % 10 = 0 := by omega
    have e3 : i / 1000 % 10 = i / 1000 := by omega
    rw [e5, e4, e3]
    rfl
  rw [Generate.toDigits_ge_ten (i / 1000) (by omega)]
  have d4 : i / 1000 / 10 = i / 10000 := by omega
  rw [d4]
  by_cases h5 : i < 100000
  · rw [Generate.toDigits_lt_ten (i / 10000) (by omega)]
    have e5 : i / 100000 % 10 = 0 := by omega
    have e4 : i / 10000 % 10 = i / 10000 := by omega
    rw [e5, e4]
    rfl
  rw [Generate.toDigits_ge_ten (i / 10000) (by omega)]
  have d5 : i / 10000 / 10 = i / 100000 := by omega
  rw [d5, Generate.toDigits_lt_ten (i / 100000) (by omega)]
  have e5 : i / 100000 % 10 = i / 100000 := by omega
  rw [e5]
  rfl

theorem Generate.Sprintfd_eq_repr (n : Nat) : Generate.Sprintfd n = Nat.repr n := rfl

/-- C20: when the generator is started with an output file that can be created, then for
every sequence of random numbers it writes 100,000 strings, one for each index `i` of
0..99999, and the file holds exactly 100,000 newlines.  The string of index `i` ends with a
newline and holds no other newline; before the newline it is `[`, the six decimal digits of
`i` (the most significant first, zeros on the left), `] `, then 5 to 14 words of the word list
with a blank after each, then `timestamp=` with the decimal digits of a number in
1700000000..1700999999 and ` status=` with those of a number in 100..599. -/
theorem Generate.main_writes_lines (args : List String) (rnd : Nat → Nat)
    (hargs : 2 ≤ args.length) :
    ∃ written : List String, Generate.main args true rnd = some written ∧
      written.length = 100000 ∧
      (String.join written).data.count '\n' = 100000 ∧
      ∀ i < 100000, ∃ (ws : List String) (timestamp status : Nat) (body : String),
        body = "[" ++ String.mk [Nat.digitChar (i / 100000 % 10),
            Nat.digitChar (i / 10000 % 10), Nat.digitChar (i / 1000 % 10),
            Nat.digitChar (i / 100 % 10), Nat.digitChar (i / 10 % 10),
            Nat.digitChar (i % 10)] ++ "] " ++
          String.join (ws.map (fun w => w ++ " ")) ++ "timestamp=" ++
          Nat.repr timestamp ++ " status=" ++ Nat.repr status ∧
        written[i]? = some (body ++ "\n") ∧ '\n' ∉ body.data ∧
        5 ≤ ws.length ∧ ws.length ≤ 14 ∧ (∀ w ∈ ws, w ∈ Generate.words) ∧
        1700000000 ≤ timestamp ∧ timestamp ≤ 1700999999 ∧ 100 ≤ status ∧ status ≤ 599 := by
  obtain ⟨new, heq, hlen, hall⟩ := Generate.mainLoop_eq rnd 100000 0 0 [] (by omega)
  rw [List.nil_append] at heq
  have hmain : Generate.main args true rnd = some new := by
    unfold Generate.main
    rw [if_neg (by omega), heq]
    rfl
  refine ⟨new, hmain, hlen, ?_, ?_⟩
  · rw [Generate.count_newline_join new, hlen]
    intro s hs
    obtain ⟨k, hk⟩ := List.mem_iff_getElem?.mp hs
    have hklt : k < 100000 := by
      have := (List.getElem?_eq_some_iff.mp hk).1
      omega
    obtain ⟨line, hline, hisLine⟩ := hall k hklt
    rw [hk] at hline
    cases hline
    exact Generate.isLine_newline (0 + k) s hisLine
  · intro i hi
    obtain ⟨line, hline, hisLine⟩ := hall i hi
    rw [Nat.zero_add] at hisLine
    obtain ⟨ws, timestamp, status, rfl, h5, h14, hmem, ht1, ht2, hs1, hs2⟩ := hisLine
    have hbody := Generate.body_no_newline i ws timestamp status hmem
    rw [Generate.Sprintf06d_digits i (by omega), Generate.Sprintfd_eq_repr,
      Generate.Sprintfd_eq_repr] at hline hbody
    exact ⟨ws, timestamp, status, _, rfl, hline, hbody, h5, h14, hmem, ht1, ht2, hs1, hs2⟩

/-- C20, for the arguments `generate out.txt` and the raw random values 3, 10, 17, ...: the
body of the loop writes the lines of the indices 0, 42 and 99999 with 8 words, and the
strings of the indices 42 and 99999 in the file begin with `[000042] ` and `[099999] `. -/
theorem Generate.main_writes_lines_witness :
    2 ≤ ["generate", "out.txt"].length ∧
    Generate.iteration (fun k => 7 * k + 3) 0 0 =
      (some ("[000000] response guest trace server system success client process " ++
        "timestamp=1700000066 status=173\n"), 11) ∧
    Generate.iteration (fun k => 7 * k + 3) 42 0 =
      (some ("[000042] response guest trace server system success client process " ++
        "timestamp=1700000066 status=173\n"), 11) ∧
    Generate.iteration (fun k => 7 * k + 3) 99999 0 =
      (some ("[099999] response guest trace server system success client process " ++
        "timestamp=1700000066 status=173\n"), 11) ∧
    ∃ written : List String,
      Generate.main ["generate", "out.txt"] true (fun k => 7 * k + 3) = some written ∧
      written.length = 100000 ∧
      (String.join written).data.count '\n' = 100000 ∧
      (∃ (ws : List String) (timestamp status : Nat),
        written[42]? = some ("[000042] " ++ String.join (ws.map (fun w => w ++ " ")) ++
          "timestamp=" ++ Nat.repr timestamp ++ " status=" ++ Nat.repr status ++ "\n") ∧
        5 ≤ ws.length ∧ ws.length ≤ 14 ∧ (∀ w ∈ ws, w ∈ Generate.words) ∧
        1700000000 ≤ timestamp ∧ timestamp ≤ 1700999999 ∧ 100 ≤ status ∧ status ≤ 599) ∧
      (∃ (ws : List String) (timestamp status : Nat),
        written[99999]? = some ("[099999] " ++ String.join (ws.map (fun w => w ++ " ")) ++
          "timestamp=" ++ Nat.repr timestamp ++ " status=" ++ Nat.repr status ++ "\n") ∧
        5 ≤ ws.length ∧ ws.length ≤ 14 ∧ (∀ w ∈ ws, w ∈ Generate.words) ∧
        1700000000 ≤ timestamp ∧ timestamp ≤ 1700999999 ∧ 100 ≤ status ∧ status ≤ 599) := by
  refine ⟨by decide, by decide, by decide, by decide, ?_⟩
  obtain ⟨written, hmain, hlen, hcount, hall⟩ :=
    Generate.main_writes_lines ["generate", "out.txt"] (fun k => 7 * k + 3) (by decide)
  refine ⟨written, hmain, hlen, hcount, ?_, ?_⟩
  · obtain ⟨ws, timestamp, status, body, rfl, hline, _, hrest⟩ := hall 42 (by decide)
    exact ⟨ws, timestamp, status, hline, hrest⟩
  · obtain ⟨ws, timestamp, status, body, rfl, hline, _, hrest⟩ := hall 99999 (by decide)
    exact ⟨ws, timestamp, status, hline, hrest⟩

/-! ## The reset of the global list -/

/-- C21: run sequentially, `search` does not depend on what `allResults` held before the
call: for every two initial values it returns the same result and leaves the same list, the
merge of the appends of its own goroutines; every match it returns was appended by the scan
of one of its eligible files.  This is the reset at the start of `search`: `searchFile`
alone keeps what the list held and appends to it. -/
theorem McpServer.search_ignores_allResults (env : Env) (sched : List Nat) (pattern : String)
    (paths : List String) (maxResults : Int) (before1 before2 : List Match) :
    McpServer.search env sched pattern paths maxResults before1 =
      McpServer.search env sched pattern paths maxResults before2 ∧
    (McpServer.search env sched pattern paths maxResults before1).2 =
      runGoroutines sched
        ((McpServer.spawned env paths).map (fun fp => McpServer.searchFile env fp pattern []))
        [] ∧
    (∀ ms, (McpServer.search env sched pattern paths maxResults before1).1 = .ok ms →
      ∀ m ∈ ms, ∃ g ∈ McpServer.spawned env paths,
        m ∈ McpServer.searchFile env g pattern []) ∧
    (∀ filePath : String, McpServer.searchFile env filePath pattern before1 =
      before1 ++ McpServer.searchFile env filePath pattern []) := by
  refine ⟨rfl, McpServer.search_snd env sched pattern paths maxResults before1, ?_,
    fun filePath => McpServer.searchFile_append env filePath pattern before1⟩
  intro ms hok m hm
  exact (McpServer.mem_search_snd env sched pattern paths maxResults before1 m).mp
    (McpServer.mem_snd_of_search_ok env sched pattern paths maxResults before1 ms m hok hm)

/-- The query for `type` over `two`, run after the query for `func` over `one` has left its
match in `allResults`, returns its own match only. -/
theorem McpServer.search_after_earlier_query :
    McpServer.search (Demo.env Demo.twoDirs []) [] "type" ["two"] 10
        (McpServer.search (Demo.env Demo.twoDirs []) [] "func" ["one"] 10 []).2 =
      (.ok [⟨"two/b.go", 1, "type Bar"⟩], [⟨"two/b.go", 1, "type Bar"⟩]) ∧
    (McpServer.search (Demo.env Demo.twoDirs []) [] "func" ["one"] 10 []).2 =
      [⟨"one/a.go", 1, "func Foo"⟩] ∧
    McpServer.searchFile (Demo.env Demo.twoDirs []) "two/b.go" "type"
        [⟨"one/a.go", 1, "func Foo"⟩] =
      [⟨"one/a.go", 1, "func Foo"⟩, ⟨"two/b.go", 1, "type Bar"⟩] :=
  ⟨rfl, rfl, rfl⟩

/-! ## Lemmas on the pieces of `strings.Split` -/

theorem Go.splitAux_ne_nil (sep : Char) (l : List Char) : Go.splitAux sep l ≠ [] := by
  cases l with
  | nil => simp [Go.splitAux]
  | cons c cs =>
    simp only [Go.splitAux]
    split_ifs
    · simp
    · split <;> simp

theorem Go.splitAux_length (sep : Char) (l : List Char) :
    (Go.splitAux sep l).length = l.count sep + 1 := by
  induction l with
  | nil => rfl
  | cons c cs ih =>
    simp only [Go.splitAux]
    by_cases hc : c = sep
    · subst hc
      simp [ih]
    · rw [if_neg hc]
      have hcount : (c :: cs).count sep = cs.count sep := by
        rw [List.count_cons]
        simp [hc]
      rw [hcount, ← ih]
      cases hs : Go.splitAux sep cs with
      | nil => exact absurd hs (Go.splitAux_ne_nil sep cs)
      | cons piece pieces => rfl

theorem Go.splitAux_append_sep (sep : Char) (l : List Char) :
    Go.splitAux sep (l ++ [sep]) = Go.splitAux sep l ++ [[]] := by
  induction l with
  | nil => simp [Go.splitAux]
  | cons c cs ih =>
    simp only [List.cons_append, Go.splitAux]
    by_cases hc : c = sep
    · simp [hc, ih]
    · rw [if_neg hc, if_neg hc]
      show (match Go.splitAux sep (cs ++ [sep]) with
        | [] => [[c]]
        | piece :: pieces => (c :: piece) :: pieces) = _
      rw [ih]
      cases hs : Go.splitAux sep cs with
      | nil => exact absurd hs (Go.splitAux_ne_nil sep cs)
      | cons piece pieces => rfl

theorem Go.Split_length (content : String) :
    (Go.Split content '\n').length = content.data.count '\n' + 1 := by
  simp only [Go.Split, List.length_map, Go.splitAux_length]

theorem Go.Split_append_newline (body : String) :
    Go.Split (body ++ "\n") '\n' = Go.Split body '\n' ++ [""] := by
  simp only [Go.Split, String.data_append]
  rw [Go.splitAux_append_sep, List.map_append]
  rfl

/-- C22: for a file that can be read and a pattern that compiles, every `Line` that
`searchFile` emits lies in `1..k+1`, where `k` is the number of newlines of the content; and
when the content ends with a newline and the pattern matches the empty string, the last
match that `searchFile` appends is the one of the empty piece after the final newline, with
`Line = k + 1` and an empty `Content`. -/
theorem McpServer.searchFile_trailing_newline (env : Env) (filePath pattern : String)
    (re : Regexp) (content : String) (allResults : List Match)
    (hre : env.Compile pattern = some re) (hread : env.ReadFile filePath = some content) :
    (∀ m ∈ McpServer.searchFile env filePath pattern [],
      1 ≤ m.Line ∧ m.Line ≤ (content.data.count '\n' : Int) + 1) ∧
    ((∃ body : String, content = body ++ "\n") → re.MatchString "" = true →
      ∃ earlier : List Match,
        McpServer.searchFile env filePath pattern allResults =
          allResults ++ earlier ++
            [{ File := filePath, Line := (content.data.count '\n' : Int) + 1,
               Content := "" }]) := by
  constructor
  · intro m hm
    obtain ⟨re2, content2, _, hread2, il, hil, _, rfl⟩ :=
      (McpServer.mem_searchFile env filePath pattern m).mp hm
    rw [hread] at hread2
    cases hread2
    have hlt := List.fst_lt_of_mem_enum hil
    rw [Go.Split_length] at hlt
    simp only
    omega
  · rintro ⟨body, rfl⟩ hempty
    have hloop := McpServer.searchFileLoop_eq re filePath (Go.Split (body ++ "\n") '\n') 0
      allResults
    simp only [Nat.cast_zero] at hloop
    have hfile : McpServer.searchFile env filePath pattern allResults =
        McpServer.searchFileLoop re filePath (Go.Split (body ++ "\n") '\n') 0 allResults := by
      unfold McpServer.searchFile
      rw [hre, hread]
    have hcount : (body ++ "\n").data.count '\n' = (Go.Split body '\n').length := by
      rw [Go.Split_length, String.data_append, List.count_append]
      rfl
    rw [hfile, hloop, Go.Split_append_newline, List.enumFrom_append, List.filter_append,
      List.map_append, ← List.append_assoc]
    refine ⟨List.map
      (fun il : Nat × String =>
        ({ File := filePath, Line := (il.1 : Int) + 1, Content := Go.TrimSpace il.2 } : Match))
      (List.filter (fun il => re.MatchString il.2) (List.enumFrom 0 (Go.Split body '\n'))),
      ?_⟩
    congr 1
    simp only [List.enumFrom_cons, List.enumFrom_nil, List.filter_cons, hempty, if_true,
      List.filter_nil, List.map_cons, List.map_nil, Nat.zero_add, hcount]
    rfl

/-- C22, on a file with the content "ab\n\nxc\n" and the pattern `x*`, which matches the
empty string: the four pieces "ab", "", "xc", "" all match, and the last match is the one of
the empty piece after the final newline, on line 4. -/
theorem McpServer.searchFile_trailing_newline_witness :
    McpServer.searchFile (Demo.env (.cons "t.go" (.file "ab\n\nxc\n") .nil) []) "t.go" "x*" [] =
      [⟨"t.go", 1, "ab"⟩, ⟨"t.go", 2, ""⟩, ⟨"t.go", 3, "xc"⟩, ⟨"t.go", 4, ""⟩] ∧
    ("ab\n\nxc\n" : String).data.count '\n' = 3 ∧
    (∀ m ∈ McpServer.searchFile (Demo.env (.cons "t.go" (.file "ab\n\nxc\n") .nil) [])
        "t.go" "x*" [],
      1 ≤ m.Line ∧ m.Line ≤ ((("ab\n\nxc\n" : String).data.count '\n' : Nat) : Int) + 1) ∧
    ∃ earlier : List Match,
      McpServer.searchFile (Demo.env (.cons "t.go" (.file "ab\n\nxc\n") .nil) [])
          "t.go" "x*" [] =
        [] ++ earlier ++
          [{ File := "t.go", Line := ((("ab\n\nxc\n" : String).data.count '\n' : Nat) : Int) + 1,
             Content := "" }] :=
  ⟨rfl, by decide,
    (McpServer.searchFile_trailing_newline
      (Demo.env (.cons "t.go" (.file "ab\n\nxc\n") .nil) []) "t.go" "x*"
      ⟨fun s => Re.matchAnywhere false [⟨false, 'x', true⟩] s.data⟩ "ab\n\nxc\n" []
      rfl rfl).1,
    (McpServer.searchFile_trailing_newline
      (Demo.env (.cons "t.go" (.file "ab\n\nxc\n") .nil) []) "t.go" "x*"
      ⟨fun s => Re.matchAnywhere false [⟨false, 'x', true⟩] s.data⟩ "ab\n\nxc\n" []
      rfl rfl).2 ⟨"ab\n\nxc", rfl⟩ rfl⟩

/-! ## Lemmas on the roots -/

theorem McpServer.matchingLineCount_append (env : Env) (pattern : String)
    (before after : List String) :
    McpServer.matchingLineCount env pattern (before ++ after) =
      McpServer.matchingLineCount env pattern before +
        McpServer.matchingLineCount env pattern after := by
  unfold McpServer.matchingLineCount
  cases env.Compile pattern with
  | none => rfl
  | some re => simp only [McpServer.spawned_append, List.map_append, List.sum_append]

theorem McpServer.search_snd_perm (env : Env) (sched : List Nat) (pattern : String)
    (paths : List String) (maxResults : Int) (allResults : List Match) :
    (McpServer.search env sched pattern paths maxResults allResults).2.Perm
      ((McpServer.spawned env paths).map
        (fun fp => McpServer.searchFile env fp pattern [])).flatten := by
  rw [McpServer.search_snd]
  have := runGoroutines_perm sched
    ((McpServer.spawned env paths).map (fun fp => McpServer.searchFile env fp pattern [])) []
  rwa [List.nil_append] at this

theorem McpServer.search_ok_of_cap (env : Env) (sched : List Nat) (pattern : String)
    (paths : List String) (maxResults : Int) (allResults : List Match)
    (hcap : (McpServer.matchingLineCount env pattern paths : Int) ≤ maxResults) :
    (McpServer.search env sched pattern paths maxResults allResults).1 =
      .ok (McpServer.search env sched pattern paths maxResults allResults).2 := by
  have hlen := McpServer.length_search_snd env sched pattern paths maxResults allResults
  rw [McpServer.search_fst_of_nonneg env sched pattern paths maxResults allResults (by omega),
    List.take_of_length_le (by omega)]

theorem McpServer.search_perm_append (env : Env) (schedAB schedA schedB : List Nat)
    (pattern : String) (pathsA pathsB : List String) (maxResults : Int)
    (allResults : List Match)
    (hcap : (McpServer.matchingLineCount env pattern (pathsA ++ pathsB) : Int) ≤ maxResults) :
    ∃ msAB msA msB : List Match,
      (McpServer.search env schedAB pattern (pathsA ++ pathsB) maxResults allResults).1 =
        .ok msAB ∧
      (McpServer.search env schedA pattern pathsA maxResults allResults).1 = .ok msA ∧
      (McpServer.search env schedB pattern pathsB maxResults allResults).1 = .ok msB ∧
      msAB.Perm (msA ++ msB) := by
  have hsum := McpServer.matchingLineCount_append env pattern pathsA pathsB
  refine ⟨_, _, _,
    McpServer.search_ok_of_cap env schedAB pattern (pathsA ++ pathsB) maxResults allResults hcap,
    McpServer.search_ok_of_cap env schedA pattern pathsA maxResults allResults (by omega),
    McpServer.search_ok_of_cap env schedB pattern pathsB maxResults allResults (by omega), ?_⟩
  have hAB := McpServer.search_snd_perm env schedAB pattern (pathsA ++ pathsB) maxResults
    allResults
  have hA := McpServer.search_snd_perm env schedA pattern pathsA maxResults allResults
  have hB := McpServer.search_snd_perm env schedB pattern pathsB maxResults allResults
  rw [McpServer.spawned_append, List.map_append, List.flatten_append] at hAB
  exact hAB.trans (List.Perm.append hA.symm hB.symm)

/-- C23: `search` does not deduplicate across roots.  When the cap is not reached for the
paths `A ++ B`, then under any schedules the matches of the search over `A ++ B` are, up to
their order, the matches of the search over `A` followed by those of the search over `B`, so
that every match occurs as often as in the two together; in particular every match occurs in
the search over `[r, r]` twice as often as in the search over `[r]`. -/
theorem McpServer.search_does_not_deduplicate (env : Env) (schedAB schedA schedB : List Nat)
    (pattern : String) (maxResults : Int) (allResults : List Match) :
    (∀ pathsA pathsB : List String,
      (McpServer.matchingLineCount env pattern (pathsA ++ pathsB) : Int) ≤ maxResults →
      ∃ msAB msA msB : List Match,
        (McpServer.search env schedAB pattern (pathsA ++ pathsB) maxResults allResults).1 =
          .ok msAB ∧
        (McpServer.search env schedA pattern pathsA maxResults allResults).1 = .ok msA ∧
        (McpServer.search env schedB pattern pathsB maxResults allResults).1 = .ok msB ∧
        msAB.Perm (msA ++ msB) ∧
        ∀ m : Match, msAB.count m = msA.count m + msB.count m) ∧
    (∀ r : String,
      (McpServer.matchingLineCount env pattern [r, r] : Int) ≤ maxResults →
      ∃ msRR msR : List Match,
        (McpServer.search env schedAB pattern [r, r] maxResults allResults).1 = .ok msRR ∧
        (McpServer.search env schedA pattern [r] maxResults allResults).1 = .ok msR ∧
        ∀ m : Match, msRR.count m = 2 * msR.count m) := by
  constructor
  · intro pathsA pathsB hcap
    obtain ⟨msAB, msA, msB, hAB, hA, hB, hperm⟩ := McpServer.search_perm_append env schedAB
      schedA schedB pattern pathsA pathsB maxResults allResults hcap
    refine ⟨msAB, msA, msB, hAB, hA, hB, hperm, ?_⟩
    intro m
    rw [hperm.count_eq, List.count_append]
  · intro r hcap
    obtain ⟨msRR, msR, msR2, hRR, hR, hR2, hperm⟩ := McpServer.search_perm_append env schedAB
      schedA schedA pattern [r] [r] maxResults allResults hcap
    rw [hR] at hR2
    cases hR2
    refine ⟨msRR, msR, hRR, hR, ?_⟩
    intro m
    rw [hperm.count_eq, List.count_append]
    omega

/-- C23, on the two Go files: the search over `[dir, dir]` returns the two matches of the
search over `[dir]` twice each. -/
theorem McpServer.search_does_not_deduplicate_witness :
    McpServer.search (Demo.env Demo.goDir []) [] "func" ["dir", "dir"] 10 [] =
      (.ok [⟨"dir/a.go", 1, "func Foo"⟩, ⟨"dir/b.go", 1, "func Bar"⟩,
            ⟨"dir/a.go", 1, "func Foo"⟩, ⟨"dir/b.go", 1, "func Bar"⟩],
        [⟨"dir/a.go", 1, "func Foo"⟩, ⟨"dir/b.go", 1, "func Bar"⟩,
         ⟨"dir/a.go", 1, "func Foo"⟩, ⟨"dir/b.go", 1, "func Bar"⟩]) ∧
    (McpServer.matchingLineCount (Demo.env Demo.goDir []) "func" ["dir", "dir"] : Int) ≤ 10 ∧
    (∃ msRR msR : List Match,
      (McpServer.search (Demo.env Demo.goDir []) [] "func" ["dir", "dir"] 10 []).1 = .ok msRR ∧
      (McpServer.search (Demo.env Demo.goDir []) [1] "func" ["dir"] 10 []).1 = .ok msR ∧
      ∀ m : Match, msRR.count m = 2 * msR.count m) ∧
    (∃ msAB msA msB : List Match,
      (McpServer.search (Demo.env Demo.goDir []) [] "func" (["dir"] ++ ["dir/b.go"]) 10 []).1 =
        .ok msAB ∧
      (McpServer.search (Demo.env Demo.goDir []) [1] "func" ["dir"] 10 []).1 = .ok msA ∧
      (McpServer.search (Demo.env Demo.goDir []) [0] "func" ["dir/b.go"] 10 []).1 = .ok msB ∧
      msAB.Perm (msA ++ msB) ∧
      ∀ m : Match, msAB.count m = msA.count m + msB.count m) :=
  ⟨rfl, by decide,
    (McpServer.search_does_not_deduplicate (Demo.env Demo.goDir []) [] [1] [0] "func" 10 []).2
      "dir" (by decide),
    (McpServer.search_does_not_deduplicate (Demo.env Demo.goDir []) [] [1] [0] "func" 10 []).1
      ["dir"] ["dir/b.go"] (by decide)⟩

/-! ## Lemmas on Go maps -/

theorem Go.mapGet_mapSet {K V : Type} [DecidableEq K] (m : List (K × V)) (k k2 : K)
    (v zero : V) :
    Go.mapGet (Go.mapSet m k v) k2 zero = if k = k2 then v else Go.mapGet m k2 zero := by
  induction m with
  | nil => simp [Go.mapSet, Go.mapGet]
  | cons kv rest ih =>
    obtain ⟨k3, v3⟩ := kv
    simp only [Go.mapSet]
    by_cases h3 : k3 = k
    · subst h3
      simp only [if_true, Go.mapGet]
      by_cases h32 : k3 = k2 <;> simp [h32]
    · simp only [if_neg h3, Go.mapGet, ih]
      by_cases h32 : k3 = k2
      · subst h32
        have hne : ¬ k = k3 := fun h => h3 h.symm
        simp [hne]
      · simp [h32]

theorem Go.sum_mapSet {K V : Type} [DecidableEq K] (f : V → Int) (zero : V)
    (hzero : f zero = 0) (m : List (K × V)) (k : K) (v : V) :
    ((Go.mapSet m k v).map (fun kv => f kv.2)).sum =
      (m.map (fun kv => f kv.2)).sum - f (Go.mapGet m k zero) + f v := by
  induction m with
  | nil => simp [Go.mapSet, Go.mapGet, hzero]
  | cons kv rest ih =>
    obtain ⟨k3, v3⟩ := kv
    simp only [Go.mapSet, Go.mapGet]
    by_cases h3 : k3 = k
    · simp only [if_pos h3, List.map_cons, List.sum_cons]
      omega
    · simp only [if_neg h3, List.map_cons, List.sum_cons, ih]
      omega

theorem LogAnalyzer.total_mapSet {K : Type} [DecidableEq K] (m : List (K × Int)) (k : K) :
    LogAnalyzer.total (Go.mapSet m k (Go.mapGet m k 0 + 1)) = LogAnalyzer.total m + 1 := by
  have h : ((Go.mapSet m k (Go.mapGet m k 0 + 1)).map Prod.snd).sum =
      (m.map Prod.snd).sum - Go.mapGet m k 0 + (Go.mapGet m k 0 + 1) :=
    Go.sum_mapSet (fun v : Int => v) 0 rfl m k (Go.mapGet m k 0 + 1)
  simp only [LogAnalyzer.total]
  omega

theorem LogAnalyzer.stored_mapSet {K : Type} [DecidableEq K] (m : List (K × List Int))
    (k : K) (x : Int) :
    LogAnalyzer.stored (Go.mapSet m k (Go.mapGet m k [] ++ [x])) =
      LogAnalyzer.stored m + 1 := by
  have h := Go.sum_mapSet (fun v : List Int => (v.length : Int)) [] rfl m k
    (Go.mapGet m k [] ++ [x])
  simp only [LogAnalyzer.stored]
  rw [h]
  simp only [List.length_append, List.length_singleton, Nat.cast_add, Nat.cast_one]
  omega

theorem LogAnalyzer.aggregator_invariant (results : List LogEntry) (stats : LogAnalyzer.Stats)
    (n : Int)
    (h1 : LogAnalyzer.total stats.IPCounts = n) (h2 : LogAnalyzer.total stats.PathCounts = n)
    (h3 : LogAnalyzer.total stats.StatusCounts = n)
    (h4 : LogAnalyzer.stored stats.PathResponseTimes = n)
    (h5 : ∀ p : String, ((Go.mapGet stats.PathResponseTimes p []).length : Int) =
      Go.mapGet stats.PathCounts p 0) :
    LogAnalyzer.total (LogAnalyzer.aggregator results stats).IPCounts = n + results.length ∧
    LogAnalyzer.total (LogAnalyzer.aggregator results stats).PathCounts = n + results.length ∧
    LogAnalyzer.total (LogAnalyzer.aggregator results stats).StatusCounts =
      n + results.length ∧
    LogAnalyzer.stored (LogAnalyzer.aggregator results stats).PathResponseTimes =
      n + results.length ∧
    ∀ p : String,
      ((Go.mapGet (LogAnalyzer.aggregator results stats).PathResponseTimes p []).length : Int) =
        Go.mapGet (LogAnalyzer.aggregator results stats).PathCounts p 0 := by
  induction results generalizing stats n with
  | nil =>
    simp only [LogAnalyzer.aggregator, List.length_nil, Nat.cast_zero, add_zero]
    exact ⟨h1, h2, h3, h4, h5⟩
  | cons entry rest ih =>
    have hstep := ih (LogAnalyzer.aggregate stats entry) (n + 1)
      (by simp only [LogAnalyzer.aggregate, LogAnalyzer.total_mapSet, h1])
      (by simp only [LogAnalyzer.aggregate, LogAnalyzer.total_mapSet, h2])
      (by simp only [LogAnalyzer.aggregate, LogAnalyzer.total_mapSet, h3])
      (by simp only [LogAnalyzer.aggregate, LogAnalyzer.stored_mapSet, h4])
      (by
        intro p
        simp only [LogAnalyzer.aggregate, Go.mapGet_mapSet]
        by_cases hp : entry.Path = p
        · subst hp
          simp only [if_true, List.length_append, List.length_singleton, Nat.cast_add,
            Nat.cast_one, h5]
        · simp only [if_neg hp, h5])
    simp only [LogAnalyzer.aggregator, List.length_cons, Nat.cast_add, Nat.cast_one]
    have hassoc : n + 1 + (rest.length : Int) = n + ((rest.length : Int) + 1) := by omega
    rw [hassoc] at hstep
    exact hstep

/-- C24: after `aggregator` has processed any finite sequence of parsed entries starting from
`NewStats()`, the sum of `IPCounts`, the sum of `PathCounts`, the sum of `StatusCounts` and
the number of response times stored in `PathResponseTimes` are all equal to the number of
entries processed, and for every path `p` the length of `PathResponseTimes[p]` equals
`PathCounts[p]`. -/
theorem LogAnalyzer.aggregator_counts (results : List LogAnalyzer.LogEntry) :
    LogAnalyzer.total (LogAnalyzer.aggregator results LogAnalyzer.NewStats).IPCounts =
      results.length ∧
    LogAnalyzer.total (LogAnalyzer.aggregator results LogAnalyzer.NewStats).PathCounts =
      results.length ∧
    LogAnalyzer.total (LogAnalyzer.aggregator results LogAnalyzer.NewStats).StatusCounts =
      results.length ∧
    LogAnalyzer.stored (LogAnalyzer.aggregator results LogAnalyzer.NewStats).PathResponseTimes =
      results.length ∧
    ∀ p : String,
      ((Go.mapGet (LogAnalyzer.aggregator results LogAnalyzer.NewStats).PathResponseTimes
        p []).length : Int) =
        Go.mapGet (LogAnalyzer.aggregator results LogAnalyzer.NewStats).PathCounts p 0 := by
  have h := LogAnalyzer.aggregator_invariant results LogAnalyzer.NewStats 0 rfl rfl rfl rfl
    (fun _ => rfl)
  simpa using h

/-- The statistics of three entries, two of them for the same path and two from the same
address. -/
theorem LogAnalyzer.aggregator_three_entries :
    LogAnalyzer.aggregator
      [⟨"10.0.0.1", "t1", "GET", "/a", 200, 12⟩, ⟨"10.0.0.2", "t2", "GET", "/b", 404, 7⟩,
       ⟨"10.0.0.1", "t3", "POST", "/a", 200, 30⟩] LogAnalyzer.NewStats =
      { IPCounts := [("10.0.0.1", 2), ("10.0.0.2", 1)],
        PathCounts := [("/a", 2), ("/b", 1)],
        StatusCounts := [(200, 2), (404, 1)],
        PathResponseTimes := [("/a", [12, 30]), ("/b", [7])],
        TotalLines := 0 } := by
  decide

/-! ## Lemmas on the marker of the generator -/

theorem Generate.hasYo_infix (a b : List Char) :
    Generate.hasYo (a ++ 'y' :: 'o' :: b) = true := by
  induction a with
  | nil => rfl
  | cons c rest ih =>
    show ((c == 'y' && (rest ++ 'y' :: 'o' :: b).head? == some 'o') ||
      Generate.hasYo (rest ++ 'y' :: 'o' :: b)) = true
    rw [ih, Bool.or_true]

theorem Generate.hasYo_append (a b : List Char) (ha : Generate.hasYo a = false)
    (hb : Generate.hasYo b = false) (hhead : b.head? ≠ some 'o') :
    Generate.hasYo (a ++ b) = false := by
  induction a with
  | nil => exact hb
  | cons c rest ih =>
    simp only [Generate.hasYo, Bool.or_eq_false_iff] at ha
    show ((c == 'y' && (rest ++ b).head? == some 'o') || Generate.hasYo (rest ++ b)) = false
    rw [ih ha.2, Bool.or_false]
    cases rest with
    | nil =>
      have hne : (b.head? == some 'o') = false := by simpa using hhead
      show (c == 'y' && b.head? == some 'o') = false
      rw [hne, Bool.and_false]
    | cons d rest2 => exact ha.1

theorem Generate.safe_append (a b : List Char)
    (ha : Generate.hasYo a = false ∧ a.head? ≠ some 'o')
    (hb : Generate.hasYo b = false ∧ b.head? ≠ some 'o') :
    Generate.hasYo (a ++ b) = false ∧ (a ++ b).head? ≠ some 'o' := by
  refine ⟨Generate.hasYo_append a b ha.1 hb.1 hb.2, ?_⟩
  cases a with
  | nil => exact hb.2
  | cons c rest => exact ha.2

theorem Generate.safe_of_no_o (l : List Char) (h : 'o' ∉ l) :
    Generate.hasYo l = false ∧ l.head? ≠ some 'o' := by
  induction l with
  | nil => exact ⟨rfl, by simp⟩
  | cons c rest ih =>
    have hrest : 'o' ∉ rest := fun hm => h (List.mem_cons_of_mem _ hm)
    have hc : c ≠ 'o' := fun hc => h (hc ▸ List.mem_cons_self _ _)
    obtain ⟨h1, h2⟩ := ih hrest
    refine ⟨?_, by simpa using hc⟩
    show ((c == 'y' && rest.head? == some 'o') || Generate.hasYo rest) = false
    have hne : (rest.head? == some 'o') = false := by simpa using h2
    rw [h1, hne, Bool.and_false, Bool.or_false]

theorem Generate.toDigitsCore_no_o (fuel n : Nat) (ds : List Char)
    (h : 'o' ∉ ds) : 'o' ∉ Nat.toDigitsCore 10 fuel n ds := by
  induction fuel generalizing n ds with
  | zero => exact h
  | succ fuel ih =>
    have hdigit : ∀ d < 10, Nat.digitChar d ≠ 'o' := by decide
    have hcons : 'o' ∉ Nat.digitChar (n % 10) :: ds := by
      intro hmem
      rcases List.mem_cons.mp hmem with heq | hmem
      · exact hdigit _ (Nat.mod_lt n (by decide)) heq.symm
      · exact h hmem
    simp only [Nat.toDigitsCore]
    split_ifs
    · exact hcons
    · exact ih _ _ hcons

theorem Generate.safe_Sprintfd (n : Nat) :
    Generate.hasYo (Generate.Sprintfd n).data = false ∧
      (Generate.Sprintfd n).data.head? ≠ some 'o' :=
  Generate.safe_of_no_o _ (Generate.toDigitsCore_no_o _ _ [] (List.not_mem_nil _))

theorem Generate.safe_Sprintf06d (i : Nat) :
    Generate.hasYo (Generate.Sprintf06d i).data = false ∧
      (Generate.Sprintf06d i).data.head? ≠ some 'o' := by
  apply Generate.safe_of_no_o
  unfold Generate.Sprintf06d
  intro hmem
  rcases List.mem_append.mp hmem with h | h
  · exact absurd (List.eq_of_mem_replicate h) (by decide)
  · exact Generate.toDigitsCore_no_o _ _ [] (List.not_mem_nil _) h

theorem Generate.safe_words (ws : List String) (hmem : ∀ w ∈ ws, w ∈ Generate.words) :
    Generate.hasYo (String.join (ws.map (fun w => w ++ " "))).data = false ∧
      (String.join (ws.map (fun w => w ++ " "))).data.head? ≠ some 'o' := by
  have hwords : ∀ w ∈ Generate.words,
      Generate.hasYo (w ++ " ").data = false ∧ (w ++ " ").data.head? ≠ some 'o' := by
    decide
  induction ws with
  | nil => exact ⟨rfl, by decide⟩
  | cons w rest ih =>
    rw [List.map_cons, Generate.join_cons, String.data_append]
    exact Generate.safe_append _ _ (hwords w (hmem w (List.mem_cons_self _ _)))
      (ih (fun v hv => hmem v (List.mem_cons_of_mem _ hv)))

theorem Generate.isLine_no_marker (i : Nat) (line : String) (h : Generate.IsLine i line) :
    ¬ ∃ a b : String, line = a ++ "hogefugapiyo" ++ b := by
  obtain ⟨ws, timestamp, status, rfl, _, _, hmem, _⟩ := h
  have hsafe : Generate.hasYo ("[" ++ Generate.Sprintf06d i ++ "] " ++
      String.join (ws.map (fun w => w ++ " ")) ++ "timestamp=" ++
      Generate.Sprintfd timestamp ++ " status=" ++ Generate.Sprintfd status ++ "\n").data =
        false := by
    simp only [String.data_append]
    exact (Generate.safe_append _ _ (Generate.safe_append _ _ (Generate.safe_append _ _
      (Generate.safe_append _ _ (Generate.safe_append _ _ (Generate.safe_append _ _
      (Generate.safe_append _ _ (Generate.safe_append _ _ ⟨by decide, by decide⟩
        (Generate.safe_Sprintf06d i)) ⟨by decide, by decide⟩) (Generate.safe_words ws hmem))
      ⟨by decide, by decide⟩) (Generate.safe_Sprintfd timestamp)) ⟨by decide, by decide⟩)
      (Generate.safe_Sprintfd status)) ⟨by decide, by decide⟩).1
  rintro ⟨a, b, hab⟩
  have hdata := congrArg String.data hab
  have hmarker : (a ++ "hogefugapiyo" ++ b).data =
      (a.data ++ ['h', 'o', 'g', 'e', 'f', 'u', 'g', 'a', 'p', 'i']) ++ 'y' :: 'o' :: b.data := by
    simp only [String.data_append]
    show (a.data ++ ['h', 'o', 'g', 'e', 'f', 'u', 'g', 'a', 'p', 'i', 'y', 'o']) ++ b.data = _
    simp
  rw [hmarker] at hdata
  rw [hdata, Generate.hasYo_infix] at hsafe
  cases hsafe

/-- C25: in the generator the branch `i == 314159` is never taken, as `i` ranges over
0..99999: for every index below 100000 the body of the loop writes a string, so no iteration
is skipped and 100,000 strings are written, and no string written holds the marker
"hogefugapiyo". -/
theorem Generate.marker_branch_never_taken (args : List String) (rnd : Nat → Nat)
    (hargs : 2 ≤ args.length) :
    (∀ i pos : Nat, i < 100000 → i ≠ 314159 ∧ (Generate.iteration rnd i pos).1.isSome = true) ∧
    ∃ written : List String, Generate.main args true rnd = some written ∧
      written.length = 100000 ∧
      ∀ line ∈ written, ¬ ∃ a b : String, line = a ++ "hogefugapiyo" ++ b := by
  constructor
  · intro i pos hi
    have hne : i ≠ 314159 := by omega
    obtain ⟨line, pos2, hit, _⟩ := Generate.iteration_isLine rnd i pos hne
    rw [hit]
    exact ⟨hne, rfl⟩
  · obtain ⟨new, heq, hlen, hall⟩ := Generate.mainLoop_eq rnd 100000 0 0 [] (by omega)
    rw [List.nil_append] at heq
    have hmain : Generate.main args true rnd = some new := by
      unfold Generate.main
      rw [if_neg (by omega), heq]
      rfl
    refine ⟨new, hmain, hlen, ?_⟩
    intro line hline
    obtain ⟨k, hk⟩ := List.mem_iff_getElem?.mp hline
    have hklt : k < 100000 := by
      have := (List.getElem?_eq_some_iff.mp hk).1
      omega
    obtain ⟨line2, hline2, hisLine⟩ := hall k hklt
    rw [hk] at hline2
    cases hline2
    exact Generate.isLine_no_marker (0 + k) line hisLine

/-- C25, for the arguments `generate out.txt` and the raw random values 3, 10, 17, ...; the
body of the loop at the index 314159, which the loop never reaches, writes nothing. -/
theorem Generate.marker_branch_never_taken_witness :
    2 ≤ ["generate", "out.txt"].length ∧
    Generate.iteration (fun k => 7 * k + 3) 314159 0 = (none, 0) ∧
    (∀ i pos : Nat, i < 100000 →
      i ≠ 314159 ∧ (Generate.iteration (fun k => 7 * k + 3) i pos).1.isSome = true) ∧
    ∃ written : List String,
      Generate.main ["generate", "out.txt"] true (fun k => 7 * k + 3) = some written ∧
      written.length = 100000 ∧
      ∀ line ∈ written, ¬ ∃ a b : String, line = a ++ "hogefugapiyo" ++ b :=
  ⟨by decide, by decide,
    Generate.marker_branch_never_taken ["generate", "out.txt"] (fun k => 7 * k + 3)
      (by decide)⟩

/-! ## The CPU-profiling demo -/

theorem CpuDemo.wrapInt_of_small (x : Int) (h0 : 0 ≤ x) (h1 : x ≤ 9223372036854775807) :
    CpuDemo.wrapInt x = x := by
  unfold CpuDemo.wrapInt
  omega

theorem CpuDemo.length_buildTextLoop (left i : Nat) (sb : String) :
    sb.length + left ≤ (CpuDemo.buildTextLoop left i sb).length := by
  induction left generalizing i sb with
  | zero => exact Nat.le_refl _
  | succ left ih =>
    have h := ih (i + 1) (sb ++ CpuDemo.words.getD (i % CpuDemo.words.length) "" ++ " ")
    simp only [String.length_append] at h
    have hone : (" " : String).length = 1 := rfl
    rw [hone] at h
    simp only [CpuDemo.buildTextLoop]
    omega

/-- C26 as written fails for a large `n`: for `n = 354745078340568301`, which is not
negative, the product `n * 26` wraps around to a negative `int`, and `sb.Grow` panics before
anything is returned, whatever the memory of the machine. -/
theorem CpuDemo.buildText_overflow_panics :
    (0 : Int) ≤ 354745078340568301 ∧
    CpuDemo.wrapInt (354745078340568301 * 26) = -9223372036854775790 ∧
    CpuDemo.buildText (fun _ => true) 354745078340568301 =
      .error "strings.Builder.Grow: negative count" :=
  ⟨by decide, by decide, rfl⟩

/-- C26, amended: for every `n >= 0` for which `sb.Grow(n * len(words))` does not panic (the
product `n * 26` does not exceed the largest `int`, and its buffer can be allocated),
`buildText(n)` returns the empty string, while the words are in the builder, which is not
returned; `countWords` of the empty string is the empty map; and the program, which calls
`buildText(1000000)`, reports 0 unique words and a text length of 0. -/
theorem CpuDemo.buildText_returns_empty (canAllocate : Int → Bool) (n : Int) (h0 : 0 ≤ n)
    (hno : n * 26 ≤ 9223372036854775807) (halloc : canAllocate (n * 26) = true) :
    CpuDemo.buildText canAllocate n = .ok ("", CpuDemo.buildTextLoop n.toNat 0 "") ∧
    (0 < n → CpuDemo.buildTextLoop n.toNat 0 "" ≠ "") ∧
    CpuDemo.countWords "" = [] ∧
    (n = CpuDemo.numOfWords →
      CpuDemo.main true true canAllocate =
        .ok ["Processed 0 unique words\n", "Total text length: 0 characters\n"]) := by
  have hlen : ((CpuDemo.words.length : Nat) : Int) = 26 := rfl
  have hbuild : CpuDemo.buildText canAllocate n =
      .ok ("", CpuDemo.buildTextLoop n.toNat 0 "") := by
    unfold CpuDemo.buildText
    simp only [hlen]
    rw [CpuDemo.wrapInt_of_small (n * 26) (by omega) hno, if_neg (by omega), halloc]
    rfl
  refine ⟨hbuild, ?_, rfl, ?_⟩
  · intro hpos hempty
    have h := CpuDemo.length_buildTextLoop n.toNat 0 ""
    rw [hempty] at h
    have hzero : ("" : String).length = 0 := rfl
    rw [hzero] at h
    omega
  · intro hn
    subst hn
    unfold CpuDemo.main
    rw [hbuild]
    rfl

/-- C26, amended, for the call `buildText(1000000)` of the program on a machine that can
allocate the buffer. -/
theorem CpuDemo.buildText_returns_empty_witness :
    (0 : Int) ≤ 1000000 ∧ (1000000 : Int) * 26 ≤ 9223372036854775807 ∧
    CpuDemo.buildText (fun _ => true) 3 = .ok ("", "Alpha Bravo Charlie ") ∧
    CpuDemo.buildText (fun _ => true) 1000000 =
      .ok ("", CpuDemo.buildTextLoop (1000000 : Int).toNat 0 "") ∧
    ((0 : Int) < 1000000 → CpuDemo.buildTextLoop (1000000 : Int).toNat 0 "" ≠ "") ∧
    CpuDemo.countWords "" = [] ∧
    ((1000000 : Int) = CpuDemo.numOfWords →
      CpuDemo.main true true (fun _ => true) =
        .ok ["Processed 0 unique words\n", "Total text length: 0 characters\n"]) :=
  ⟨by decide, by decide, rfl,
    CpuDemo.buildText_returns_empty (fun _ => true) 1000000 (by decide) (by decide) rfl⟩
